import Mathlib

/-!
# snsfopt: coverage merge, ROM finalisation, loop detection and containers

A shallow embedding of the analysis core of `src/snsfopt.cpp` and of its
container resolver (`ReadSNSFFile`, `LoadROMFile`, `SaveSNSF`).

* Memory reached through a C pointer (`uint8_t *`, `uint32_t *`, `double[256]`)
  is a function from the index to the stored value.
* `for` loops are folds over the list of indices they visit, in visiting order;
  loops that leave through `break` are structural recursions on the number of
  iterations still to run.
* Simulated time (`double` in the source) is a whole number of ticks. Every
  finite `double` is a whole multiple of a power of two, so the tick can be
  taken as a power of two small enough for all time stamps in play. The code
  copies and compares time stamps, which is exact, and adds and subtracts
  them: a sum or difference of `double`s is the exact result rounded to 53
  significant bits, to nearest with ties to even (`roundDouble`). Overflow to
  infinity and NaN are outside the model.
-/

set_option autoImplicit false
set_option maxRecDepth 100000

/-- Memory behind a pointer: index to stored value. -/
abbrev Mem := Nat → Nat

/-! ## Arithmetic of `double` -/

/-- Number of binary digits of `n`; `fuel` bounds the number of halvings and
`n` itself is enough. -/
def bitLength : Nat → Nat → Nat
  | 0, _ => 0
  | fuel + 1, n => if n = 0 then 0 else bitLength fuel (n / 2) + 1

/-- The rounding of IEEE-754 binary64 arithmetic on the magnitude of a value, a
whole number of ticks: a magnitude of at most 53 significant bits is a `double`
and is kept; otherwise the bits below the 53 leading ones are rounded away, to
nearest, ties to the even significand. -/
def roundSignificand (n : Nat) : Nat :=
  if n < 2 ^ 53 then n
  else
    let e := bitLength n n - 53
    let q := n / 2 ^ e
    let r := n % 2 ^ e
    let q1 := if 2 ^ (e - 1) < r ∨ (r = 2 ^ (e - 1) ∧ q % 2 = 1) then q + 1 else q
    q1 * 2 ^ e

/-- The rounding of IEEE-754 binary64 arithmetic: sign and rounded magnitude. -/
def roundDouble (x : Int) : Int :=
  if x < 0 then -(roundSignificand x.natAbs : Int) else (roundSignificand x.natAbs : Int)

/-- `a + b` on `double`s. -/
def addDouble (a b : Int) : Int := roundDouble (a + b)

/-- `a - b` on `double`s. -/
def subDouble (a b : Int) : Int := roundDouble (a - b)

/-- Indices visited by `for (c = lo; c < hi; c++)`, in order. -/
def forUp (lo hi : Nat) : List Nat := List.range' lo (hi - lo)

/-- Indices visited by `for (c = hi; c > 0; c--)`, in order. -/
def forDown (hi : Nat) : List Nat := (List.range' 1 hi).reverse

/-! ## MergeRefs (snsfopt.cpp 1034-1054) -/

/-- One iteration of the loop of `MergeRefs`: the state is the destination
array and `bytes_used` (a `uint32_t`). -/
def MergeRefs.body (src_refs : Mem) (s : Mem × Nat) (i : Nat) : Mem × Nat :=
  let dst_refs := s.1
  let dst_refs1 : Mem :=
    if dst_refs i + src_refs i ≤ 0xff then
      Function.update dst_refs i ((dst_refs i + src_refs i) % 256)
    else
      Function.update dst_refs i 0xff
  let bytes_used := if dst_refs1 i ≠ 0 then (s.2 + 1) % 2 ^ 32 else s.2
  (dst_refs1, bytes_used)

/-- `SnsfOpt::MergeRefs`: the merged destination array and the returned count. -/
def MergeRefs (dst_refs src_refs : Mem) (size : Nat) : Mem × Nat :=
  (forUp 0 size).foldl (MergeRefs.body src_refs) (dst_refs, 0)

/-- Number of indices below `n` that hold a non-zero value. -/
def countNonzero (m : Mem) (n : Nat) : Nat :=
  ((List.range n).filter (fun i => decide (m i ≠ 0))).length

/-! ## Collaborators

`SNESSystem` (the emulator) and the audio sink `m_output` are not part of
`snsfopt.cpp`; what the code reads from them is a field here. -/

/-- What `snsfopt.cpp` reads from the emulator `m_system` between two steps. -/
structure SNESSystem where
  /-- `IsLoaded()` -/
  IsLoaded : Bool
  /-- The loaded ROM image, by file offset; `ReadROM` serves bytes of it. -/
  image : Mem
  /-- `GetROMSize()` -/
  GetROMSize : Nat
  /-- `GetROMCoverage()`: live per-address 8-bit counters -/
  GetROMCoverage : Mem
  /-- `GetROMCoverageSize()` -/
  GetROMCoverageSize : Nat
  /-- `GetAPURAMCoverageSize()` -/
  GetAPURAMCoverageSize : Nat
  /-- `GetMemoryOffset(file_offset)` -/
  GetMemoryOffset : Nat → Nat
  /-- `GetROMCoverageHistogram()`: 256 buckets -/
  GetROMCoverageHistogram : Mem
  /-- `GetAPURAMCoverageHistogram()`: 256 buckets -/
  GetAPURAMCoverageHistogram : Mem
  /-- `FixROMChecksum(rom)`: the repaired buffer -/
  FixROMChecksum : Mem → Mem

/-- Modelled from the spec: `m_system->ReadROM(buf, size, offset)` of the
absent emulator class copies `size` bytes of the loaded ROM, starting at file
offset `offset`, to `buf`; here `buf` is `&rom[dst]`. -/
def SNESSystem.ReadROM (sys : SNESSystem) (rom : Mem) (dst size offset : Nat) : Mem :=
  fun j => if dst ≤ j ∧ j < dst + size then sys.image (offset + (j - dst)) else rom j

/-- What `snsfopt.cpp` reads from the audio sink `m_output` between two steps. -/
structure Output where
  /-- `get_timer()` -/
  get_timer : Int
  /-- `get_silence_length()` -/
  get_silence_length : Int
  /-- `get_silence_start()` -/
  get_silence_start : Int
  /-- `get_initial_silence_length()` -/
  get_initial_silence_length : Int

/-! ## Session state -/

/-- The data members of `SnsfOpt` that the modelled functions read or write. -/
structure SnsfOpt where
  optimize_timeout : Int
  time_loop_based : Bool
  target_loop_count : Nat
  loop_verify_length : Int
  oneshot_verify_length : Int
  paranoid_closed_area_fill_size : Nat
  paranoid_post_fill_size : Nat
  FixROMChecksum : Bool
  rom_refs : Mem
  rom_refs_histogram : Mem
  apuram_refs_histogram : Mem
  rom_bytes_used_old : Nat
  apuram_bytes_used_old : Nat
  time_last_new_data : Int
  loop_point : Nat → Int
  loop_point_raw : Nat → Int
  loop_point_updated : Nat → Bool
  loop_count : Nat
  oneshot_endpoint : Int
  oneshot : Bool
  initial_silence_length : Int
  song_endpoint : Int
  optimize_endpoint : Int
  covered_size : Nat
  paranoid_filled_size : Nat

/-! ## GetROM (snsfopt.cpp 1056-1144) -/

/-- Local variables of the wipe loop of `GetROM`, with the output buffer `rom`.
The three counters are `uint32_t` in the source; `covered_size` grows by at
most one and `paranoid_filled` by at most `paranoid_unused_area_size + 1` per
offset, with `size` at most `GetROMSize()`, so they are kept as naturals. -/
structure GetROM.Locals where
  rom : Mem
  paranoid_unused_area_size : Nat
  paranoid_post_fill_count : Nat
  covered_size : Nat
  paranoid_filled : Nat

/-- The inner `while (paranoid_unused_area_size > 0)` loop (1113-1120), run
with `n` as the value of `paranoid_unused_area_size`: the resulting
`paranoid_filled`. `fill_offset` is not advanced by the loop. -/
def GetROM.fillCount (sys : SNESSystem) (rom_refs : Mem) (fill_offset : Nat) : Nat → Nat → Nat
  | 0, paranoid_filled => paranoid_filled
  | n + 1, paranoid_filled =>
    let fill_mem_offset := sys.GetMemoryOffset fill_offset
    GetROM.fillCount sys rom_refs fill_offset n
      (if rom_refs fill_mem_offset = 0 then paranoid_filled + 1 else paranoid_filled)

/-- Body of the loop over `file_offset` (1084-1126). -/
def GetROM.body (sys : SNESSystem) (closed_area_fill_size post_fill_size : Nat) (rom_refs : Mem)
    (s : GetROM.Locals) (file_offset : Nat) : GetROM.Locals :=
  let mem_offset := sys.GetMemoryOffset file_offset
  let is_offset_used : Bool := decide (rom_refs mem_offset ≠ 0)
  let s1 : GetROM.Locals :=
    if is_offset_used = true ∨ s.paranoid_post_fill_count > 0 then
      { s with
        rom := sys.ReadROM s.rom file_offset 1 file_offset
        covered_size := if is_offset_used then s.covered_size + 1 else s.covered_size
        paranoid_filled := if is_offset_used then s.paranoid_filled else s.paranoid_filled + 1
        paranoid_post_fill_count :=
          if s.paranoid_post_fill_count > 0 then s.paranoid_post_fill_count - 1
          else s.paranoid_post_fill_count }
    else
      { s with rom := Function.update s.rom file_offset 0 }
  if is_offset_used then
    let s2 : GetROM.Locals := { s1 with paranoid_post_fill_count := post_fill_size }
    let s3 : GetROM.Locals :=
      if s2.paranoid_unused_area_size ≤ closed_area_fill_size then
        let fill_offset := file_offset - s2.paranoid_unused_area_size
        { s2 with
          rom := sys.ReadROM s2.rom fill_offset s2.paranoid_unused_area_size fill_offset
          paranoid_filled :=
            GetROM.fillCount sys rom_refs fill_offset s2.paranoid_unused_area_size s2.paranoid_filled }
      else s2
    { s3 with paranoid_unused_area_size := 0 }
  else
    { s1 with paranoid_unused_area_size := s1.paranoid_unused_area_size + 1 }

/-- The locals after the first `n` iterations of the loop over `file_offset`,
started on the caller's buffer `rom`. -/
def GetROM.run (sys : SNESSystem) (closed_area_fill_size post_fill_size : Nat) (rom_refs : Mem)
    (rom : Mem) (n : Nat) : GetROM.Locals :=
  (forUp 0 n).foldl (GetROM.body sys closed_area_fill_size post_fill_size rom_refs)
    { rom := rom, paranoid_unused_area_size := 0, paranoid_post_fill_count := 0,
      covered_size := 0, paranoid_filled := 0 }

/-- The private coverage copy of `GetROM` (1072-1074): `size` counters of the
accumulator merged with the live coverage. Indices from `size` on lie outside
the allocation and read as 0 here. -/
def GetROM.mergedRefs (self : SnsfOpt) (sys : SNESSystem) (size : Nat) : Mem :=
  (MergeRefs (fun i => if i < size then self.rom_refs i else 0) sys.GetROMCoverage size).1

/-- The `if (wipe_unused_data)` block of `GetROM` (1070-1132) for the already
clamped `size`: the locals when the loop ends. -/
def GetROM.wipe (self : SnsfOpt) (sys : SNESSystem) (rom : Mem) (size : Nat) : GetROM.Locals :=
  GetROM.run sys self.paranoid_closed_area_fill_size self.paranoid_post_fill_size
    (GetROM.mergedRefs self sys size) rom size

/-- The clamped size of `GetROM` (1065-1068). -/
def GetROM.clamp (sys : SNESSystem) (size : Nat) : Nat :=
  if size > sys.GetROMSize then sys.GetROMSize else size

/-- `SnsfOpt::GetROM`: the returned flag, the caller's buffer and the session. -/
def SnsfOpt.GetROM (self : SnsfOpt) (sys : SNESSystem) (rom : Mem) (size : Nat)
    (wipe_unused_data : Bool) : Bool × Mem × SnsfOpt :=
  if !sys.IsLoaded then (false, rom, self)
  else
    let size := GetROM.clamp sys size
    let r : Mem × SnsfOpt :=
      if wipe_unused_data then
        let s := GetROM.wipe self sys rom size
        (s.rom, { self with covered_size := s.covered_size, paranoid_filled_size := s.paranoid_filled })
      else
        (sys.ReadROM rom 0 size 0, self)
    let rom1 := if self.FixROMChecksum then sys.FixROMChecksum r.1 else r.1
    (true, rom1, r.2)

/-- Whether file offset `i` is used: the counter of the coverage map `rom_refs`
at its memory offset is non-zero. -/
def isUsed (sys : SNESSystem) (rom_refs : Mem) (i : Nat) : Bool :=
  decide (rom_refs (sys.GetMemoryOffset i) ≠ 0)

/-- Length of the run of unused offsets that ends just before offset `n`. -/
def runLen (sys : SNESSystem) (rom_refs : Mem) : Nat → Nat
  | 0 => 0
  | n + 1 => if isUsed sys rom_refs n then 0 else runLen sys rom_refs n + 1

/-- Value of the post-fill countdown when offset `n` is reached. -/
def postCount (sys : SNESSystem) (post_fill_size : Nat) (rom_refs : Mem) : Nat → Nat
  | 0 => 0
  | n + 1 => if isUsed sys rom_refs n then post_fill_size
             else postCount sys post_fill_size rom_refs n - 1

/-- The offsets below `n` kept by the closed-area rule after `n` iterations:
some used offset `u < n` ends an unused run through `i` of length at most `c`. -/
def closedBy (sys : SNESSystem) (c : Nat) (refs : Mem) (n i : Nat) : Prop :=
  ∃ u, i < u ∧ u < n ∧ isUsed sys refs u = true ∧ u - runLen sys refs u ≤ i ∧
    runLen sys refs u ≤ c

/-- Number of used file offsets below `n`. -/
def countUsed (sys : SNESSystem) (rom_refs : Mem) (n : Nat) : Nat :=
  ((List.range n).filter (isUsed sys rom_refs)).length

/-- Rule (b) of the finaliser in the spec's words: a used offset `j` lies
between 1 and `post_fill_size` places before `i`. -/
def postKept (sys : SNESSystem) (post_fill_size : Nat) (rom_refs : Mem) (i : Nat) : Prop :=
  ∃ j, isUsed sys rom_refs j = true ∧ 1 ≤ i - j ∧ i - j ≤ post_fill_size

/-- Rule (c) of the finaliser in the spec's words: `i` lies in a maximal run
`[s, u)` of unused offsets (it starts the image or follows a used offset) of
length at most `closed_area_fill_size` that the used offset `u < size` ends. -/
def closedKept (sys : SNESSystem) (closed_area_fill_size : Nat) (rom_refs : Mem)
    (size i : Nat) : Prop :=
  ∃ s u, s ≤ i ∧ i < u ∧ u < size ∧ isUsed sys rom_refs u = true ∧
    (∀ k, s ≤ k → k < u → isUsed sys rom_refs k = false) ∧
    (s = 0 ∨ isUsed sys rom_refs (s - 1) = true) ∧ u - s ≤ closed_area_fill_size

/-! ## Concrete sessions used by the examples -/

/-- The session as the constructor and `ResetOptimizer` leave it
(snsfopt.cpp 50-70, 621-632): default options, zeroed tables. -/
def SnsfOpt.initial : SnsfOpt :=
  { optimize_timeout := 10, time_loop_based := false, target_loop_count := 2,
    loop_verify_length := 20, oneshot_verify_length := 15,
    paranoid_closed_area_fill_size := 1, paranoid_post_fill_size := 0,
    FixROMChecksum := false,
    rom_refs := fun _ => 0, rom_refs_histogram := fun _ => 0,
    apuram_refs_histogram := fun _ => 0,
    rom_bytes_used_old := 0, apuram_bytes_used_old := 0, time_last_new_data := 0,
    loop_point := fun _ => 0, loop_point_raw := fun _ => 0,
    loop_point_updated := fun _ => false, loop_count := 0,
    oneshot_endpoint := 0, oneshot := false, initial_silence_length := 0,
    song_endpoint := 0, optimize_endpoint := 0, covered_size := 0, paranoid_filled_size := 0 }

/-- A loaded emulator with the given ROM bytes and live coverage counters,
identity offset mapping, empty histograms. -/
def SNESSystem.ofBytes (image coverage : Mem) (size : Nat) : SNESSystem :=
  { IsLoaded := true, image := image, GetROMSize := size, GetROMCoverage := coverage,
    GetROMCoverageSize := 0, GetAPURAMCoverageSize := 0, GetMemoryOffset := fun i => i,
    GetROMCoverageHistogram := fun _ => 0, GetAPURAMCoverageHistogram := fun _ => 0,
    FixROMChecksum := fun r => r }

/-- Scenario A: a 0x300-byte image whose offsets 0x200-0x2FF are covered
except the three bytes 0x280-0x282. -/
def scenarioA : SNESSystem :=
  SNESSystem.ofBytes (fun i => i % 251 + 1)
    (fun i => if 0x200 ≤ i ∧ i < 0x300 ∧ ¬ (0x280 ≤ i ∧ i < 0x283) then 1 else 0) 0x300

/-- Three bytes 11, 12, 13 of which the first and the last are covered. -/
def threeBytes : SNESSystem :=
  SNESSystem.ofBytes (fun i => [11, 12, 13].getD i 0) (fun i => [1, 0, 1].getD i 0) 3

/-- Scenario A options: defaults with `paranoid_closed_area_fill_size = 4`. -/
def scenarioA_opt : SnsfOpt :=
  { SnsfOpt.initial with paranoid_closed_area_fill_size := 4 }

/-- Both paranoid rules switched on with size 1 (`-p 1 -P 1`). -/
def bothRules_opt : SnsfOpt :=
  { SnsfOpt.initial with paranoid_closed_area_fill_size := 1, paranoid_post_fill_size := 1 }

/-! ## Loop detection (snsfopt.cpp 695-746, 907-1028) -/

/-- `SnsfOpt::Optimize_Start`. -/
def SnsfOpt.Optimize_Start (self : SnsfOpt) (sys : SNESSystem) (out : Output) : SnsfOpt :=
  { self with
    rom_bytes_used_old := sys.GetROMCoverageSize
    apuram_bytes_used_old := sys.GetAPURAMCoverageSize
    time_last_new_data := out.get_timer
    loop_point := fun i => if i < 256 then 0 else self.loop_point i
    loop_point_raw := fun i => if i < 256 then 0 else self.loop_point_raw i
    loop_point_updated := fun i => if i < 256 then false else self.loop_point_updated i
    loop_count := 0
    oneshot_endpoint := 0
    oneshot := false
    initial_silence_length := 0 }

/-- The scan of `ExpectPossibleLoopCount` from bucket `count` on, with `fuel`
iterations left before `count` reaches 256; the result is a `uint8_t`. -/
def ExpectPossibleLoopCount.scan (histogram new_histogram : Mem) : Nat → Nat → Nat
  | 0, _ => 255
  | fuel + 1, count =>
    if histogram count ≠ new_histogram count then (count - 1) % 256
    else ExpectPossibleLoopCount.scan histogram new_histogram fuel (count + 1)

/-- `SnsfOpt::ExpectPossibleLoopCount`. -/
def ExpectPossibleLoopCount (histogram new_histogram : Mem) : Nat :=
  ExpectPossibleLoopCount.scan histogram new_histogram 255 1

/-- `loop_count_expected_upper` as `DetectLoop` computes it (926-935). -/
def DetectLoop.expected_upper (self : SnsfOpt) (sys : SNESSystem) : Nat :=
  let loop_count_expected_upper :=
    ExpectPossibleLoopCount self.rom_refs_histogram sys.GetROMCoverageHistogram
  if self.time_loop_based then
    let apu_loop_count_expected_upper :=
      ExpectPossibleLoopCount self.apuram_refs_histogram sys.GetAPURAMCoverageHistogram
    if apu_loop_count_expected_upper < loop_count_expected_upper then
      apu_loop_count_expected_upper
    else loop_count_expected_upper
  else loop_count_expected_upper

/-- Body of the loop "update loop point of new loops" (938-945) on
`(loop_point_raw, loop_point_updated)`. -/
def DetectLoop.stampBody (t : Int) (s : (Nat → Int) × (Nat → Bool)) (count : Nat) :
    (Nat → Int) × (Nat → Bool) :=
  if s.2 count then (Function.update s.1 count t, Function.update s.2 count false) else s

/-- The tables `(loop_point_raw, loop_point_updated)` after lines 938-945. -/
def DetectLoop.stamped (self : SnsfOpt) (sys : SNESSystem) (out : Output) :
    (Nat → Int) × (Nat → Bool) :=
  (forDown (DetectLoop.expected_upper self sys)).foldl (DetectLoop.stampBody out.get_timer)
    (self.loop_point_raw, self.loop_point_updated)

/-- Body of the loop "make each loop points unique" (950-956) on
`(loop_count_unique, loop_point)`. -/
def DetectLoop.uniqueBody (loop_point_raw : Nat → Int) (s : Nat × (Nat → Int)) (count : Nat) :
    Nat × (Nat → Int) :=
  if loop_point_raw count ≠ loop_point_raw (count - 1) then
    (s.1 + 1, Function.update s.2 (s.1 + 1) (loop_point_raw count))
  else s

/-- `(loop_count_unique, loop_point)` after lines 948-956. -/
def DetectLoop.collapsed (self : SnsfOpt) (sys : SNESSystem) (out : Output) :
    Nat × (Nat → Int) :=
  let loop_point_raw := (DetectLoop.stamped self sys out).1
  (forUp 2 (DetectLoop.expected_upper self sys + 1)).foldl (DetectLoop.uniqueBody loop_point_raw)
    (1, Function.update self.loop_point 1 (loop_point_raw 1))

/-- The loop "verify the loop" (959-967) started at `count`: the resulting
`loop_count`. -/
def DetectLoop.verify (t loop_verify_length : Int) (loop_point : Nat → Int) : Nat → Nat
  | 0 => 0
  | count + 1 =>
    if subDouble t (loop_point (count + 1)) ≥ loop_verify_length then count + 1
    else DetectLoop.verify t loop_verify_length loop_point count

/-- `loop_count` after lines 959-967. -/
def DetectLoop.verified (self : SnsfOpt) (sys : SNESSystem) (out : Output) : Nat :=
  DetectLoop.verify out.get_timer self.loop_verify_length (DetectLoop.collapsed self sys out).2
    (DetectLoop.collapsed self sys out).1

/-- `SnsfOpt::DetectLoop`. -/
def SnsfOpt.DetectLoop (self : SnsfOpt) (sys : SNESSystem) (out : Output) : SnsfOpt :=
  let loop_count_expected_upper := DetectLoop.expected_upper self sys
  let stamped := DetectLoop.stamped self sys out
  let loop_count_unique := (DetectLoop.collapsed self sys out).1
  let loop_point := (DetectLoop.collapsed self sys out).2
  let loop_count := DetectLoop.verified self sys out
  let loop_point1 : Nat → Int :=
    if loop_count_expected_upper = 255 ∧ loop_count = loop_count_unique then
      (forUp (loop_count_unique + 1) 256).foldl
        (fun lp count => Function.update lp count (lp loop_count_unique)) loop_point
    else
      (forUp (loop_count_unique + 1) 256).foldl
        (fun lp count => Function.update lp count out.get_timer) loop_point
  let rearmed : (Nat → Int) × (Nat → Bool) :=
    (forUp (loop_count_expected_upper + 1) 256).foldl
      (fun s count => (Function.update s.1 count out.get_timer, Function.update s.2 count true))
      stamped
  { self with
    loop_point := loop_point1
    loop_point_raw := rearmed.1
    loop_point_updated := rearmed.2
    loop_count := loop_count
    rom_refs_histogram := fun i => if i < 256 then sys.GetROMCoverageHistogram i
                                   else self.rom_refs_histogram i
    apuram_refs_histogram := fun i => if i < 256 then sys.GetAPURAMCoverageHistogram i
                                      else self.apuram_refs_histogram i }

/-- `SnsfOpt::DetectOneShot`. -/
def SnsfOpt.DetectOneShot (self : SnsfOpt) (out : Output) : SnsfOpt :=
  if out.get_silence_length ≥ self.oneshot_verify_length ∧ self.loop_count ≠ 0 then
    { self with oneshot_endpoint := out.get_silence_start, oneshot := true }
  else
    { self with oneshot := false }

/-- `SnsfOpt::AdjustOptimizationEndPoint`. -/
def SnsfOpt.AdjustOptimizationEndPoint (self : SnsfOpt) (out : Output) : SnsfOpt :=
  if self.time_loop_based then
    if self.oneshot then
      { self with song_endpoint := self.oneshot_endpoint, optimize_endpoint := out.get_timer }
    else
      { self with
        song_endpoint := self.loop_point self.target_loop_count
        optimize_endpoint := addDouble (self.loop_point self.target_loop_count)
          (max self.loop_verify_length self.oneshot_verify_length) }
  else
    { self with
      song_endpoint := self.time_last_new_data
      optimize_endpoint := addDouble self.time_last_new_data self.optimize_timeout }

/-- `SnsfOpt::Optimize_BeforeLoop`. -/
def SnsfOpt.Optimize_BeforeLoop (self : SnsfOpt) (sys : SNESSystem) : SnsfOpt :=
  { self with rom_bytes_used_old := sys.GetROMCoverageSize }

/-- `SnsfOpt::Optimize_AfterLoop`. -/
def SnsfOpt.Optimize_AfterLoop (self : SnsfOpt) (sys : SNESSystem) (out : Output) : SnsfOpt :=
  let s0 : SnsfOpt := { self with initial_silence_length := out.get_initial_silence_length }
  let s1 : SnsfOpt :=
    if sys.GetROMCoverageSize ≠ s0.rom_bytes_used_old then
      { s0 with time_last_new_data := out.get_timer }
    else s0
  ((s1.DetectLoop sys out).DetectOneShot out).AdjustOptimizationEndPoint out

/-- `SnsfOpt::Optimize_Finished`. -/
def SnsfOpt.Optimize_Finished (self : SnsfOpt) (out : Output) : Bool :=
  if out.get_timer ≥ self.optimize_endpoint then true else false

/-- The session after a sequence of `DetectLoop` steps, one per sampled
emulator state. -/
def SnsfOpt.detectLoops (self : SnsfOpt) (steps : List (SNESSystem × Output)) : SnsfOpt :=
  steps.foldl (fun s io => s.DetectLoop io.1 io.2) self

/-- Helper of `dedupKept`: the entries of the list that differ from the
previous kept entry, `prev` being the entry kept last. -/
def dedupKept.go (prev : Int) : List Int → List Int
  | [] => []
  | y :: ys => if y ≠ prev then y :: dedupKept.go y ys else dedupKept.go prev ys

/-- The collapse in the spec's words: keep the first entry and every later
entry whose value differs from the previous kept entry. -/
def dedupKept : List Int → List Int
  | [] => []
  | x :: xs => x :: dedupKept.go x xs

/-- Invariant of the raw loop table between two `DetectLoop` steps, `T` being
the time of the last step: no raw stamp is later than `T`, the raw stamps do
not decrease with the bucket, and the dirty buckets form an upper segment. -/
def LoopInv (s : SnsfOpt) (T : Int) : Prop :=
  (∀ c, 1 ≤ c → c ≤ 255 → s.loop_point_raw c ≤ T) ∧
  (∀ c, 1 ≤ c → c < 255 → s.loop_point_raw c ≤ s.loop_point_raw (c + 1)) ∧
  (∀ c c', 1 ≤ c → c ≤ c' → c' ≤ 255 →
    s.loop_point_updated c = true → s.loop_point_updated c' = true)

/-- An emulator snapshot that only carries the two coverage histograms. -/
def SNESSystem.ofHistograms (rom apu : List Nat) : SNESSystem :=
  { SNESSystem.ofBytes (fun _ => 0) (fun _ => 0) 0 with
    GetROMCoverageHistogram := fun i => rom.getD i 0
    GetAPURAMCoverageHistogram := fun i => apu.getD i 0 }

/-- An audio-sink snapshot at time `t` with the given trailing silence. -/
def Output.atTime (t silence_length silence_start : Int) : Output :=
  { get_timer := t, get_silence_length := silence_length,
    get_silence_start := silence_start, get_initial_silence_length := 0 }

/-- Scenario C options: timing mode, two loops, verify length 20, silence
verify length 15 (the defaults of the constructor). -/
def scenarioC_opt : SnsfOpt :=
  { SnsfOpt.initial with time_loop_based := true }

/-- One pass of the driver loop of `Run` with the Optimize hooks:
`Optimize_BeforeLoop` on the emulator state before `CPULoop`, then
`Optimize_AfterLoop` on the emulator and audio-sink state after it. -/
def SnsfOpt.Optimize_iteration (self : SnsfOpt) (it : SNESSystem × SNESSystem × Output) :
    SnsfOpt :=
  (self.Optimize_BeforeLoop it.1).Optimize_AfterLoop it.2.1 it.2.2

/-- The session after a sequence of driver passes. -/
def SnsfOpt.optimizeRun (self : SnsfOpt) (iters : List (SNESSystem × SNESSystem × Output)) :
    SnsfOpt :=
  iters.foldl SnsfOpt.Optimize_iteration self

/-- Whether the live ROM coverage size changed during a driver pass. -/
def coverageChanged (it : SNESSystem × SNESSystem × Output) : Bool :=
  decide (it.2.1.GetROMCoverageSize ≠ it.1.GetROMCoverageSize)

/-- The spec's "time of last observed coverage growth": the time of the most
recent pass during which the coverage size changed, `start` if there is none. -/
def lastNewData (start : Int) (iters : List (SNESSystem × SNESSystem × Output)) : Int :=
  match iters.reverse.find? coverageChanged with
  | some it => it.2.2.get_timer
  | none => start

/-- Scenario B options: coverage mode with `optimize_timeout = 5`. -/
def scenarioB_opt : SnsfOpt :=
  { SnsfOpt.initial with optimize_timeout := 5 }

/-- An emulator snapshot that only carries the live ROM coverage size. -/
def SNESSystem.ofCoverageSize (n : Nat) : SNESSystem :=
  { SNESSystem.ofBytes (fun _ => 0) (fun _ => 0) 0 with GetROMCoverageSize := n }

/-- Scenario B run: coverage grows during the passes ending at 4 and 10 and
stays the same during the passes ending at 12 and `t`. -/
def scenarioB_run (t : Int) : List (SNESSystem × SNESSystem × Output) :=
  [(SNESSystem.ofCoverageSize 0, SNESSystem.ofCoverageSize 7, Output.atTime 4 0 0),
   (SNESSystem.ofCoverageSize 7, SNESSystem.ofCoverageSize 9, Output.atTime 10 0 0),
   (SNESSystem.ofCoverageSize 9, SNESSystem.ofCoverageSize 9, Output.atTime 12 0 0),
   (SNESSystem.ofCoverageSize 9, SNESSystem.ofCoverageSize 9, Output.atTime t 0 0)]

/-- Scenario C run in timing mode: histogram bucket 2 first appears at 30,
bucket 3 at 55, then nothing changes up to the sample at time `t`. -/
def scenarioC_run (t : Int) : SnsfOpt :=
  ((((scenarioC_opt.Optimize_Start (SNESSystem.ofHistograms [] []) (Output.atTime 0 0 0)).Optimize_AfterLoop
    (SNESSystem.ofHistograms [5, 3] []) (Output.atTime 10 0 0)).Optimize_AfterLoop
    (SNESSystem.ofHistograms [5, 3, 1] []) (Output.atTime 30 0 0)).Optimize_AfterLoop
    (SNESSystem.ofHistograms [5, 3, 1, 1] []) (Output.atTime 55 0 0)).Optimize_AfterLoop
    (SNESSystem.ofHistograms [5, 3, 1, 1] []) (Output.atTime t 0 0)


/-- A session two `DetectLoop` steps into a run: bucket 1 of the histogram has
settled and was stamped at 30, buckets 2 and 3 appeared at 30 and are armed. -/
def collapse_session : SnsfOpt :=
  (SnsfOpt.initial.Optimize_Start (SNESSystem.ofHistograms [] []) (Output.atTime 0 0 0)).detectLoops
    [(SNESSystem.ofHistograms [5, 3] [], Output.atTime 10 0 0),
     (SNESSystem.ofHistograms [5, 3, 1, 1] [], Output.atTime 30 0 0)]

/-- Timing mode with both verify lengths 1. -/
def roundingC_opt : SnsfOpt :=
  { scenarioC_opt with loop_verify_length := 1, oneshot_verify_length := 1 }

/-- Coverage mode with `optimize_timeout = 1`. -/
def roundingB_opt : SnsfOpt :=
  { SnsfOpt.initial with optimize_timeout := 1 }

/-! ## Container resolution (snsfopt.cpp 253-343, 383-619, 1178-1219)

`PSFFile`, its zlib streams and the path helpers are not part of
`snsfopt.cpp`; what the code uses of them is modelled below. -/

/-- Name of a PSF tag: `_lib`, `_lib<n>` as `sprintf(libNname, "_lib%d", n)`
renders it, or any other name. -/
inductive TagKey where
  | lib : TagKey
  | libN (n : Nat) : TagKey
  | other (name : String) : TagKey
  deriving DecidableEq

/-- The decompressed program stream of a container: `size` bytes, the byte at
each position. -/
structure ExeStream where
  size : Nat
  data : Mem

/-- A container as `PSFFile::load` delivers it: version byte, tag map (a
finite association list with distinct keys), program stream and reserved
section. -/
structure PSFFile where
  version : Nat
  tags : List (TagKey × String)
  compressed_exe : ExeStream
  reserved : List Nat

/-- Modelled from the spec: `ZlibReader::readInt` of the absent codec reads a
4-byte little-endian integer at position `pos`; it fails when fewer than 4
bytes are left. -/
def ExeStream.readInt (s : ExeStream) (pos : Nat) : Option Nat :=
  if pos + 4 ≤ s.size then
    some (s.data pos % 256 + 256 * (s.data (pos + 1) % 256)
      + 65536 * (s.data (pos + 2) % 256) + 16777216 * (s.data (pos + 3) % 256))
  else none

/-- Modelled from the spec: `ZlibReader::read(&buf[dst], n)` of the absent
codec copies the bytes that are left from position `pos` on, at most `n`, to
`buf[dst..]` and returns how many it copied. -/
def ExeStream.read (s : ExeStream) (pos n : Nat) (buf : Mem) (dst : Nat) : Mem × Nat :=
  (fun j => if dst ≤ j ∧ j < dst + min n (s.size - pos) then s.data (pos + (j - dst))
            else buf j,
   min n (s.size - pos))

/-- What `snsfopt.cpp` uses of the file system: the container codec, the test
`PSFFile::IsPSFFile`, `path_dirname`, the working directory reached by `chdir`
from a working directory, and the size, the opening and the reading of a plain
file. -/
structure FileSystem where
  /-- `PSFFile::load(filename)` in working directory `cwd`; `none` is NULL -/
  load : String → String → Option PSFFile
  /-- `PSFFile::IsPSFFile(filename)` in working directory `cwd` -/
  IsPSFFile : String → String → Bool
  /-- `path_dirname` -/
  path_dirname : String → String
  /-- The working directory after `chdir(dir)` in working directory `cwd` -/
  chdir : String → String → String
  /-- `path_getfilesize(filename)` in working directory `cwd`, an `off_t` -/
  path_getfilesize : String → String → Int
  /-- Whether `fopen(filename, "rb")` in working directory `cwd` gives a file -/
  fopen : String → String → Bool
  /-- The bytes that `fread` delivers from the start of the opened file when
  `n` bytes are asked for; their number is the value `fread` returns -/
  fread : String → String → Nat → List Nat
  /-- `path_getabspath` -/
  path_getabspath : String → String → String
  /-- `path_basename` -/
  path_basename : String → String

/-- Which of the three out-pointers of `ReadSNSFFile` are not NULL. -/
structure Pointers where
  rom_size : Bool
  sram_size : Bool
  base_offset : Bool

/-- One payload copied into the ROM buffer: the container it came from (working
directory and file name), the load address of its header, the buffer index it
starts at, the number of bytes
copied and the bytes. -/
structure Written where
  cwd : String
  filename : String
  address : Nat
  offset : Nat
  count : Nat
  data : Mem

/-- Ghost record of what a call of `ReadSNSFFile` does, in order: a container
is passed to `PSFFile::load` (working directory, file name), a call ends with
"Loaded successfully", or a call sets an error message. -/
inductive ReadEvent where
  | load (cwd filename : String) : ReadEvent
  | loaded (filename : String) : ReadEvent
  | failed (filename msg : String) : ReadEvent
  deriving DecidableEq

/-- What a call of `ReadSNSFFile` reads and writes besides its arguments: the
two buffers, the values behind the three out-pointers, `m_message` and the
process working directory. The last three fields are ghost records, not in the
source: the events in order, the payload headers in the order their buffer
offset was fixed (load address, buffer offset, length), and the payloads copied
into the ROM buffer in order. -/
structure ReadState where
  rom_buf : Mem
  rom_size : Nat
  sram_buf : Mem
  sram_size : Nat
  base_offset : Nat
  m_message : String
  cwd : String
  events : List ReadEvent
  resolved : List (Nat × Nat × Nat)
  written : List Written

/-- `SNSF_PSF_VERSION` -/
def SNSF_PSF_VERSION : Nat := 0x23
/-- `SNES_HEADER_SIZE` -/
def SNES_HEADER_SIZE : Nat := 0x800
/-- `MAX_SNES_ROM_SIZE` -/
def MAX_SNES_ROM_SIZE : Nat := 0x800000
/-- `MAX_SNES_SRAM_SIZE` -/
def MAX_SNES_SRAM_SIZE : Nat := 0x20000

/-- A 32-bit little-endian value at byte `i` of the reserved section, as the
source assembles it with `|` and `<<`. A byte past the end of the section is
undefined in the source and reads 0 here. -/
def reservedInt (reserved : List Nat) (i : Nat) : Nat :=
  ((reserved.getD i 0 % 256) ||| ((reserved.getD (i + 1) 0 % 256) <<< 8)
    ||| ((reserved.getD (i + 2) 0 % 256) <<< 16) ||| ((reserved.getD (i + 3) 0 % 256) <<< 24))
    % 2 ^ 32

/-- The failure exit of `ReadSNSFFile`: the message is set, the working
directory is put back. -/
def ReadSNSFFile.fail (filename : String) (savedcwd : String) (msg : String) (st : ReadState) :
    Bool × ReadState :=
  (false, { st with
    m_message := filename ++ " - " ++ msg
    cwd := savedcwd
    events := st.events ++ [ReadEvent.failed filename msg] })

/-- Lines 458-522 of `ReadSNSFFile`: header of the program stream, buffer
offset, size check, size update and payload copy. -/
def ReadSNSFFile.payload (filename : String) (savedcwd : String) (p : Pointers) (snsf : PSFFile)
    (st : ReadState) : Bool × ReadState :=
  match snsf.compressed_exe.readInt 0, snsf.compressed_exe.readInt 4 with
  | some rom_address, some rom_size =>
    let rom_offset := rom_address &&& 0x1FFFFFF
    if st.base_offset = 0xffffffff ∧ rom_offset > 0xff00 then
      ReadSNSFFile.fail filename savedcwd "Base offset out of range" st
    else
      let rom_offset1 :=
        if st.base_offset = 0xffffffff then rom_offset
        else (rom_offset + st.base_offset) % 2 ^ 32
      let st1 : ReadState :=
        { st with
          base_offset := if st.base_offset = 0xffffffff then rom_offset else st.base_offset
          resolved := st.resolved ++ [(rom_address, rom_offset1, rom_size)] }
      if (rom_offset1 + rom_size) % 2 ^ 32 > SNES_HEADER_SIZE + MAX_SNES_ROM_SIZE then
        ReadSNSFFile.fail filename savedcwd "ROM size error" st1
      else
        let st2 : ReadState :=
          if p.rom_size = true ∧ st1.rom_size < (rom_offset1 + rom_size) % 2 ^ 32 then
            { st1 with rom_size := (rom_offset1 + rom_size) % 2 ^ 32 }
          else st1
        let r := snsf.compressed_exe.read 8 rom_size st2.rom_buf rom_offset1
        let st3 : ReadState :=
          { st2 with
            rom_buf := r.1
            written := st2.written ++
              [{ cwd := st2.cwd, filename := filename, address := rom_address,
                 offset := rom_offset1, count := r.2,
                 data := fun i => snsf.compressed_exe.data (8 + i) }] }
        if r.2 ≠ rom_size then
          ReadSNSFFile.fail filename savedcwd "Unable to load ROM data" st3
        else (true, st3)
  | _, _ => ReadSNSFFile.fail filename savedcwd "Read error at SNSF EXE header" st

/-- Lines 524-574 of `ReadSNSFFile`: the reserved section. -/
def ReadSNSFFile.reservedSection (filename : String) (savedcwd : String) (p : Pointers)
    (snsf : PSFFile) (st : ReadState) : Bool × ReadState :=
  if snsf.reserved.length > 8 then
    let reserve_type := reservedInt snsf.reserved 0
    let reserve_size := reservedInt snsf.reserved 4
    if reserve_type = 0 then
      if reserve_size < 4 then
        ReadSNSFFile.fail filename savedcwd "Reserve section (SRAM) is too short" st
      else
        let sram_offset := reservedInt snsf.reserved 8
        let sram_patch_size := reserve_size - 4
        if (sram_offset + sram_patch_size) % 2 ^ 32 > MAX_SNES_SRAM_SIZE then
          ReadSNSFFile.fail filename savedcwd "SRAM size error" st
        else
          let st1 : ReadState :=
            { st with
              sram_buf := fun j =>
                if sram_offset ≤ j ∧ j < sram_offset + sram_patch_size then
                  snsf.reserved.getD (12 + (j - sram_offset)) 0 % 256
                else st.sram_buf j }
          let st2 : ReadState :=
            if p.sram_size = true ∧ st1.sram_size < (sram_offset + sram_patch_size) % 2 ^ 32 then
              { st1 with sram_size := (sram_offset + sram_patch_size) % 2 ^ 32 }
            else st1
          (true, st2)
    else
      ReadSNSFFile.fail filename savedcwd "Unsupported reserve section type" st
  else (true, st)

/-- Lines 592-613 of `ReadSNSFFile`: the loop over `_lib2`, `_lib3`, ..., with
`resolve` standing for the nested call. `fuel` bounds the number of passes;
`none` means the bound was too small. -/
def ReadSNSFFile.libs (resolve : String → ReadState → Option (Bool × ReadState))
    (tags : List (TagKey × String)) : Nat → Nat → ReadState → Option (Bool × ReadState)
  | 0, _, _ => none
  | fuel + 1, libN, st =>
    match tags.lookup (TagKey.libN libN) with
    | none => some (true, st)
    | some name =>
      match resolve name st with
      | none => none
      | some (false, st1) => some (false, st1)
      | some (true, st1) => ReadSNSFFile.libs resolve tags fuel (libN + 1) st1

/-- Lines 400-409 of `ReadSNSFFile`: the working directory is changed to the
directory part of `filename` when there is one; the ghost record notes the
`PSFFile::load` that follows. -/
def ReadSNSFFile.enter (fs : FileSystem) (filename : String) (st : ReadState) : ReadState :=
  let snsf_dir := fs.path_dirname filename
  let st0 : ReadState :=
    if snsf_dir ≠ "" then { st with cwd := fs.chdir st.cwd snsf_dir } else st
  { st0 with events := st0.events ++ [ReadEvent.load st0.cwd filename] }

/-- Lines 428-443 of `ReadSNSFFile`: the top-level initialisation. -/
def ReadSNSFFile.topInit (nesting_level : Nat) (p : Pointers) (st : ReadState) : ReadState :=
  if nesting_level = 0 then
    { st with
      rom_size := if p.rom_size then 0 else st.rom_size
      sram_size := if p.sram_size then 0 else st.sram_size
      base_offset := 0xffffffff }
  else st

/-- Lines 458-619 of `ReadSNSFFile`: the container's own payload, its reserved
section, the numbered libraries and the successful exit; `resolve` stands for
the nested call. -/
def ReadSNSFFile.ownAndLibs (resolve : String → ReadState → Option (Bool × ReadState))
    (filename : String) (savedcwd : String) (p : Pointers) (snsf : PSFFile) (st3 : ReadState) :
    Option (Bool × ReadState) :=
  match ReadSNSFFile.payload filename savedcwd p snsf st3 with
  | (false, st4) => some (false, st4)
  | (true, st4) =>
    match ReadSNSFFile.reservedSection filename savedcwd p snsf st4 with
    | (false, st5) => some (false, st5)
    | (true, st5) =>
      match ReadSNSFFile.libs resolve snsf.tags (snsf.tags.length + 1) 2 st5 with
      | none => none
      | some (false, st6) => some (false, { st6 with cwd := savedcwd })
      | some (true, st6) =>
        some (true, { st6 with
          m_message := filename ++ " - " ++ "Loaded successfully"
          cwd := savedcwd
          events := st6.events ++ [ReadEvent.loaded filename] })

/-- Lines 420-619 of `ReadSNSFFile`, for the container `snsf` that
`PSFFile::load` returned: version check, top-level initialisation, primary
library, then the rest; `resolve` stands for the nested call. -/
def ReadSNSFFile.container (resolve : String → ReadState → Option (Bool × ReadState))
    (filename : String) (savedcwd : String) (nesting_level : Nat) (p : Pointers) (snsf : PSFFile)
    (st1 : ReadState) : Option (Bool × ReadState) :=
  if snsf.version ≠ SNSF_PSF_VERSION then
    some (ReadSNSFFile.fail filename savedcwd "Mismatch PSF version" st1)
  else
    let st2 := ReadSNSFFile.topInit nesting_level p st1
    let lib_result : Option (Bool × ReadState) :=
      match snsf.tags.lookup TagKey.lib with
      | some name => resolve name st2
      | none => some (true, st2)
    match lib_result with
    | none => none
    | some (false, st3) => some (false, { st3 with cwd := savedcwd })
    | some (true, st3) => ReadSNSFFile.ownAndLibs resolve filename savedcwd p snsf st3

/-- The two refusals at the head of `ReadSNSFFile` (387-398): a NULL base-offset
pointer and a nesting level above 10. -/
def ReadSNSFFile.refused (filename : String) (nesting_level : Nat) (p : Pointers)
    (st : ReadState) : Option (Bool × ReadState) :=
  if p.base_offset = false then
    some (false, { st with
      m_message := filename ++ " - " ++ "Internal error (base offset must not be null)"
      events := st.events ++
        [ReadEvent.failed filename "Internal error (base offset must not be null)"] })
  else if nesting_level > 10 then
    some (false, { st with
      m_message := filename ++ " - " ++ "Too many snsflibs"
      events := st.events ++ [ReadEvent.failed filename "Too many snsflibs"] })
  else none

/-- `SnsfOpt::ReadSNSFFile` with a bound `fuel` on the nesting that is still
possible; `none` means the bound was too small. -/
def ReadSNSFFile.go (fs : FileSystem) :
    Nat → String → Nat → Pointers → ReadState → Option (Bool × ReadState)
  | 0, filename, nesting_level, p, st => ReadSNSFFile.refused filename nesting_level p st
  | fuel + 1, filename, nesting_level, p, st =>
    match ReadSNSFFile.refused filename nesting_level p st with
    | some r => some r
    | none =>
      let savedcwd := st.cwd
      let st1 := ReadSNSFFile.enter fs filename st
      match fs.load st1.cwd filename with
      | none => some (ReadSNSFFile.fail filename savedcwd "PSF load error" st1)
      | some snsf =>
        ReadSNSFFile.container
          (fun name s => ReadSNSFFile.go fs fuel name (nesting_level + 1) p s)
          filename savedcwd nesting_level p snsf st1

/-- `SnsfOpt::ReadSNSFFile`: levels above 10 are refused, so 11 further levels
of nesting are the most a call at `nesting_level` can see. -/
def ReadSNSFFile (fs : FileSystem) (filename : String) (nesting_level : Nat) (p : Pointers)
    (st : ReadState) : Option (Bool × ReadState) :=
  ReadSNSFFile.go fs (11 - nesting_level) filename nesting_level p st

/-- Number of tags `_lib<m>` with `m ≥ n`. -/
def countLibsFrom (tags : List (TagKey × String)) (n : Nat) : Nat :=
  tags.countP (fun kv => match kv.1 with
    | TagKey.libN m => decide (n ≤ m)
    | _ => false)

/-- The working directory in which `ReadSNSFFile` loads `filename` when it is
called in working directory `cwd`. -/
def enterDir (fs : FileSystem) (cwd filename : String) : String :=
  if fs.path_dirname filename ≠ "" then fs.chdir cwd (fs.path_dirname filename) else cwd

/-- No event of the list is an error. -/
def NoFail (es : List ReadEvent) : Prop :=
  ∀ e ∈ es, ∀ name msg, e ≠ ReadEvent.failed name msg

/-- The events of a call: a successful call records no error; a failed call
records exactly one, as its last event, and `m_message` is that error. -/
def EventsOK (st : ReadState) (r : Bool × ReadState) : Prop :=
  ∃ es, r.2.events = st.events ++ es ∧
    (r.1 = true → NoFail es) ∧
    (r.1 = false → ∃ es0 name msg, es = es0 ++ [ReadEvent.failed name msg] ∧ NoFail es0 ∧
      r.2.m_message = name ++ " - " ++ msg)

/-- State of the base offset between two payload headers: either it is still
the invalid sentinel and no header has been resolved, or it is the masked load
address of the first resolved header, at most 0xFF00, and every later header
was placed at its masked load address plus the base offset. -/
def BaseInv (st : ReadState) : Prop :=
  (st.base_offset = 0xffffffff ∧ st.resolved = []) ∨
  (st.base_offset ≤ 0xff00 ∧ ∃ a sz rest,
    st.resolved = (a, a &&& 0x1FFFFFF, sz) :: rest ∧ a &&& 0x1FFFFFF = st.base_offset ∧
    ∀ e ∈ rest, e.2.1 = (e.1 &&& 0x1FFFFFF) + st.base_offset)

/-- What a nested call does to the base offset: a base offset that is set
stays, and `BaseInv` is kept. -/
def BaseRel (st st' : ReadState) : Prop :=
  (st.base_offset ≠ 0xffffffff → st'.base_offset = st.base_offset) ∧
  (BaseInv st → BaseInv st')

/-- What the claim on the base offset says of the headers resolved by a
top-level call: the first one is placed at its masked load address, which is at
most 0xFF00 and is the base offset; every later one is placed at its masked
load address plus the base offset. -/
def BaseFinal (st : ReadState) : Prop :=
  ∀ a off sz rest, st.resolved = (a, off, sz) :: rest →
    off = a &&& 0x1FFFFFF ∧ off ≤ 0xff00 ∧ st.base_offset = off ∧
    ∀ e ∈ rest, e.2.1 = (e.1 &&& 0x1FFFFFF) + st.base_offset

/-- The header of a copied payload as the ghost list `resolved` records it. -/
def Written.header (w : Written) : Nat × Nat × Nat := (w.address, w.offset, w.count)

/-- Buffer index `j` lies in the range a copied payload occupies. -/
def Written.covers (w : Written) (j : Nat) : Prop := w.offset ≤ j ∧ j < w.offset + w.count

/-- The buffer after one payload has been copied into it. -/
def Written.apply (w : Written) (buf : Mem) : Mem :=
  fun j => if w.offset ≤ j ∧ j < w.offset + w.count then w.data (j - w.offset) else buf j

/-- The buffer after the payloads of the list have been copied into it, first
to last. -/
def applyWrites (ws : List Written) (buf : Mem) : Mem :=
  ws.foldl (fun b w => w.apply b) buf

/-- End of a payload in the buffer as the code computes it: buffer address plus
length in 32-bit arithmetic. -/
def Written.end32 (w : Written) : Nat := (w.offset + w.count) % 2 ^ 32

/-- The running maximum `*ptr_rom_size` after the payloads of the list, started
at `m`. -/
def maxEnd (ws : List Written) (m : Nat) : Nat :=
  ws.foldl (fun m w => if m < w.end32 then w.end32 else m) m

/-- The values of the tags `_lib<n>`, `_lib<n+1>`, ... up to the first number
that is missing; `fuel` bounds the count. -/
def libNames (tags : List (TagKey × String)) : Nat → Nat → List String
  | 0, _ => []
  | fuel + 1, n =>
    match tags.lookup (TagKey.libN n) with
    | none => []
    | some name => name :: libNames tags fuel (n + 1)

/-- The order of payload application in the spec's words: the primary `_lib`
chain first (recursively), then the container's own payload, then `_lib2`,
`_lib3`, ... in ascending number (each recursively). A payload is named by the
working directory in which its container is loaded and the file name; `fuel`
bounds the nesting. -/
def payloadOrder (fs : FileSystem) : Nat → String → String → List (String × String)
  | 0, _, _ => []
  | fuel + 1, cwd, filename =>
    match fs.load (enterDir fs cwd filename) filename with
    | none => []
    | some snsf =>
      (match snsf.tags.lookup TagKey.lib with
        | some name => payloadOrder fs fuel (enterDir fs cwd filename) name
        | none => [])
      ++ [(enterDir fs cwd filename, filename)]
      ++ ((libNames snsf.tags (snsf.tags.length + 1) 2).map
            (payloadOrder fs fuel (enterDir fs cwd filename))).flatten

/-- The payloads named `keys` were copied, in this order, between the states
`st` and `st'`: the ghost lists grew by them, the ROM buffer is the old one with
them copied in, `*ptr_rom_size` (when the pointer is not NULL) is the running
maximum, and the working directory is the same. -/
def Applied (p : Pointers) (keys : List (String × String)) (st st' : ReadState) : Prop :=
  ∃ ws, (st'.written = st.written ++ ws ∧
      st'.resolved = st.resolved ++ ws.map Written.header) ∧
    ws.map (fun w => (w.cwd, w.filename)) = keys ∧
    st'.rom_buf = applyWrites ws st.rom_buf ∧
    (p.rom_size = true → st'.rom_size = maxEnd ws st.rom_size) ∧
    st'.cwd = st.cwd


/-- The container `snsf` refers to the library `name`: through its `_lib` tag,
or through a tag `_lib<n>` that the loop over `_lib2`, `_lib3`, ... reaches
(every number from 2 up to `n` has a tag). -/
def Refers (snsf : PSFFile) (name : String) : Prop :=
  snsf.tags.lookup TagKey.lib = some name ∨
  ∃ n, 2 ≤ n ∧ (∀ k, 2 ≤ k → k < n → snsf.tags.lookup (TagKey.libN k) ≠ none) ∧
    snsf.tags.lookup (TagKey.libN n) = some name

/-- The copied payload `w` is what the store holds: the container loaded as
`w.filename` in working directory `w.cwd` has `w.address` as its load address,
`w.count` is the announced length or the number of bytes that were there, and
`w.data` are the bytes after the 8-byte header. -/
def FromStore (fs : FileSystem) (w : Written) : Prop :=
  ∃ snsf sz, fs.load w.cwd w.filename = some snsf ∧
    snsf.compressed_exe.readInt 0 = some w.address ∧
    snsf.compressed_exe.readInt 4 = some sz ∧
    w.count = min sz (snsf.compressed_exe.size - 8) ∧
    w.data = fun i => snsf.compressed_exe.data (8 + i)

/-- Every payload copied between the states `st` and `st'` is one of the
store. -/
def NewWrites (fs : FileSystem) (st st' : ReadState) : Prop :=
  ∃ ws, st'.written = st.written ++ ws ∧ ∀ w ∈ ws, FromStore fs w

/-! ## Loading (snsfopt.cpp 230-343) -/

/-- The members of `SnsfOpt` that loading reads or writes, with the emulator
`m_system` and the process working directory. -/
structure Session where
  opt : SnsfOpt
  m_system : SNESSystem
  m_message : String
  rom_path : String
  rom_filename : String
  snsf_base_offset : Nat
  cwd : String

/-- `SnsfOpt::LoadROM`. `emu` stands for the emulator after
`m_system->Load(rom, romsize, sram, sramsize)`, `SoundInit`, `Init` and `Reset`,
which are not part of `snsfopt.cpp`; `ResetOptimizerVariables` is empty. The
timer of the audio sink, which `LoadROM` resets, is not part of `Session`. -/
def SnsfOpt.LoadROM (emu : Mem → Nat → Mem → Nat → SNESSystem) (s : Session)
    (rom : Mem) (romsize : Nat) (sram : Mem) (sramsize : Nat) : Bool × Session :=
  let s1 : Session := { s with rom_path := "", rom_filename := "" }
  let s2 : Session :=
    if s1.m_system.IsLoaded then
      { s1 with opt := { s1.opt with
          rom_refs := (MergeRefs s1.opt.rom_refs s1.m_system.GetROMCoverage
            s1.m_system.GetROMSize).1 } }
    else s1
  (true, { s2 with m_system := emu rom romsize sram sramsize })

/-- The buffers and locals `LoadROMFile` hands to `ReadSNSFFile`: the ROM
buffer zeroed, the SRAM buffer filled with 0xFF. The three locals `rom_size`,
`sram_size` and `base_offset` are not initialised in the source and are written
by the top-level initialisation before they are read; they are 0 here. -/
def LoadROMFile.buffers (s : Session) : ReadState where
  rom_buf := fun _ => 0
  rom_size := 0
  sram_buf := fun _ => 0xff
  sram_size := 0
  base_offset := 0
  m_message := s.m_message
  cwd := s.cwd
  events := []
  resolved := []
  written := []

/-- `SnsfOpt::LoadROMFile`. `none` only when the bound on nesting inside
`ReadSNSFFile` was too small. For a plain ROM file the three failures of the
source are kept apart: a size out of range and a file that cannot be opened
are "File size error", a short read is "Unable to load ROM data". -/
def SnsfOpt.LoadROMFile (fs : FileSystem) (emu : Mem → Nat → Mem → Nat → SNESSystem)
    (filename : String) (s : Session) : Option (Bool × Session) :=
  if fs.IsPSFFile s.cwd filename then
    match ReadSNSFFile fs filename 0 ⟨true, true, true⟩ (LoadROMFile.buffers s) with
    | none => none
    | some (false, st) => some (false, { s with m_message := st.m_message, cwd := st.cwd })
    | some (true, st) =>
      let r := SnsfOpt.LoadROM emu { s with m_message := st.m_message, cwd := st.cwd }
        st.rom_buf st.rom_size st.sram_buf st.sram_size
      if r.1 then
        some (true, { r.2 with
          rom_path := fs.path_getabspath r.2.cwd filename
          rom_filename := fs.path_basename (fs.path_getabspath r.2.cwd filename)
          snsf_base_offset := st.base_offset })
      else some (false, r.2)
  else
    let filesize := fs.path_getfilesize s.cwd filename
    if filesize ≤ 0 ∨ filesize > ((SNES_HEADER_SIZE + MAX_SNES_ROM_SIZE : Nat) : Int) then
      some (false, { s with m_message := filename ++ " - " ++ "File size error" })
    else if fs.fopen s.cwd filename = false then
      some (false, { s with m_message := filename ++ " - " ++ "File size error" })
    else
      let bytes := (fs.fread s.cwd filename filesize.toNat).take filesize.toNat
      if bytes.length ≠ filesize.toNat then
        some (false, { s with m_message := filename ++ " - " ++ "Unable to load ROM data" })
      else
        let r := SnsfOpt.LoadROM emu s (fun i => bytes.getD i 0) filesize.toNat (fun _ => 0) 0
        if r.1 then
          some (true, { r.2 with
            rom_path := fs.path_getabspath r.2.cwd filename
            rom_filename := fs.path_basename (fs.path_getabspath r.2.cwd filename) })
        else some (false, r.2)

/-! ## SaveSNSF (snsfopt.cpp 1178-1219) -/

/-- The four bytes of a 32-bit value, least significant first. -/
def le4 (x : Nat) : List Nat := [x % 256, x / 256 % 256, x / 65536 % 256, x / 16777216 % 256]

/-- The program stream of a `ZlibWriter` to which nothing has been written. -/
def ExeStream.empty : ExeStream := { size := 0, data := fun _ => 0 }

/-- Modelled from the spec: `ZlibWriter::writeInt` of the absent codec appends
the 4 bytes of a 32-bit value, least significant first. -/
def ExeStream.writeInt (s : ExeStream) (x : Nat) : ExeStream :=
  { size := s.size + 4
    data := fun i => if s.size ≤ i ∧ i < s.size + 4 then (le4 x).getD (i - s.size) 0
                     else s.data i }

/-- Modelled from the spec: `ZlibWriter::write(&buf[src], n)` of the absent
codec appends the `n` bytes `buf[src..src+n)` and returns `n`. -/
def ExeStream.write (s : ExeStream) (buf : Mem) (src n : Nat) : ExeStream :=
  { size := s.size + n
    data := fun i => if s.size ≤ i ∧ i < s.size + n then buf (src + (i - s.size))
                     else s.data i }

/-- `SnsfOpt::SaveSNSF`: the container handed to `PSFFile::save` (`none` when
the function returns false before saving) and the session. `alloc` is the
content of the fresh allocation `rom`. The writer calls cannot fail here. -/
def SnsfOpt.SaveSNSF (self : SnsfOpt) (sys : SNESSystem) (alloc : Mem) (base_offset : Nat)
    (wipe_unused_data : Bool) (tags : List (TagKey × String)) : Option PSFFile × SnsfOpt :=
  let size := sys.GetROMSize
  if base_offset > 0xff00 ∨ base_offset ≥ size then (none, self)
  else
    let g := self.GetROM sys alloc size wipe_unused_data
    if !g.1 then (none, g.2.2)
    else
      let snsf_rom_size := size - base_offset
      let exe := ((ExeStream.empty.writeInt base_offset).writeInt snsf_rom_size).write
        g.2.1 base_offset snsf_rom_size
      (some { version := SNSF_PSF_VERSION, tags := tags, compressed_exe := exe, reserved := [] },
       g.2.2)

/-! ### Example containers -/

/-- A program stream with the header `addr`, `size` and `avail` payload bytes
after it; the payload byte at stream position `i` is `i % 7 + 1`. -/
def ExeStream.ofHeader (addr size avail : Nat) : ExeStream :=
  { size := 8 + avail, data := fun i => (le4 addr ++ le4 size).getD i (i % 7 + 1) }

/-- A file system with one container, `name`, and no directories. -/
def FileSystem.single (name : String) (c : PSFFile) : FileSystem where
  load := fun _ n => if n = name then some c else none
  IsPSFFile := fun _ n => decide (n = name)
  path_dirname := fun _ => ""
  chdir := fun cwd d => cwd ++ "/" ++ d
  path_getfilesize := fun _ _ => -1
  fopen := fun _ _ => false
  fread := fun _ _ _ => []
  path_getabspath := fun cwd n => cwd ++ "/" ++ n
  path_basename := fun n => n

/-- A state before a top-level call: zeroed ROM buffer, SRAM buffer filled with
0xFF, stale values behind the out-pointers. -/
def ReadState.fresh : ReadState where
  rom_buf := fun _ => 0
  rom_size := 77
  sram_buf := fun _ => 0xff
  sram_size := 77
  base_offset := 77
  m_message := ""
  cwd := "/d"
  events := []
  resolved := []
  written := []

/-- A file system with the containers of the list and no directories. -/
def FileSystem.ofList (cs : List (String × PSFFile)) : FileSystem where
  load := fun _ n => cs.lookup n
  IsPSFFile := fun _ n => (cs.lookup n).isSome
  path_dirname := fun _ => ""
  chdir := fun cwd d => cwd ++ "/" ++ d
  path_getfilesize := fun _ _ => -1
  fopen := fun _ _ => false
  fread := fun _ _ _ => []
  path_getabspath := fun cwd n => cwd ++ "/" ++ n
  path_basename := fun n => n

/-- A container `a` with primary library `b` and numbered library `c`: `b` is
loaded at 0x100 (3 bytes), `a` at load address 1, which is buffer index 0x101
(3 bytes), `c` at load address 2, buffer index 0x102 (1 byte). -/
def FileSystem.chain : FileSystem :=
  FileSystem.ofList
    [("a", ⟨0x23, [(TagKey.lib, "b"), (TagKey.libN 2, "c")], ExeStream.ofHeader 1 3 3, []⟩),
     ("b", ⟨0x23, [], ExeStream.ofHeader 0x100 3 3, []⟩),
     ("c", ⟨0x23, [], ExeStream.ofHeader 2 1 1, []⟩)]

/-- All three out-pointers given. -/
def Pointers.all : Pointers := ⟨true, true, true⟩

/-- A container whose `_lib2` tag names the container itself, with a payload
of 0x7F8800 bytes at load address 0x8000. -/
def selfLib2 : PSFFile :=
  ⟨0x23, [(TagKey.libN 2, "a")], ExeStream.ofHeader 0x8000 0x7F8800 0x7F8800, []⟩

/-- A container whose `_lib` tag names the container itself. -/
def selfLib : PSFFile :=
  ⟨0x23, [(TagKey.lib, "a")], ExeStream.ofHeader 0x100 4 4, []⟩

/-- A container whose header announces 0xFFFFFF00 bytes at load address 0x100
and that holds 4 payload bytes. -/
def wrapRom : PSFFile := ⟨0x23, [], ExeStream.ofHeader 0x100 0xFFFFFF00 4, []⟩

/-- A container with a reserved section of `reserved` and a 4-byte payload at
load address 0x100. -/
def withReserved (reserved : List Nat) : PSFFile :=
  ⟨0x23, [], ExeStream.ofHeader 0x100 4 4, reserved⟩

/-- An emulator that holds the given ROM with no coverage yet. -/
def SNESSystem.fresh (rom : Mem) (romsize : Nat) (_sram : Mem) (_sramsize : Nat) : SNESSystem :=
  SNESSystem.ofBytes rom (fun _ => 0) romsize

/-- A session with the three-byte ROM loaded from `old.sfc`. -/
def Session.loaded : Session where
  opt := SnsfOpt.initial
  m_system := threeBytes
  m_message := ""
  rom_path := "/d/old.sfc"
  rom_filename := "old.sfc"
  snsf_base_offset := 0
  cwd := "/d"


/-! ## Accumulator operations and the snapshot run (snsfopt.cpp 371-381, 621-632, 748-751, 829-853) -/

/-- `SnsfOpt::ResetGame`. `reset` stands for the emulator after
`m_system->Reset()`, which is not part of `snsfopt.cpp`. The timer of the audio
sink, which `ResetGame` resets, is not part of `Session`. -/
def SnsfOpt.ResetGame (reset : SNESSystem → SNESSystem) (s : Session) : Session :=
  if !s.m_system.IsLoaded then s
  else
    { s with
      opt := { s.opt with
        rom_refs := (MergeRefs s.opt.rom_refs s.m_system.GetROMCoverage
          s.m_system.GetROMSize).1 }
      m_system := reset s.m_system }

/-- `SnsfOpt::ResetOptimizer`, on the members that `SnsfOpt` holds here: the
accumulator `rom_refs` (all `SNES_HEADER_SIZE + MAX_SNES_ROM_SIZE` counters) and
the two 256-bucket histograms are zeroed. -/
def SnsfOpt.ResetOptimizer (self : SnsfOpt) : SnsfOpt :=
  { self with
    rom_refs := fun i => if i < SNES_HEADER_SIZE + MAX_SNES_ROM_SIZE then 0 else self.rom_refs i
    rom_refs_histogram := fun i => if i < 256 then 0 else self.rom_refs_histogram i
    apuram_refs_histogram := fun i => if i < 256 then 0 else self.apuram_refs_histogram i }

/-- `SnsfOpt::Optimize_End`. -/
def SnsfOpt.Optimize_End (self : SnsfOpt) : SnsfOpt :=
  { self with initial_silence_length := min self.initial_silence_length self.song_endpoint }

/-- A chip-state snapshot (`SPCFile *` in the source), named by a handle. -/
abbrev SPCFile := Nat

/-- What `SPCDump_Finished` asks of the emulator: whether a key-on-triggered
snapshot is ready, the snapshot `PopSPCDump()` hands out and the one
`DumpSPCSnapshotImmediately()` makes; `none` is NULL. -/
structure SPCDumper where
  HasSPCDumpFinished : Bool
  PopSPCDump : Option SPCFile
  DumpSPCSnapshotImmediately : Option SPCFile

/-- What a call of `SPCDump_Finished` leaves: the returned flag, the member
`spc_snapshot_dumped`, and two ghost flags that record whether `PopSPCDump` and
`DumpSPCSnapshotImmediately` were called. -/
structure SPCDump.Result where
  finished : Bool
  spc_snapshot_dumped : Option SPCFile
  popped : Bool
  forced : Bool

/-- `SnsfOpt::SPCDump_Finished`, with the members `DelayedSPCDump` and
`spc_snapshot_dumped` as arguments. -/
def SnsfOpt.SPCDump_Finished (self : SnsfOpt) (DelayedSPCDump : Bool)
    (spc_snapshot_dumped : Option SPCFile) (emu : SPCDumper) (out : Output) : SPCDump.Result :=
  if DelayedSPCDump = false ∧ emu.HasSPCDumpFinished = true then
    { finished := true
      spc_snapshot_dumped :=
        match emu.PopSPCDump with
        | some spc_file => some spc_file
        | none => spc_snapshot_dumped
      popped := true
      forced := false }
  else if DelayedSPCDump then
    if out.get_timer ≥ self.optimize_timeout then
      { finished := true, spc_snapshot_dumped := emu.DumpSPCSnapshotImmediately,
        popped := false, forced := true }
    else
      { finished := false, spc_snapshot_dumped := spc_snapshot_dumped,
        popped := false, forced := false }
  else
    if out.get_timer ≥ self.optimize_timeout then
      { finished := true, spc_snapshot_dumped := spc_snapshot_dumped,
        popped := false, forced := false }
    else
      { finished := false, spc_snapshot_dumped := spc_snapshot_dumped,
        popped := false, forced := false }

/-- Six bytes 11..16 of which only the third is covered. -/
def sixBytes : SNESSystem :=
  SNESSystem.ofBytes (fun i => [11, 12, 13, 14, 15, 16].getD i 0)
    (fun i => [0, 0, 1, 0, 0, 0].getD i 0) 6

/-- Options `-p 2 -P 1`. -/
def boundary_opt : SnsfOpt :=
  { SnsfOpt.initial with paranoid_closed_area_fill_size := 2, paranoid_post_fill_size := 1 }
/-! ### Lemmas on the rounding of `double` -/

theorem bitLength_zero (fuel : Nat) : bitLength fuel 0 = 0 := by
  cases fuel <;> simp [bitLength]

theorem bitLength_succ (fuel n : Nat) (hn : n ≠ 0) :
    bitLength (fuel + 1) n = bitLength fuel (n / 2) + 1 := by
  simp [bitLength, hn]

theorem bitLength_fuel : ∀ (f g n : Nat), n ≤ f → n ≤ g → bitLength f n = bitLength g n := by
  intro f
  induction f with
  | zero =>
    intro g n hf _
    have : n = 0 := by omega
    subst this
    rw [bitLength_zero, bitLength_zero]
  | succ f ih =>
    intro g n hf hg
    by_cases hn : n = 0
    · subst hn
      rw [bitLength_zero, bitLength_zero]
    · obtain ⟨g1, rfl⟩ : ∃ g1, g = g1 + 1 := ⟨g - 1, by omega⟩
      rw [bitLength_succ f n hn, bitLength_succ g1 n hn, ih g1 (n / 2) (by omega) (by omega)]

theorem bitLength_bounds : ∀ (f n : Nat), n ≤ f → 0 < n →
    1 ≤ bitLength f n ∧ 2 ^ (bitLength f n - 1) ≤ n ∧ n < 2 ^ bitLength f n := by
  intro f
  induction f with
  | zero => intro n hf hn; omega
  | succ f ih =>
    intro n hf hn
    rw [bitLength_succ f n (by omega)]
    by_cases h2 : n / 2 = 0
    · rw [h2, bitLength_zero]
      have : n = 1 := by omega
      subst this
      simp
    · obtain ⟨b1, b2, b3⟩ := ih (n / 2) (by omega) (by omega)
      generalize bitLength f (n / 2) = b at b1 b2 b3
      obtain ⟨c, rfl⟩ : ∃ c, b = c + 1 := ⟨b - 1, by omega⟩
      simp only [Nat.add_sub_cancel] at b2 ⊢
      refine ⟨by omega, ?_, ?_⟩
      · rw [pow_succ]; omega
      · rw [pow_succ]; omega

theorem bitLength_eq (n b : Nat) (h1 : 2 ^ b ≤ n) (h2 : n < 2 ^ (b + 1)) :
    bitLength n n = b + 1 := by
  have hn : 0 < n := lt_of_lt_of_le (Nat.two_pow_pos b) h1
  obtain ⟨c1, c2, c3⟩ := bitLength_bounds n n (le_refl n) hn
  generalize bitLength n n = k at c1 c2 c3
  have a1 : b < k := (Nat.pow_lt_pow_iff_right (by decide : 1 < 2)).1 (lt_of_le_of_lt h1 c3)
  have a2 : k - 1 < b + 1 :=
    (Nat.pow_lt_pow_iff_right (by decide : 1 < 2)).1 (lt_of_le_of_lt c2 h2)
  omega

theorem roundSignificand_of_lt (n : Nat) (h : n < 2 ^ 53) : roundSignificand n = n := by
  unfold roundSignificand
  rw [if_pos h]

/-- The rounding when `2 ^ b ≤ n < 2 ^ (b + 1)` with `53 ≤ b`: the `b - 52` low
bits are rounded away. -/
theorem roundSignificand_of_bits (n b : Nat) (hb : 53 ≤ b) (h1 : 2 ^ b ≤ n)
    (h2 : n < 2 ^ (b + 1)) :
    roundSignificand n =
      (if 2 ^ (b - 53) < n % 2 ^ (b - 52) ∨
          (n % 2 ^ (b - 52) = 2 ^ (b - 53) ∧ n / 2 ^ (b - 52) % 2 = 1)
        then n / 2 ^ (b - 52) + 1 else n / 2 ^ (b - 52)) * 2 ^ (b - 52) := by
  have h53 : (2 : Nat) ^ 53 ≤ 2 ^ b := Nat.pow_le_pow_right (by decide) hb
  unfold roundSignificand
  rw [if_neg (by omega), bitLength_eq n b h1 h2]
  have e1 : b + 1 - 53 = b - 52 := by omega
  have e2 : b - 52 - 1 = b - 53 := by omega
  simp only [e1, e2]

/-- Rounding does not depend on the size of the tick: doubling the tick count
doubles the rounded value. -/
theorem roundSignificand_two_mul (n : Nat) : roundSignificand (2 * n) = 2 * roundSignificand n := by
  by_cases h52 : n < 2 ^ 52
  · rw [roundSignificand_of_lt n (by omega), roundSignificand_of_lt (2 * n) (by omega)]
  · by_cases h53 : n < 2 ^ 53
    · rw [roundSignificand_of_lt n h53,
        roundSignificand_of_bits (2 * n) 53 (le_refl 53) (by omega) (by omega)]
      simp only [Nat.sub_self, pow_zero, show 53 - 52 = 1 from rfl, pow_one,
        Nat.mul_mod_right, Nat.lt_irrefl, false_or]
      rw [if_neg (by omega)]
      omega
    · have hn : 0 < n := by omega
      obtain ⟨c1, c2, c3⟩ := bitLength_bounds n n (le_refl n) hn
      obtain ⟨b, hb⟩ : ∃ b, bitLength n n = b + 1 := ⟨bitLength n n - 1, by omega⟩
      rw [hb] at c2 c3
      simp only [Nat.add_sub_cancel] at c2
      have hb53 : 53 ≤ b := by
        by_contra hlt
        have : (2 : Nat) ^ (b + 1) ≤ 2 ^ 53 := Nat.pow_le_pow_right (by decide) (by omega)
        omega
      rw [roundSignificand_of_bits n b hb53 c2 c3,
        roundSignificand_of_bits (2 * n) (b + 1) (by omega)
          (by rw [pow_succ]; omega) (by rw [pow_succ (2 : Nat) (b + 1)]; omega)]
      obtain ⟨e, he⟩ : ∃ e, b - 53 = e := ⟨_, rfl⟩
      have e1 : b - 52 = e + 1 := by omega
      have e2 : b + 1 - 53 = e + 1 := by omega
      have e3 : b + 1 - 52 = e + 2 := by omega
      rw [he, e1, e2, e3]
      have p1 : (2 : Nat) ^ (e + 2) = 2 * 2 ^ (e + 1) := by rw [pow_succ]; omega
      have p2 : (2 : Nat) ^ (e + 1) = 2 * 2 ^ e := by rw [pow_succ]; omega
      have hq : 2 * n / 2 ^ (e + 2) = n / 2 ^ (e + 1) := by
        rw [p1, Nat.mul_div_mul_left _ _ (by decide : 0 < 2)]
      have hr : 2 * n % 2 ^ (e + 2) = 2 * (n % 2 ^ (e + 1)) := by
        rw [p1, Nat.mul_mod_mul_left]
      rw [hq, hr]
      generalize n / 2 ^ (e + 1) = q
      generalize n % 2 ^ (e + 1) = r
      have hc : (2 ^ (e + 1) < 2 * r ∨ (2 * r = 2 ^ (e + 1) ∧ q % 2 = 1)) ↔
          (2 ^ e < r ∨ (r = 2 ^ e ∧ q % 2 = 1)) := by
        rw [p2]; omega
      by_cases hcond : 2 ^ e < r ∨ (r = 2 ^ e ∧ q % 2 = 1)
      · rw [if_pos hcond, if_pos (hc.2 hcond), p1]; ring
      · rw [if_neg hcond, if_neg (fun h => hcond (hc.1 h)), p1]; ring

/-- A value of at most 53 significant bits is a `double`: rounding keeps it. -/
theorem roundDouble_of_lt (x : Int) (h : x.natAbs < 2 ^ 53) : roundDouble x = x := by
  unfold roundDouble
  rw [roundSignificand_of_lt _ h]
  split_ifs with hx <;> omega

theorem roundDouble_neg (x : Int) : roundDouble (-x) = -roundDouble x := by
  unfold roundDouble
  rw [Int.natAbs_neg]
  by_cases h0 : x = 0
  · subst h0; simp [roundSignificand_of_lt]
  · by_cases hx : x < 0
    · rw [if_neg (by omega), if_pos hx]; omega
    · rw [if_pos (by omega), if_neg hx]

/-- Rounding does not depend on the size of the tick. -/
theorem roundDouble_two_mul (x : Int) : roundDouble (2 * x) = 2 * roundDouble x := by
  unfold roundDouble
  have hn : (2 * x).natAbs = 2 * x.natAbs := by
    rw [Int.natAbs_mul]; rfl
  rw [hn, roundSignificand_two_mul]
  by_cases hx : x < 0
  · rw [if_pos hx, if_pos (by omega)]; push_cast; ring
  · rw [if_neg hx, if_neg (by omega)]; push_cast; ring

theorem roundDouble_two_pow_mul (k : Nat) (x : Int) :
    roundDouble (2 ^ k * x) = 2 ^ k * roundDouble x := by
  induction k with
  | zero => simp
  | succ k ih =>
    have e : (2 : Int) ^ (k + 1) * x = 2 * (2 ^ k * x) := by ring
    rw [e, roundDouble_two_mul, ih]; ring

/-- Sums and differences below 2^53 ticks are exact. -/
theorem addDouble_of_lt (a b : Int) (h : (a + b).natAbs < 2 ^ 53) : addDouble a b = a + b :=
  roundDouble_of_lt _ h

theorem subDouble_of_lt (a b : Int) (h : (a - b).natAbs < 2 ^ 53) : subDouble a b = a - b :=
  roundDouble_of_lt _ h

theorem roundSignificand_multiple (m b : Nat) (hb : 53 ≤ b) (h1 : 2 ^ b ≤ m) (h2 : m < 2 ^ (b + 1))
    (hdvd : m % 2 ^ (b - 52) = 0) : roundSignificand m = m := by
  rw [roundSignificand_of_bits m b hb h1 h2, hdvd]
  have hp : 0 < 2 ^ (b - 53) := Nat.two_pow_pos _
  rw [if_neg (by omega)]
  exact Nat.div_mul_cancel (Nat.dvd_of_mod_eq_zero hdvd)

/-- The rounded value is a `double`: rounding it again changes nothing. -/
theorem roundSignificand_idem (n : Nat) :
    roundSignificand (roundSignificand n) = roundSignificand n := by
  by_cases h53 : n < 2 ^ 53
  · rw [roundSignificand_of_lt n h53, roundSignificand_of_lt n h53]
  · have hn : 0 < n := by omega
    obtain ⟨c1, c2, c3⟩ := bitLength_bounds n n (le_refl n) hn
    obtain ⟨b, hb⟩ : ∃ b, bitLength n n = b + 1 := ⟨bitLength n n - 1, by omega⟩
    rw [hb] at c2 c3
    simp only [Nat.add_sub_cancel] at c2
    have hb53 : 53 ≤ b := by
      by_contra hlt
      have : (2 : Nat) ^ (b + 1) ≤ 2 ^ 53 := Nat.pow_le_pow_right (by decide) (by omega)
      omega
    rw [roundSignificand_of_bits n b hb53 c2 c3]
    obtain ⟨e, he⟩ : ∃ e, b - 53 = e := ⟨_, rfl⟩
    have e1 : b - 52 = e + 1 := by omega
    have eb : b = 52 + (e + 1) := by omega
    rw [he, e1]
    have hpe : 0 < 2 ^ (e + 1) := Nat.two_pow_pos _
    have pb : (2 : Nat) ^ b = 2 ^ 52 * 2 ^ (e + 1) := by rw [eb, pow_add]
    have pb1 : (2 : Nat) ^ (b + 1) = 2 ^ 53 * 2 ^ (e + 1) := by
      rw [eb, show 52 + (e + 1) + 1 = 53 + (e + 1) from by omega, pow_add]
    have hq1 : 2 ^ 52 ≤ n / 2 ^ (e + 1) := by
      rw [Nat.le_div_iff_mul_le hpe, ← pb]; exact c2
    have hq2 : n / 2 ^ (e + 1) < 2 ^ 53 := by
      rw [Nat.div_lt_iff_lt_mul hpe, ← pb1]; exact c3
    generalize n / 2 ^ (e + 1) = q at hq1 hq2 ⊢
    have hcase : ∀ q1, (q1 = q ∨ q1 = q + 1) →
        roundSignificand (q1 * 2 ^ (e + 1)) = q1 * 2 ^ (e + 1) := by
      intro q1 h
      by_cases hlt : q1 < 2 ^ 53
      · apply roundSignificand_multiple (q1 * 2 ^ (e + 1)) b hb53
        · rw [pb]; exact Nat.mul_le_mul_right _ (by omega)
        · rw [pb1]; exact Nat.mul_lt_mul_of_pos_right hlt hpe
        · rw [e1]; exact Nat.mul_mod_left _ _
      · have hq53 : q1 = 2 ^ 53 := by omega
        have hm : q1 * 2 ^ (e + 1) = 2 ^ (b + 1) := by rw [hq53, pb1]
        rw [hm]
        apply roundSignificand_multiple (2 ^ (b + 1)) (b + 1) (by omega) (le_refl _)
        · exact Nat.pow_lt_pow_right (by decide) (by omega)
        · have : b + 1 = (b + 1 - 52) + 52 := by omega
          nth_rewrite 1 [this]
          rw [pow_add]
          exact Nat.mul_mod_right _ _
    split_ifs
    · exact hcase _ (Or.inr rfl)
    · exact hcase _ (Or.inl rfl)

/-- The rounded value is a `double`: rounding it again changes nothing. -/
theorem roundDouble_idem (x : Int) : roundDouble (roundDouble x) = roundDouble x := by
  unfold roundDouble
  by_cases hx : x < 0
  · simp only [if_pos hx]
    by_cases h0 : roundSignificand x.natAbs = 0
    · simp [h0, roundSignificand_of_lt]
    · have hneg : -(roundSignificand x.natAbs : Int) < 0 := by omega
      rw [if_pos hneg, Int.natAbs_neg, Int.natAbs_ofNat, roundSignificand_idem]
  · simp only [if_neg hx]
    have hnn : ¬ ((roundSignificand x.natAbs : Int) < 0) := by omega
    rw [if_neg hnn, Int.natAbs_ofNat, roundSignificand_idem]

/-- The rounded value is a nearest `double`: for `2 ^ b ≤ n < 2 ^ (b + 1)` with
`53 ≤ b` it is a multiple of the spacing `2 ^ (b - 52)` and lies within half
the spacing of `n`. -/
theorem roundSignificand_near (n b : Nat) (hb : 53 ≤ b) (h1 : 2 ^ b ≤ n) (h2 : n < 2 ^ (b + 1)) :
    roundSignificand n % 2 ^ (b - 52) = 0 ∧
    2 * (roundSignificand n - n) ≤ 2 ^ (b - 52) ∧
    2 * (n - roundSignificand n) ≤ 2 ^ (b - 52) := by
  rw [roundSignificand_of_bits n b hb h1 h2]
  obtain ⟨e, he⟩ : ∃ e, b - 53 = e := ⟨_, rfl⟩
  have e1 : b - 52 = e + 1 := by omega
  rw [he, e1]
  have p2 : (2 : Nat) ^ (e + 1) = 2 * 2 ^ e := by rw [pow_succ]; omega
  have hdm := Nat.div_add_mod n (2 ^ (e + 1))
  have hr := Nat.mod_lt n (Nat.two_pow_pos (e + 1))
  generalize n / 2 ^ (e + 1) = q at hdm ⊢
  generalize n % 2 ^ (e + 1) = r at hdm hr ⊢
  refine ⟨by split_ifs <;> exact Nat.mul_mod_left _ _, ?_, ?_⟩
  · split_ifs with hc
    · have : (q + 1) * 2 ^ (e + 1) = 2 ^ (e + 1) * q + 2 ^ (e + 1) := by ring
      rw [this]
      generalize 2 ^ (e + 1) * q = m at hdm ⊢
      omega
    · have : q * 2 ^ (e + 1) = 2 ^ (e + 1) * q := by ring
      rw [this]
      generalize 2 ^ (e + 1) * q = m at hdm ⊢
      omega
  · split_ifs with hc
    · have : (q + 1) * 2 ^ (e + 1) = 2 ^ (e + 1) * q + 2 ^ (e + 1) := by ring
      rw [this]
      generalize 2 ^ (e + 1) * q = m at hdm ⊢
      omega
    · have : q * 2 ^ (e + 1) = 2 ^ (e + 1) * q := by ring
      rw [this]
      generalize 2 ^ (e + 1) * q = m at hdm ⊢
      omega

/-- Sums and differences that need more than 53 bits are rounded: `2^53 + 1`
becomes `2^53`, `2^53 + 3` becomes `2^53 + 4`, and a loop point 1 verifies at
time `2^53 + 4` with verify length `2^53 + 4`. -/
theorem addDouble_rounds :
    addDouble 9007199254740992 1 = 9007199254740992 ∧
    subDouble 9007199254740996 1 = 9007199254740996 ∧
    addDouble 9007199254740992 2 = 9007199254740994 ∧
    DetectLoop.verify 9007199254740996 9007199254740996 (fun _ => 1) 1 = 1 := by
  decide


/-! ### Lemmas on MergeRefs -/

theorem forUp_zero_succ (n : Nat) : forUp 0 (n + 1) = forUp 0 n ++ [n] := by
  simp [forUp, List.range'_concat]

theorem countNonzero_le (m : Mem) (n : Nat) : countNonzero m n ≤ n := by
  unfold countNonzero
  calc ((List.range n).filter (fun i => decide (m i ≠ 0))).length
      ≤ (List.range n).length := List.length_filter_le _ _
    _ = n := List.length_range n

theorem countNonzero_succ (m : Mem) (n : Nat) :
    countNonzero m (n + 1) = countNonzero m n + (if m n ≠ 0 then 1 else 0) := by
  unfold countNonzero
  rw [List.range_succ, List.filter_append, List.length_append]
  by_cases h : m n = 0 <;> simp [h]

theorem countNonzero_congr (m m' : Mem) (n : Nat) (h : ∀ i, i < n → m i = m' i) :
    countNonzero m n = countNonzero m' n := by
  induction n with
  | zero => rfl
  | succ k ih =>
    rw [countNonzero_succ, countNonzero_succ, ih (fun i hi => h i (Nat.lt_succ_of_lt hi)),
      h k (Nat.lt_succ_self k)]

/-- Loop invariant of `MergeRefs` after `n` iterations. -/
theorem MergeRefs_inv (a b : Mem) (n : Nat) (hn : n < 2 ^ 32) :
    (∀ i, i < n → (MergeRefs a b n).1 i = min 255 (a i + b i)) ∧
    (∀ i, n ≤ i → (MergeRefs a b n).1 i = a i) ∧
    (MergeRefs a b n).2 = countNonzero (MergeRefs a b n).1 n := by
  induction n with
  | zero => simp [MergeRefs, forUp, countNonzero]
  | succ k ih =>
    obtain ⟨h1, h2, h3⟩ := ih (by omega)
    have hstep : MergeRefs a b (k + 1) = MergeRefs.body b (MergeRefs a b k) k := by
      simp [MergeRefs, forUp_zero_succ, List.foldl_append]
    have hk : (MergeRefs a b k).1 k = a k := h2 k (le_refl k)
    have hval : (MergeRefs a b (k + 1)).1 k = min 255 (a k + b k) := by
      rw [hstep]
      simp only [MergeRefs.body, hk]
      split_ifs with h
      · rw [Function.update_same]; omega
      · rw [Function.update_same]; omega
    have hother : ∀ i, i ≠ k → (MergeRefs a b (k + 1)).1 i = (MergeRefs a b k).1 i := by
      intro i hi
      rw [hstep]
      simp only [MergeRefs.body]
      split_ifs <;> rw [Function.update_noteq hi]
    refine ⟨?_, ?_, ?_⟩
    · intro i hi
      by_cases hik : i = k
      · subst hik; exact hval
      · rw [hother i hik]; exact h1 i (by omega)
    · intro i hi
      rw [hother i (by omega)]; exact h2 i (by omega)
    · have hc : countNonzero (MergeRefs a b (k + 1)).1 k = countNonzero (MergeRefs a b k).1 k :=
        countNonzero_congr _ _ _ (fun i hi => hother i (by omega))
      rw [countNonzero_succ, hc, ← h3]
      have hle : (MergeRefs a b k).2 ≤ k := by rw [h3]; exact countNonzero_le _ _
      have h2nd : (MergeRefs a b (k + 1)).2 =
          if (MergeRefs a b (k + 1)).1 k ≠ 0 then ((MergeRefs a b k).2 + 1) % 2 ^ 32
          else (MergeRefs a b k).2 := by
        rw [hstep]; rfl
      rw [h2nd]
      split_ifs
      · rw [Nat.mod_eq_of_lt (by omega)]
      · rfl

/-! ## Claims -/

/-- C1: for 8-bit counter arrays `a` (accumulator) and `b` (live snapshot) and
a 32-bit size `n`, `MergeRefs` leaves `min 255 (a i + b i)` at every index
below `n`, leaves every index from `n` on unchanged, returns the number of
indices below `n` whose merged counter is non-zero, and leaves the accumulator
as it was when the snapshot is zero below `n`. -/
theorem MergeRefs_saturating (a b : Mem) (n : Nat) (hn : n < 2 ^ 32)
    (ha : ∀ i, a i < 256) :
    (∀ i, i < n → (MergeRefs a b n).1 i = min 255 (a i + b i)) ∧
    (∀ i, n ≤ i → (MergeRefs a b n).1 i = a i) ∧
    (MergeRefs a b n).2 = countNonzero (MergeRefs a b n).1 n ∧
    ((∀ i, i < n → b i = 0) → (MergeRefs a b n).1 = a) := by
  obtain ⟨h1, h2, h3⟩ := MergeRefs_inv a b n hn
  refine ⟨h1, h2, h3, ?_⟩
  intro hb
  funext i
  by_cases hi : i < n
  · rw [h1 i hi, hb i hi]
    have := ha i
    omega
  · exact h2 i (by omega)

/-- C1 at a concrete input: accumulator 250, 0, 3, 7 merged with 10, 0, 0 over 3 entries. -/
theorem MergeRefs_saturating_witness :
    (3 < 2 ^ 32) ∧ (MergeRefs (fun i => [250, 0, 3, 7].getD i 0) (fun i => [10, 0, 0].getD i 0) 3).2
      = countNonzero (MergeRefs (fun i => [250, 0, 3, 7].getD i 0) (fun i => [10, 0, 0].getD i 0) 3).1 3 :=
  ⟨by decide,
   (MergeRefs_saturating (fun i => [250, 0, 3, 7].getD i 0) (fun i => [10, 0, 0].getD i 0) 3
      (by decide) (by
        intro i
        match i with
        | 0 => decide
        | 1 => decide
        | 2 => decide
        | 3 => decide
        | (k + 4) => simp)).2.2.1⟩

/-! ### Lemmas on GetROM -/

theorem GetROM.run_succ (sys : SNESSystem) (c p : Nat) (refs rom : Mem) (n : Nat) :
    GetROM.run sys c p refs rom (n + 1)
      = GetROM.body sys c p refs (GetROM.run sys c p refs rom n) n := by
  simp [GetROM.run, forUp_zero_succ, List.foldl_append]

theorem GetROM.body_used (sys : SNESSystem) (c p : Nat) (refs : Mem) (s : GetROM.Locals)
    (n : Nat) (h : isUsed sys refs n = true) :
    GetROM.body sys c p refs s n =
      { rom :=
          if s.paranoid_unused_area_size ≤ c then
            sys.ReadROM (sys.ReadROM s.rom n 1 n) (n - s.paranoid_unused_area_size)
              s.paranoid_unused_area_size (n - s.paranoid_unused_area_size)
          else sys.ReadROM s.rom n 1 n
        paranoid_unused_area_size := 0
        paranoid_post_fill_count := p
        covered_size := s.covered_size + 1
        paranoid_filled :=
          if s.paranoid_unused_area_size ≤ c then
            GetROM.fillCount sys refs (n - s.paranoid_unused_area_size)
              s.paranoid_unused_area_size s.paranoid_filled
          else s.paranoid_filled } := by
  have h' : refs (sys.GetMemoryOffset n) ≠ 0 := by simpa [isUsed] using h
  unfold GetROM.body
  simp only [h', ne_eq, not_false_eq_true, decide_True, true_or, if_true]
  split_ifs <;> rfl

theorem GetROM.body_unused (sys : SNESSystem) (c p : Nat) (refs : Mem) (s : GetROM.Locals)
    (n : Nat) (h : isUsed sys refs n = false) :
    GetROM.body sys c p refs s n =
      { rom :=
          if s.paranoid_post_fill_count > 0 then sys.ReadROM s.rom n 1 n
          else Function.update s.rom n 0
        paranoid_unused_area_size := s.paranoid_unused_area_size + 1
        paranoid_post_fill_count := s.paranoid_post_fill_count - 1
        covered_size := s.covered_size
        paranoid_filled :=
          if s.paranoid_post_fill_count > 0 then s.paranoid_filled + 1 else s.paranoid_filled } := by
  have h' : refs (sys.GetMemoryOffset n) = 0 := by simpa [isUsed] using h
  unfold GetROM.body
  simp only [h', ne_eq, not_true_eq_false, decide_False, false_or, Bool.false_eq_true, if_false]
  by_cases hp : s.paranoid_post_fill_count > 0
  · simp [hp]
  · have : s.paranoid_post_fill_count = 0 := by omega
    simp [this]

theorem GetROM.fillCount_eq (sys : SNESSystem) (refs : Mem) (off n pf : Nat) :
    GetROM.fillCount sys refs off n pf
      = pf + (if refs (sys.GetMemoryOffset off) = 0 then n else 0) := by
  induction n generalizing pf with
  | zero => simp [GetROM.fillCount]
  | succ k ih =>
    simp only [GetROM.fillCount, ih]
    split_ifs <;> omega

theorem runLen_le (sys : SNESSystem) (refs : Mem) (n : Nat) : runLen sys refs n ≤ n := by
  induction n with
  | zero => simp [runLen]
  | succ k ih => simp only [runLen]; split_ifs <;> omega

theorem runLen_unused (sys : SNESSystem) (refs : Mem) (n k : Nat)
    (h1 : n - runLen sys refs n ≤ k) (h2 : k < n) : isUsed sys refs k = false := by
  induction n with
  | zero => omega
  | succ m ih =>
    simp only [runLen] at h1
    by_cases hu : isUsed sys refs m = true
    · simp only [hu, if_true] at h1; omega
    · simp only [hu] at h1
      by_cases hk : k = m
      · subst hk; simpa using hu
      · have := runLen_le sys refs m
        exact ih (by simp at h1; omega) (by omega)

theorem runLen_prev_used (sys : SNESSystem) (refs : Mem) (n : Nat)
    (h : runLen sys refs n < n) : isUsed sys refs (n - runLen sys refs n - 1) = true := by
  induction n with
  | zero => omega
  | succ m ih =>
    simp only [runLen] at h ⊢
    by_cases hu : isUsed sys refs m = true
    · simp [hu]
    · simp only [hu] at h ⊢
      have h3 : runLen sys refs m < m := by simp at h; omega
      have := ih h3
      have e : m + 1 - (runLen sys refs m + 1) - 1 = m - runLen sys refs m - 1 := by omega
      simp only [Bool.false_eq_true, if_false, e]
      exact this

/-- A run of unused offsets `[s, u)` that starts the image or follows a used
offset is the whole run counted by `runLen` at `u`. -/
theorem runLen_eq_of_run (sys : SNESSystem) (refs : Mem) (s u : Nat) (hsu : s ≤ u)
    (hrun : ∀ k, s ≤ k → k < u → isUsed sys refs k = false)
    (hstart : s = 0 ∨ isUsed sys refs (s - 1) = true) : runLen sys refs u = u - s := by
  have hle := runLen_le sys refs u
  by_contra hne
  rcases Nat.lt_or_gt_of_ne hne with hlt | hgt
  · -- the counted run is shorter: the offset before it is used but lies in `[s, u)`
    have hu := runLen_prev_used sys refs u (by omega)
    have := hrun (u - runLen sys refs u - 1) (by omega) (by omega)
    rw [this] at hu; exact Bool.false_ne_true hu
  · -- the counted run is longer: it contains `s - 1`
    rcases hstart with h0 | hused
    · omega
    · have := runLen_unused sys refs u (s - 1) (by omega) (by omega)
      rw [this] at hused; exact Bool.false_ne_true hused

/-- The two run-time counters of the loop are the run length and the
post-fill countdown. -/
theorem GetROM.run_counters (sys : SNESSystem) (c p : Nat) (refs rom : Mem) (n : Nat) :
    (GetROM.run sys c p refs rom n).paranoid_unused_area_size = runLen sys refs n ∧
    (GetROM.run sys c p refs rom n).paranoid_post_fill_count = postCount sys p refs n := by
  induction n with
  | zero => simp [GetROM.run, forUp, runLen, postCount]
  | succ k ih =>
    rw [GetROM.run_succ]
    by_cases hu : isUsed sys refs k = true
    · rw [GetROM.body_used _ _ _ _ _ _ hu]; simp [runLen, postCount, hu]
    · have hu' : isUsed sys refs k = false := by simpa using hu
      rw [GetROM.body_unused _ _ _ _ _ _ hu']; simp [runLen, postCount, hu', ih.1, ih.2]

/-- The countdown is positive at `n` exactly when a used offset lies at most
`p` places before `n`. -/
theorem postCount_gt_iff (sys : SNESSystem) (p : Nat) (refs : Mem) (n m : Nat) :
    m < postCount sys p refs n ↔ ∃ j, j < n ∧ isUsed sys refs j = true ∧ n - j + m ≤ p := by
  induction n generalizing m with
  | zero => simp [postCount]
  | succ k ih =>
    by_cases hu : isUsed sys refs k = true
    · simp only [postCount, hu, if_true]
      constructor
      · intro h; exact ⟨k, by omega, hu, by omega⟩
      · rintro ⟨j, hj, _, h⟩; omega
    · have hu' : isUsed sys refs k = false := by simpa using hu
      simp only [postCount, hu', Bool.false_eq_true, if_false]
      have key : m < postCount sys p refs k - 1 ↔ m + 1 < postCount sys p refs k := by omega
      rw [key, ih (m + 1)]
      constructor
      · rintro ⟨j, hj, hj2, h⟩; exact ⟨j, by omega, hj2, by omega⟩
      · rintro ⟨j, hj, hj2, h⟩
        have hjk : j ≠ k := by
          intro e; subst e; rw [hu'] at hj2; exact Bool.false_ne_true hj2
        exact ⟨j, by omega, hj2, by omega⟩

theorem closedBy_succ (sys : SNESSystem) (c : Nat) (refs : Mem) (k i : Nat) :
    closedBy sys c refs (k + 1) i ↔
      closedBy sys c refs k i ∨
        (i < k ∧ isUsed sys refs k = true ∧ k - runLen sys refs k ≤ i ∧ runLen sys refs k ≤ c) := by
  constructor
  · rintro ⟨u, h1, h2, h3, h4, h5⟩
    by_cases huk : u = k
    · subst huk; exact Or.inr ⟨h1, h3, h4, h5⟩
    · exact Or.inl ⟨u, h1, by omega, h3, h4, h5⟩
  · rintro (⟨u, h1, h2, h3, h4, h5⟩ | ⟨h1, h3, h4, h5⟩)
    · exact ⟨u, h1, by omega, h3, h4, h5⟩
    · exact ⟨k, h1, by omega, h3, h4, h5⟩

theorem SNESSystem.ReadROM_apply (sys : SNESSystem) (rom : Mem) (d sz j : Nat) :
    sys.ReadROM rom d sz d j = if d ≤ j ∧ j < d + sz then sys.image j else rom j := by
  unfold SNESSystem.ReadROM
  split_ifs with h
  · congr 1; omega
  · rfl

/-- Content of the output buffer after `n` iterations of the wipe loop. -/
theorem GetROM.run_rom (sys : SNESSystem) (c p : Nat) (refs rom : Mem) (n : Nat) :
    (∀ i, i < n →
      ((isUsed sys refs i = true ∨ 0 < postCount sys p refs i ∨ closedBy sys c refs n i) →
        (GetROM.run sys c p refs rom n).rom i = sys.image i) ∧
      (¬ (isUsed sys refs i = true ∨ 0 < postCount sys p refs i ∨ closedBy sys c refs n i) →
        (GetROM.run sys c p refs rom n).rom i = 0)) ∧
    (∀ i, n ≤ i → (GetROM.run sys c p refs rom n).rom i = rom i) := by
  induction n with
  | zero =>
    refine ⟨fun i hi => by omega, fun i _ => ?_⟩
    simp [GetROM.run, forUp]
  | succ k ih =>
    obtain ⟨ih1, ih2⟩ := ih
    have hcnt := GetROM.run_counters sys c p refs rom k
    rw [GetROM.run_succ]
    by_cases hu : isUsed sys refs k = true
    · rw [GetROM.body_used _ _ _ _ _ _ hu]
      simp only [hcnt.1]
      have hrl := runLen_le sys refs k
      refine ⟨fun i hi => ?_, fun i hi => ?_⟩
      · by_cases hik : i = k
        · subst hik
          refine ⟨fun _ => ?_, fun hn => absurd (Or.inl hu) hn⟩
          split_ifs <;> simp [SNESSystem.ReadROM_apply]
        · have hik' : i < k := by omega
          by_cases hfill : runLen sys refs k ≤ c ∧ k - runLen sys refs k ≤ i
          · refine ⟨fun _ => ?_, fun hn => ?_⟩
            · rw [if_pos hfill.1, SNESSystem.ReadROM_apply, if_pos ⟨hfill.2, by omega⟩]
            · exact absurd (Or.inr (Or.inr ⟨k, hik', by omega, hu, hfill.2, hfill.1⟩)) hn
          · have hsame : (if runLen sys refs k ≤ c then
                  sys.ReadROM (sys.ReadROM (GetROM.run sys c p refs rom k).rom k 1 k)
                    (k - runLen sys refs k) (runLen sys refs k) (k - runLen sys refs k)
                else sys.ReadROM (GetROM.run sys c p refs rom k).rom k 1 k) i
                = (GetROM.run sys c p refs rom k).rom i := by
              split_ifs with h
              · rw [SNESSystem.ReadROM_apply, if_neg (by intro hh; exact hfill ⟨h, hh.1⟩),
                  SNESSystem.ReadROM_apply, if_neg (by omega)]
              · rw [SNESSystem.ReadROM_apply, if_neg (by omega)]
            have hcl : closedBy sys c refs (k + 1) i ↔ closedBy sys c refs k i := by
              rw [closedBy_succ]
              constructor
              · rintro (h | ⟨_, _, h4, h5⟩)
                · exact h
                · exact absurd ⟨h5, h4⟩ hfill
              · exact Or.inl
            simp only [hsame, hcl]
            exact ih1 i hik'
      · split_ifs with h
        · rw [SNESSystem.ReadROM_apply, if_neg (by omega), SNESSystem.ReadROM_apply,
            if_neg (by omega)]
          exact ih2 i (by omega)
        · rw [SNESSystem.ReadROM_apply, if_neg (by omega)]
          exact ih2 i (by omega)
    · have hu' : isUsed sys refs k = false := by simpa using hu
      rw [GetROM.body_unused _ _ _ _ _ _ hu']
      simp only [hcnt.2]
      refine ⟨fun i hi => ?_, fun i hi => ?_⟩
      · by_cases hik : i = k
        · subst hik
          have hncl : ¬ closedBy sys c refs (i + 1) i := by
            rintro ⟨u, h1, h2, _⟩; omega
          by_cases hp : postCount sys p refs i > 0
          · refine ⟨fun _ => ?_, fun hn => absurd (Or.inr (Or.inl hp)) hn⟩
            rw [if_pos hp, SNESSystem.ReadROM_apply, if_pos (by omega)]
          · refine ⟨fun h => ?_, fun _ => ?_⟩
            · rcases h with h | h | h
              · exact absurd h hu
              · exact absurd h hp
              · exact absurd h hncl
            · rw [if_neg hp, Function.update_same]
        · have hik' : i < k := by omega
          have hsame : (if postCount sys p refs k > 0 then
                  sys.ReadROM (GetROM.run sys c p refs rom k).rom k 1 k
                else Function.update (GetROM.run sys c p refs rom k).rom k 0) i
                = (GetROM.run sys c p refs rom k).rom i := by
            split_ifs
            · rw [SNESSystem.ReadROM_apply, if_neg (by omega)]
            · rw [Function.update_noteq hik]
          have hcl : closedBy sys c refs (k + 1) i ↔ closedBy sys c refs k i := by
            rw [closedBy_succ]
            constructor
            · rintro (h | ⟨_, h3, _, _⟩)
              · exact h
              · exact absurd h3 hu
            · exact Or.inl
          simp only [hsame, hcl]
          exact ih1 i hik'
      · have hne : i ≠ k := by omega
        split_ifs
        · rw [SNESSystem.ReadROM_apply, if_neg (by omega)]
          exact ih2 i (by omega)
        · rw [Function.update_noteq hne]
          exact ih2 i (by omega)

theorem postKept_iff (sys : SNESSystem) (p : Nat) (refs : Mem) (i : Nat) :
    postKept sys p refs i ↔ 0 < postCount sys p refs i := by
  rw [postCount_gt_iff]
  constructor
  · rintro ⟨j, h1, h2, h3⟩; exact ⟨j, by omega, h1, by omega⟩
  · rintro ⟨j, h1, h2, h3⟩; exact ⟨j, h2, by omega, by omega⟩

theorem closedKept_iff (sys : SNESSystem) (c : Nat) (refs : Mem) (size i : Nat) :
    closedKept sys c refs size i ↔ closedBy sys c refs size i := by
  constructor
  · rintro ⟨s, u, h1, h2, h3, h4, h5, h6, h7⟩
    have e := runLen_eq_of_run sys refs s u (by omega) h5 h6
    exact ⟨u, h2, h3, h4, by omega, by omega⟩
  · rintro ⟨u, h1, h2, h3, h4, h5⟩
    have hle := runLen_le sys refs u
    refine ⟨u - runLen sys refs u, u, h4, h1, h2, h3, ?_, ?_, by omega⟩
    · intro k hk1 hk2; exact runLen_unused sys refs u k hk1 hk2
    · by_cases h0 : runLen sys refs u < u
      · exact Or.inr (runLen_prev_used sys refs u h0)
      · exact Or.inl (by omega)

theorem countUsed_succ (sys : SNESSystem) (refs : Mem) (n : Nat) :
    countUsed sys refs (n + 1)
      = countUsed sys refs n + (if isUsed sys refs n = true then 1 else 0) := by
  unfold countUsed
  rw [List.range_succ, List.filter_append, List.length_append]
  by_cases h : isUsed sys refs n = true <;> simp [h]

theorem GetROM.run_covered (sys : SNESSystem) (c p : Nat) (refs rom : Mem) (n : Nat) :
    (GetROM.run sys c p refs rom n).covered_size = countUsed sys refs n := by
  induction n with
  | zero => simp [GetROM.run, forUp, countUsed]
  | succ k ih =>
    rw [GetROM.run_succ, countUsed_succ]
    by_cases hu : isUsed sys refs k = true
    · rw [GetROM.body_used _ _ _ _ _ _ hu]; simp [hu, ih]
    · have hu' : isUsed sys refs k = false := by simpa using hu
      rw [GetROM.body_unused _ _ _ _ _ _ hu']; simp [hu', ih]

/-- What one iteration adds to `paranoid_filled`. -/
theorem GetROM.run_filled_succ (sys : SNESSystem) (c p : Nat) (refs rom : Mem) (n : Nat) :
    (GetROM.run sys c p refs rom (n + 1)).paranoid_filled =
      (GetROM.run sys c p refs rom n).paranoid_filled +
        (if isUsed sys refs n = true then
          (if runLen sys refs n ≤ c then runLen sys refs n else 0)
         else (if 0 < postCount sys p refs n then 1 else 0)) := by
  have hcnt := GetROM.run_counters sys c p refs rom n
  rw [GetROM.run_succ]
  by_cases hu : isUsed sys refs n = true
  · rw [GetROM.body_used _ _ _ _ _ _ hu]
    simp only [hcnt.1, hu, if_true]
    split_ifs with h
    · rw [GetROM.fillCount_eq]
      by_cases h0 : runLen sys refs n = 0
      · simp [h0]
      · have hle := runLen_le sys refs n
        have hun := runLen_unused sys refs n (n - runLen sys refs n) (le_refl _) (by omega)
        have : refs (sys.GetMemoryOffset (n - runLen sys refs n)) = 0 := by
          simpa [isUsed] using hun
        simp [this]
    · rfl
  · have hu' : isUsed sys refs n = false := by simpa using hu
    rw [GetROM.body_unused _ _ _ _ _ _ hu']
    simp only [hcnt.2, hu', Bool.false_eq_true, if_false]
    split_ifs <;> rfl

theorem GetROM.run_filled_mono (sys : SNESSystem) (c p : Nat) (refs rom : Mem) (n m : Nat)
    (h : n ≤ m) :
    (GetROM.run sys c p refs rom n).paranoid_filled
      ≤ (GetROM.run sys c p refs rom m).paranoid_filled := by
  induction m with
  | zero =>
    have : n = 0 := by omega
    subst this; exact le_refl _
  | succ k ih =>
    by_cases hk : n = k + 1
    · subst hk; exact le_refl _
    · have := ih (by omega)
      rw [GetROM.run_filled_succ]
      omega

theorem postCount_zero (sys : SNESSystem) (refs : Mem) (n : Nat) :
    postCount sys 0 refs n = 0 := by
  induction n with
  | zero => rfl
  | succ k ih => simp [postCount, ih]

/-- Over a stretch of unused offsets with no post-fill, `paranoid_filled` stays. -/
theorem GetROM.run_filled_unused (sys : SNESSystem) (c : Nat) (refs rom : Mem) (s g : Nat)
    (hgap : ∀ k, s ≤ k → k < s + g → isUsed sys refs k = false) :
    (GetROM.run sys c 0 refs rom (s + g)).paranoid_filled
      = (GetROM.run sys c 0 refs rom s).paranoid_filled := by
  induction g with
  | zero => rfl
  | succ k ih =>
    have hk := hgap (s + k) (by omega) (by omega)
    rw [← Nat.add_assoc, GetROM.run_filled_succ, hk, postCount_zero,
      ih (fun j h1 h2 => hgap j h1 (by omega))]
    simp

theorem GetROM.mergedRefs_apply (self : SnsfOpt) (sys : SNESSystem) (size i : Nat)
    (hs : size < 2 ^ 32) (hi : i < size) :
    GetROM.mergedRefs self sys size i = min 255 (self.rom_refs i + sys.GetROMCoverage i) := by
  unfold GetROM.mergedRefs
  rw [(MergeRefs_inv _ _ size hs).1 i hi, if_pos hi]

/-- When the emulator is loaded, `GetROM` with `wipe_unused_data` returns true,
stores the two counters of the wipe loop in the session and, unless
`FixROMChecksum` is set, hands back the buffer of the wipe loop. -/
theorem SnsfOpt.GetROM_wipe (self : SnsfOpt) (sys : SNESSystem) (rom : Mem) (size : Nat)
    (hl : sys.IsLoaded = true) :
    (self.GetROM sys rom size true).1 = true ∧
    (self.GetROM sys rom size true).2.2.covered_size
      = (GetROM.wipe self sys rom (GetROM.clamp sys size)).covered_size ∧
    (self.GetROM sys rom size true).2.2.paranoid_filled_size
      = (GetROM.wipe self sys rom (GetROM.clamp sys size)).paranoid_filled ∧
    (self.FixROMChecksum = false →
      (self.GetROM sys rom size true).2.1
        = (GetROM.wipe self sys rom (GetROM.clamp sys size)).rom) := by
  refine ⟨?_, ?_, ?_, fun h => ?_⟩
  · simp [SnsfOpt.GetROM, hl]
  · simp [SnsfOpt.GetROM, hl]
  · simp [SnsfOpt.GetROM, hl]
  · simp [SnsfOpt.GetROM, hl, h]

/-! ## Claims on GetROM -/

/-- C2: in the wipe loop of `GetROM` with `paranoid_post_fill_size = 0`, a
maximal run of `g ≥ 1` unused offsets `[s, s+g)` between the used offsets
`s - 1` and `s + g` is copied from the ROM image and adds exactly `g` to
`paranoid_filled` (so the final count is at least `g`) when
`g ≤ paranoid_closed_area_fill_size`; otherwise every byte of it is 0 and
`paranoid_filled` is the same after the run as before it. -/
theorem GetROM_closed_gap (self : SnsfOpt) (sys : SNESSystem) (rom : Mem) (size s g : Nat)
    (hpost : self.paranoid_post_fill_size = 0)
    (hs : 1 ≤ s) (hg : 1 ≤ g) (hend : s + g < size)
    (hbefore : isUsed sys (GetROM.mergedRefs self sys size) (s - 1) = true)
    (hafter : isUsed sys (GetROM.mergedRefs self sys size) (s + g) = true)
    (hgap : ∀ k, s ≤ k → k < s + g → isUsed sys (GetROM.mergedRefs self sys size) k = false) :
    (g ≤ self.paranoid_closed_area_fill_size →
      (∀ i, s ≤ i → i < s + g → (GetROM.wipe self sys rom size).rom i = sys.image i) ∧
      (GetROM.run sys self.paranoid_closed_area_fill_size self.paranoid_post_fill_size
          (GetROM.mergedRefs self sys size) rom (s + g + 1)).paranoid_filled
        = (GetROM.run sys self.paranoid_closed_area_fill_size self.paranoid_post_fill_size
          (GetROM.mergedRefs self sys size) rom s).paranoid_filled + g ∧
      g ≤ (GetROM.wipe self sys rom size).paranoid_filled) ∧
    (self.paranoid_closed_area_fill_size < g →
      (∀ i, s ≤ i → i < s + g → (GetROM.wipe self sys rom size).rom i = 0) ∧
      (GetROM.run sys self.paranoid_closed_area_fill_size self.paranoid_post_fill_size
          (GetROM.mergedRefs self sys size) rom (s + g + 1)).paranoid_filled
        = (GetROM.run sys self.paranoid_closed_area_fill_size self.paranoid_post_fill_size
          (GetROM.mergedRefs self sys size) rom s).paranoid_filled) := by
  have hrl : runLen sys (GetROM.mergedRefs self sys size) (s + g) = g := by
    rw [runLen_eq_of_run sys _ s (s + g) (by omega) hgap (Or.inr hbefore)]; omega
  have hrom := (GetROM.run_rom sys self.paranoid_closed_area_fill_size
    self.paranoid_post_fill_size (GetROM.mergedRefs self sys size) rom size).1
  have hstay := GetROM.run_filled_unused sys self.paranoid_closed_area_fill_size
    (GetROM.mergedRefs self sys size) rom s g hgap
  have hstep := GetROM.run_filled_succ sys self.paranoid_closed_area_fill_size 0
    (GetROM.mergedRefs self sys size) rom (s + g)
  rw [hafter, hrl, hstay] at hstep
  rw [hpost]
  unfold GetROM.wipe
  rw [hpost]
  refine ⟨fun hle => ⟨fun i h1 h2 => ?_, ?_, ?_⟩, fun hlt => ⟨fun i h1 h2 => ?_, ?_⟩⟩
  · have := hrom i (by omega)
    rw [hpost] at this
    exact this.1 (Or.inr (Or.inr ⟨s + g, h2, hend, hafter, by omega, by omega⟩))
  · rw [hstep]; simp [hle]
  · have hm := GetROM.run_filled_mono sys self.paranoid_closed_area_fill_size 0
      (GetROM.mergedRefs self sys size) rom (s + g + 1) size (by omega)
    rw [hstep] at hm
    simp only [hle, if_true] at hm
    omega
  · have := hrom i (by omega)
    rw [hpost] at this
    apply this.2
    rintro (h | h | ⟨u, hu1, hu2, hu3, hu4, hu5⟩)
    · rw [hgap i h1 h2] at h; exact Bool.false_ne_true h
    · rw [postCount_zero] at h; omega
    · -- the used offset ending the run through `i` is `s + g`
      have hus : u = s + g := by
        by_contra hne
        rcases Nat.lt_or_gt_of_ne hne with hlt' | hgt'
        · rw [hgap u (by omega) hlt'] at hu3; exact Bool.false_ne_true hu3
        · have := runLen_unused sys (GetROM.mergedRefs self sys size) u (s + g)
            (by omega) hgt'
          rw [this] at hafter; exact Bool.false_ne_true hafter
      subst hus
      omega
  · rw [hstep]
    simp only [if_true]
    rw [if_neg (by omega)]; rfl

theorem scenarioA_used (i : Nat) (hi : i < 0x300) :
    isUsed scenarioA (GetROM.mergedRefs scenarioA_opt scenarioA 0x300) i
      = decide (0x200 ≤ i ∧ ¬ (0x280 ≤ i ∧ i < 0x283)) := by
  unfold isUsed
  have e : scenarioA.GetMemoryOffset i = i := rfl
  rw [e, GetROM.mergedRefs_apply _ _ _ _ (by norm_num) hi]
  simp only [scenarioA, SNESSystem.ofBytes, scenarioA_opt, SnsfOpt.initial]
  by_cases h : 0x200 ≤ i ∧ ¬ (0x280 ≤ i ∧ i < 0x283)
  · have h' : 0x200 ≤ i ∧ i < 0x300 ∧ ¬ (0x280 ≤ i ∧ i < 0x283) := ⟨h.1, hi, h.2⟩
    simp only [h, h', if_true, decide_True]; decide
  · have h' : ¬ (0x200 ≤ i ∧ i < 0x300 ∧ ¬ (0x280 ≤ i ∧ i < 0x283)) := fun hh => h ⟨hh.1, hh.2.2⟩
    simp only [h, h', if_false, decide_False]; decide

/-- C2 on Scenario A: with fill size 4 the 3-byte gap 0x280-0x282 between the
used bytes 0x27F and 0x283 keeps the bytes of the image and the count is at
least 3. -/
theorem GetROM_closed_gap_witness :
    isUsed scenarioA (GetROM.mergedRefs scenarioA_opt scenarioA 0x300) (0x280 - 1) = true ∧
    isUsed scenarioA (GetROM.mergedRefs scenarioA_opt scenarioA 0x300) (0x280 + 3) = true ∧
    (∀ i, 0x280 ≤ i → i < 0x280 + 3 →
      (GetROM.wipe scenarioA_opt scenarioA (fun _ => 0) 0x300).rom i = scenarioA.image i) ∧
    3 ≤ (GetROM.wipe scenarioA_opt scenarioA (fun _ => 0) 0x300).paranoid_filled :=
  have hb : isUsed scenarioA (GetROM.mergedRefs scenarioA_opt scenarioA 0x300) (0x280 - 1) = true := by
    rw [scenarioA_used _ (by norm_num)]; decide
  have ha : isUsed scenarioA (GetROM.mergedRefs scenarioA_opt scenarioA 0x300) (0x280 + 3) = true := by
    rw [scenarioA_used _ (by norm_num)]; decide
  have h := GetROM_closed_gap scenarioA_opt scenarioA (fun _ => 0) 0x300 0x280 3 rfl
    (by norm_num) (by norm_num) (by norm_num) hb ha
    (by
      intro k h1 h2
      rw [scenarioA_used _ (by omega)]
      simp only [decide_eq_false_iff_not]
      omega)
  ⟨hb, ha, (h.1 (by decide)).1, (h.1 (by decide)).2.2⟩

/-- C3: in the buffer left by the wipe loop of `GetROM`, the byte at a file
offset `i < size` is the byte of the ROM image when (a) `i` is used (its merged
coverage counter at `GetMemoryOffset i` is non-zero), or (b) a used offset lies
between 1 and `paranoid_post_fill_size` places before `i`, or (c) `i` lies in a
maximal run of unused offsets of length at most
`paranoid_closed_area_fill_size` that a used offset ends; it is 0 otherwise.
This holds for every offset mapping and both paranoid sizes. -/
theorem GetROM_output_bytes (self : SnsfOpt) (sys : SNESSystem) (rom : Mem) (size i : Nat)
    (hi : i < size) :
    ((isUsed sys (GetROM.mergedRefs self sys size) i = true ∨
        postKept sys self.paranoid_post_fill_size (GetROM.mergedRefs self sys size) i ∨
        closedKept sys self.paranoid_closed_area_fill_size (GetROM.mergedRefs self sys size)
          size i) →
      (GetROM.wipe self sys rom size).rom i = sys.image i) ∧
    (¬ (isUsed sys (GetROM.mergedRefs self sys size) i = true ∨
        postKept sys self.paranoid_post_fill_size (GetROM.mergedRefs self sys size) i ∨
        closedKept sys self.paranoid_closed_area_fill_size (GetROM.mergedRefs self sys size)
          size i) →
      (GetROM.wipe self sys rom size).rom i = 0) := by
  rw [postKept_iff, closedKept_iff]
  exact (GetROM.run_rom sys self.paranoid_closed_area_fill_size self.paranoid_post_fill_size
    (GetROM.mergedRefs self sys size) rom size).1 i hi

/-- C3 on three bytes 11, 12, 13 with the middle one unused and the default
fill size 1: the middle byte is kept by rule (c) and reads 12. -/
theorem GetROM_output_bytes_witness :
    1 < 3 ∧ (GetROM.wipe SnsfOpt.initial threeBytes (fun _ => 0) 3).rom 1 = 12 :=
  ⟨by decide,
   (GetROM_output_bytes SnsfOpt.initial threeBytes (fun _ => 0) 3 1 (by decide)).1
    (Or.inr (Or.inr ⟨1, 2, le_refl 1, by decide, by decide, by decide,
      (by
        intro k h1 h2
        have : k = 1 := by omega
        subst this; decide),
      Or.inr (by decide), by decide⟩))⟩

/-- C4 fails on the code: with both paranoid sizes 1 and three bytes of which
only the middle one is unused, `GetROM` reports 2 covered bytes and 2 preserved
extra bytes for an image of 3 bytes: the middle byte is counted by the post-fill
rule at its own offset and again by the closed-area rule at the next offset. -/
theorem GetROM_filled_counts_twice :
    (bothRules_opt.GetROM threeBytes (fun _ => 0) 3 true).1 = true ∧
    (bothRules_opt.GetROM threeBytes (fun _ => 0) 3 true).2.2.covered_size = 2 ∧
    (bothRules_opt.GetROM threeBytes (fun _ => 0) 3 true).2.2.paranoid_filled_size = 2 ∧
    countUsed threeBytes (GetROM.mergedRefs bothRules_opt threeBytes 3) 3 = 2 ∧
    3 < (bothRules_opt.GetROM threeBytes (fun _ => 0) 3 true).2.2.covered_size
      + (bothRules_opt.GetROM threeBytes (fun _ => 0) 3 true).2.2.paranoid_filled_size := by
  decide

/-! ### Lemmas on the loops of DetectLoop -/

theorem mem_forUp (lo hi c : Nat) : c ∈ forUp lo hi ↔ lo ≤ c ∧ c < hi := by
  unfold forUp
  rw [List.mem_range'_1]
  omega

theorem mem_forDown (hi c : Nat) : c ∈ forDown hi ↔ 1 ≤ c ∧ c ≤ hi := by
  unfold forDown
  rw [List.mem_reverse, List.mem_range'_1]
  omega

theorem forUp_succ (lo hi : Nat) (h : lo ≤ hi) : forUp lo (hi + 1) = forUp lo hi ++ [hi] := by
  unfold forUp
  have e : hi + 1 - lo = (hi - lo) + 1 := by omega
  rw [e, List.range'_concat]
  congr 2
  omega

theorem forUp_empty (lo hi : Nat) (h : hi ≤ lo) : forUp lo hi = [] := by
  unfold forUp
  have : hi - lo = 0 := by omega
  rw [this]; rfl

/-- Closed form of the stamping loop over any list of buckets. -/
theorem DetectLoop.stamp_fold (t : Int) (l : List Nat) (s : (Nat → Int) × (Nat → Bool)) (c : Nat) :
    (l.foldl (DetectLoop.stampBody t) s).1 c = (if c ∈ l ∧ s.2 c = true then t else s.1 c) ∧
    (l.foldl (DetectLoop.stampBody t) s).2 c = (if c ∈ l then false else s.2 c) := by
  induction l generalizing s with
  | nil => simp
  | cons a l ih =>
    rw [List.foldl_cons]
    obtain ⟨h1, h2⟩ := ih (DetectLoop.stampBody t s a)
    rw [h1, h2]
    unfold DetectLoop.stampBody
    by_cases ha : s.2 a = true
    · simp only [ha, if_true, List.mem_cons]
      by_cases hca : c = a
      · subst hca
        simp [ha]
      · simp [hca, Function.update_noteq hca]
    · have ha' : s.2 a = false := by simpa using ha
      simp only [ha', Bool.false_eq_true, if_false, List.mem_cons]
      by_cases hca : c = a
      · subst hca
        simp [ha']
      · simp [hca]

/-- Closed form of a loop that writes the same value to every listed entry. -/
theorem fold_update_const {β : Type} (v : β) (l : List Nat) (f : Nat → β) (c : Nat) :
    (l.foldl (fun lp count => Function.update lp count v) f) c = (if c ∈ l then v else f c) := by
  induction l generalizing f with
  | nil => simp
  | cons a l ih =>
    rw [List.foldl_cons, ih]
    by_cases hca : c = a
    · subst hca; simp
    · simp [hca, Function.update_noteq hca]

/-- Closed form of the plateau loop: it copies entry `k`, which it never writes. -/
theorem fold_update_copy (k : Nat) (l : List Nat) (f : Nat → Int) (hk : k ∉ l) (c : Nat) :
    (l.foldl (fun lp count => Function.update lp count (lp k)) f) c
      = (if c ∈ l then f k else f c) := by
  induction l generalizing f with
  | nil => simp
  | cons a l ih =>
    have hka : k ≠ a := fun e => hk (by simp [e])
    have hkl : k ∉ l := fun e => hk (by simp [e])
    rw [List.foldl_cons, ih _ hkl, Function.update_noteq hka]
    by_cases hca : c = a
    · subst hca; simp
    · simp [hca, Function.update_noteq hca]

/-- Closed form of the re-arming loop. -/
theorem DetectLoop.rearm_fold (t : Int) (l : List Nat) (s : (Nat → Int) × (Nat → Bool)) (c : Nat) :
    (l.foldl (fun s count => (Function.update s.1 count t, Function.update s.2 count true)) s).1 c
      = (if c ∈ l then t else s.1 c) ∧
    (l.foldl (fun s count => (Function.update s.1 count t, Function.update s.2 count true)) s).2 c
      = (if c ∈ l then true else s.2 c) := by
  induction l generalizing s with
  | nil => simp
  | cons a l ih =>
    rw [List.foldl_cons]
    obtain ⟨h1, h2⟩ := ih (Function.update s.1 a t, Function.update s.2 a true)
    rw [h1, h2]
    by_cases hca : c = a
    · subst hca; simp
    · simp [hca, Function.update_noteq hca]

/-- The scan of `ExpectPossibleLoopCount` from bucket `count`: the result is the
last bucket of an unbroken stretch of equal buckets. -/
theorem ExpectPossibleLoopCount.scan_spec (h h' : Mem) (fuel count : Nat)
    (hc : 1 ≤ count) (hf : count + fuel = 256) :
    count - 1 ≤ ExpectPossibleLoopCount.scan h h' fuel count ∧
    ExpectPossibleLoopCount.scan h h' fuel count ≤ 255 ∧
    (∀ j, count ≤ j → j ≤ ExpectPossibleLoopCount.scan h h' fuel count → h j = h' j) ∧
    (ExpectPossibleLoopCount.scan h h' fuel count < 255 →
      h (ExpectPossibleLoopCount.scan h h' fuel count + 1)
        ≠ h' (ExpectPossibleLoopCount.scan h h' fuel count + 1)) := by
  induction fuel generalizing count with
  | zero =>
    simp only [ExpectPossibleLoopCount.scan]
    refine ⟨by omega, le_refl _, fun j h1 h2 => by omega, fun hlt => by omega⟩
  | succ f ih =>
    simp only [ExpectPossibleLoopCount.scan]
    by_cases hd : h count = h' count
    · simp only [hd, ne_eq, not_true_eq_false, if_false]
      obtain ⟨i1, i2, i3, i4⟩ := ih (count + 1) (by omega) (by omega)
      refine ⟨by omega, i2, fun j h1 h2 => ?_, i4⟩
      by_cases hj : j = count
      · subst hj; exact hd
      · exact i3 j (by omega) h2
    · simp only [hd, ne_eq, not_false_eq_true, if_true]
      have hm : (count - 1) % 256 = count - 1 := Nat.mod_eq_of_lt (by omega)
      rw [hm]
      refine ⟨le_refl _, by omega, fun j h1 h2 => by omega, fun _ => ?_⟩
      have e : count - 1 + 1 = count := by omega
      rw [e]; exact hd

/-- `DetectLoop` takes the ROM value alone in coverage mode and the smaller of
the ROM and APU-RAM values in timing mode. -/
theorem DetectLoop.expected_upper_eq (self : SnsfOpt) (sys : SNESSystem) :
    DetectLoop.expected_upper self sys =
      if self.time_loop_based = true then
        min (ExpectPossibleLoopCount self.rom_refs_histogram sys.GetROMCoverageHistogram)
          (ExpectPossibleLoopCount self.apuram_refs_histogram sys.GetAPURAMCoverageHistogram)
      else ExpectPossibleLoopCount self.rom_refs_histogram sys.GetROMCoverageHistogram := by
  unfold DetectLoop.expected_upper
  by_cases ht : self.time_loop_based = true
  · simp only [ht, if_true]
    by_cases hlt : ExpectPossibleLoopCount self.apuram_refs_histogram sys.GetAPURAMCoverageHistogram
        < ExpectPossibleLoopCount self.rom_refs_histogram sys.GetROMCoverageHistogram
    · rw [if_pos hlt, min_eq_right (le_of_lt hlt)]
    · rw [if_neg hlt, min_eq_left (by omega)]
  · simp only [ht, if_false]
    rfl

theorem DetectLoop.expected_upper_le (self : SnsfOpt) (sys : SNESSystem) :
    DetectLoop.expected_upper self sys ≤ 255 := by
  have h1 := (ExpectPossibleLoopCount.scan_spec self.rom_refs_histogram
    sys.GetROMCoverageHistogram 255 1 (le_refl 1) rfl).2.1
  have h2 := (ExpectPossibleLoopCount.scan_spec self.apuram_refs_histogram
    sys.GetAPURAMCoverageHistogram 255 1 (le_refl 1) rfl).2.1
  rw [DetectLoop.expected_upper_eq]
  unfold ExpectPossibleLoopCount
  split_ifs
  · exact le_trans (min_le_left _ _) h1
  · exact h1

/-- The raw table and the dirty flags after the stamping loop. -/
theorem DetectLoop.stamped_apply (self : SnsfOpt) (sys : SNESSystem) (out : Output) (c : Nat) :
    (DetectLoop.stamped self sys out).1 c =
      (if (1 ≤ c ∧ c ≤ DetectLoop.expected_upper self sys) ∧ self.loop_point_updated c = true
        then out.get_timer else self.loop_point_raw c) ∧
    (DetectLoop.stamped self sys out).2 c =
      (if 1 ≤ c ∧ c ≤ DetectLoop.expected_upper self sys then false
        else self.loop_point_updated c) := by
  unfold DetectLoop.stamped
  have h := DetectLoop.stamp_fold out.get_timer (forDown (DetectLoop.expected_upper self sys))
    (self.loop_point_raw, self.loop_point_updated) c
  simp only [mem_forDown] at h
  exact h

/-- The raw table and the dirty flags when `DetectLoop` returns. -/
theorem SnsfOpt.DetectLoop_raw (self : SnsfOpt) (sys : SNESSystem) (out : Output) (c : Nat) :
    (self.DetectLoop sys out).loop_point_raw c =
      (if DetectLoop.expected_upper self sys + 1 ≤ c ∧ c < 256 then out.get_timer
        else (DetectLoop.stamped self sys out).1 c) ∧
    (self.DetectLoop sys out).loop_point_updated c =
      (if DetectLoop.expected_upper self sys + 1 ≤ c ∧ c < 256 then true
        else (DetectLoop.stamped self sys out).2 c) := by
  have h := DetectLoop.rearm_fold out.get_timer (forUp (DetectLoop.expected_upper self sys + 1) 256)
    (DetectLoop.stamped self sys out) c
  simp only [mem_forUp] at h
  exact h

/-- The loop-point table when `DetectLoop` returns. -/
theorem SnsfOpt.DetectLoop_loop_point (self : SnsfOpt) (sys : SNESSystem) (out : Output) (c : Nat) :
    (self.DetectLoop sys out).loop_point c =
      (if (DetectLoop.collapsed self sys out).1 + 1 ≤ c ∧ c < 256 then
        (if DetectLoop.expected_upper self sys = 255 ∧
            DetectLoop.verified self sys out = (DetectLoop.collapsed self sys out).1
          then (DetectLoop.collapsed self sys out).2 (DetectLoop.collapsed self sys out).1
          else out.get_timer)
       else (DetectLoop.collapsed self sys out).2 c) := by
  have hk : (DetectLoop.collapsed self sys out).1
      ∉ forUp ((DetectLoop.collapsed self sys out).1 + 1) 256 := by
    rw [mem_forUp]; omega
  by_cases hp : DetectLoop.expected_upper self sys = 255 ∧
      DetectLoop.verified self sys out = (DetectLoop.collapsed self sys out).1
  · have : (self.DetectLoop sys out).loop_point =
        (forUp ((DetectLoop.collapsed self sys out).1 + 1) 256).foldl
          (fun lp count => Function.update lp count (lp (DetectLoop.collapsed self sys out).1))
          (DetectLoop.collapsed self sys out).2 := by
      simp only [SnsfOpt.DetectLoop, hp, and_self, if_true]
    rw [this, fold_update_copy _ _ _ hk, if_pos hp]
    simp only [mem_forUp]
  · have : (self.DetectLoop sys out).loop_point =
        (forUp ((DetectLoop.collapsed self sys out).1 + 1) 256).foldl
          (fun lp count => Function.update lp count out.get_timer)
          (DetectLoop.collapsed self sys out).2 := by
      simp only [SnsfOpt.DetectLoop, hp, if_false]
    rw [this, fold_update_const, if_neg hp]
    simp only [mem_forUp]

theorem SnsfOpt.DetectLoop_loop_count (self : SnsfOpt) (sys : SNESSystem) (out : Output) :
    (self.DetectLoop sys out).loop_count = DetectLoop.verified self sys out := rfl

/-- The downward verification scan returns the largest qualifying index. -/
theorem DetectLoop.verify_spec (t L : Int) (lp : Nat → Int) (k : Nat) :
    DetectLoop.verify t L lp k ≤ k ∧
    (1 ≤ DetectLoop.verify t L lp k → subDouble t (lp (DetectLoop.verify t L lp k)) ≥ L) ∧
    (∀ j, DetectLoop.verify t L lp k < j → j ≤ k → ¬ (subDouble t (lp j) ≥ L)) := by
  induction k with
  | zero =>
    simp only [DetectLoop.verify]
    exact ⟨le_refl 0, fun h => by omega, fun j h1 h2 => by omega⟩
  | succ n ih =>
    simp only [DetectLoop.verify]
    by_cases hq : subDouble t (lp (n + 1)) ≥ L
    · rw [if_pos hq]
      exact ⟨le_refl _, fun _ => hq, fun j h1 h2 => by omega⟩
    · rw [if_neg hq]
      obtain ⟨i1, i2, i3⟩ := ih
      refine ⟨by omega, i2, fun j h1 h2 => ?_⟩
      by_cases hj : j = n + 1
      · subst hj; exact hq
      · exact i3 j h1 (by omega)

theorem dedupKept.go_concat2 (prev x y : Int) (ys : List Int) :
    dedupKept.go prev (ys ++ [x] ++ [y])
      = dedupKept.go prev (ys ++ [x]) ++ (if y ≠ x then [y] else []) := by
  induction ys generalizing prev with
  | nil =>
    simp only [List.nil_append, List.singleton_append, dedupKept.go]
    by_cases hx : x = prev
    · subst hx; simp
    · simp [hx]
  | cons z zs ih =>
    simp only [List.cons_append, dedupKept.go]
    by_cases hz : z = prev
    · simp only [hz, ne_eq, not_true_eq_false, if_false]
      have := ih prev
      simpa using this
    · simp only [hz, ne_eq, not_false_eq_true, if_true, List.cons_append]
      have := ih z
      simpa using this

theorem dedupKept_concat2 (x y : Int) (l : List Int) :
    dedupKept (l ++ [x] ++ [y]) = dedupKept (l ++ [x]) ++ (if y ≠ x then [y] else []) := by
  cases l with
  | nil =>
    simp only [List.nil_append, List.singleton_append, dedupKept, dedupKept.go]
  | cons a l =>
    simp only [List.cons_append, dedupKept]
    have := dedupKept.go_concat2 a x y l
    simp only [List.append_assoc, List.singleton_append] at this ⊢
    rw [this]

theorem map_update_forUp (lp : Nat → Int) (k : Nat) (v : Int) :
    List.map (Function.update lp (k + 1) v) (forUp 1 (k + 1 + 1))
      = List.map lp (forUp 1 (k + 1)) ++ [v] := by
  rw [forUp_succ 1 (k + 1) (by omega), List.map_append]
  congr 1
  · apply List.map_congr_left
    intro a ha
    rw [mem_forUp] at ha
    exact Function.update_noteq (by omega) _ _
  · simp

/-- Invariant of the collapsing loop run over the buckets `2..m`. -/
theorem DetectLoop.unique_inv (raw lp0 : Nat → Int) (m : Nat) (hm : 1 ≤ m) :
    1 ≤ ((forUp 2 (m + 1)).foldl (DetectLoop.uniqueBody raw)
          (1, Function.update lp0 1 (raw 1))).1 ∧
    ((forUp 2 (m + 1)).foldl (DetectLoop.uniqueBody raw)
          (1, Function.update lp0 1 (raw 1))).1 ≤ m ∧
    ((forUp 2 (m + 1)).foldl (DetectLoop.uniqueBody raw) (1, Function.update lp0 1 (raw 1))).2
        ((forUp 2 (m + 1)).foldl (DetectLoop.uniqueBody raw)
          (1, Function.update lp0 1 (raw 1))).1 = raw m ∧
    (∀ j, 1 ≤ j →
      j < ((forUp 2 (m + 1)).foldl (DetectLoop.uniqueBody raw)
          (1, Function.update lp0 1 (raw 1))).1 →
      ((forUp 2 (m + 1)).foldl (DetectLoop.uniqueBody raw)
          (1, Function.update lp0 1 (raw 1))).2 j
        ≠ ((forUp 2 (m + 1)).foldl (DetectLoop.uniqueBody raw)
          (1, Function.update lp0 1 (raw 1))).2 (j + 1)) ∧
    List.map ((forUp 2 (m + 1)).foldl (DetectLoop.uniqueBody raw)
          (1, Function.update lp0 1 (raw 1))).2
        (forUp 1 (((forUp 2 (m + 1)).foldl (DetectLoop.uniqueBody raw)
          (1, Function.update lp0 1 (raw 1))).1 + 1))
      = dedupKept (List.map raw (forUp 1 (m + 1))) ∧
    ((∀ i, 1 ≤ i → i < m → raw i ≤ raw (i + 1)) →
      ∀ j, 1 ≤ j →
        j < ((forUp 2 (m + 1)).foldl (DetectLoop.uniqueBody raw)
            (1, Function.update lp0 1 (raw 1))).1 →
        ((forUp 2 (m + 1)).foldl (DetectLoop.uniqueBody raw)
            (1, Function.update lp0 1 (raw 1))).2 j
          < ((forUp 2 (m + 1)).foldl (DetectLoop.uniqueBody raw)
            (1, Function.update lp0 1 (raw 1))).2 (j + 1)) := by
  induction m, hm using Nat.le_induction with
  | base =>
    have e : forUp 2 (1 + 1) = [] := forUp_empty 2 2 (le_refl 2)
    rw [e]
    simp only [List.foldl_nil]
    refine ⟨le_refl 1, le_refl 1, by simp, fun j h1 h2 => by omega, ?_,
      fun _ j h1 h2 => by omega⟩
    simp [forUp, dedupKept, dedupKept.go]
  | succ n hn ih =>
    rw [forUp_succ 2 (n + 1) (by omega), List.foldl_append, List.foldl_cons, List.foldl_nil]
    generalize (forUp 2 (n + 1)).foldl (DetectLoop.uniqueBody raw)
      (1, Function.update lp0 1 (raw 1)) = r at ih ⊢
    obtain ⟨i1, i2, i3, i4, i5, i6⟩ := ih
    have hraw : List.map raw (forUp 1 (n + 1 + 1))
        = List.map raw (forUp 1 n) ++ [raw n] ++ [raw (n + 1)] := by
      rw [forUp_succ 1 (n + 1) (by omega), forUp_succ 1 n hn]
      simp
    have hraw' : List.map raw (forUp 1 (n + 1)) = List.map raw (forUp 1 n) ++ [raw n] := by
      rw [forUp_succ 1 n hn]; simp
    unfold DetectLoop.uniqueBody
    have en : n + 1 - 1 = n := by omega
    rw [en]
    by_cases hd : raw (n + 1) = raw n
    · simp only [hd, ne_eq, not_true_eq_false, if_false]
      refine ⟨i1, by omega, i3, i4, ?_, fun hs j h1 h2 =>
        i6 (fun i h3 h4 => hs i h3 (by omega)) j h1 h2⟩
      rw [i5, hraw, hraw', dedupKept_concat2, hd]
      simp
    · simp only [hd, ne_eq, not_false_eq_true, if_true]
      have hk1 : r.1 ≠ r.1 + 1 := by omega
      refine ⟨by omega, by omega, by rw [Function.update_same], fun j h1 h2 => ?_, ?_,
        fun hs j h1 h2 => ?_⟩
      · by_cases hj : j = r.1
        · subst hj
          rw [Function.update_same, Function.update_noteq hk1, i3]
          exact fun e => hd e.symm
        · rw [Function.update_noteq (by omega), Function.update_noteq (by omega)]
          exact i4 j h1 (by omega)
      · rw [map_update_forUp, i5, hraw, hraw', dedupKept_concat2]
        simp [hd]
      · by_cases hj : j = r.1
        · subst hj
          rw [Function.update_same, Function.update_noteq hk1, i3]
          exact lt_of_le_of_ne (hs n hn (by omega)) (fun e => hd e.symm)
        · rw [Function.update_noteq (by omega), Function.update_noteq (by omega)]
          exact i6 (fun i h3 h4 => hs i h3 (by omega)) j h1 (by omega)

/-- The collapsing loop of `DetectLoop` is the loop over `2..max e 1`. -/
theorem DetectLoop.collapsed_eq (self : SnsfOpt) (sys : SNESSystem) (out : Output) :
    DetectLoop.collapsed self sys out =
      (forUp 2 (max (DetectLoop.expected_upper self sys) 1 + 1)).foldl
        (DetectLoop.uniqueBody (DetectLoop.stamped self sys out).1)
        (1, Function.update self.loop_point 1 ((DetectLoop.stamped self sys out).1 1)) := by
  unfold DetectLoop.collapsed
  by_cases h : 1 ≤ DetectLoop.expected_upper self sys
  · rw [max_eq_left h]
  · have h0 : DetectLoop.expected_upper self sys = 0 := by omega
    rw [h0]
    rfl

theorem DetectLoop.collapsed_bounds (self : SnsfOpt) (sys : SNESSystem) (out : Output) :
    1 ≤ (DetectLoop.collapsed self sys out).1 ∧
    (DetectLoop.collapsed self sys out).1 ≤ max (DetectLoop.expected_upper self sys) 1 ∧
    (DetectLoop.collapsed self sys out).1 ≤ 255 := by
  have h := DetectLoop.unique_inv (DetectLoop.stamped self sys out).1 self.loop_point
    (max (DetectLoop.expected_upper self sys) 1) (le_max_right _ _)
  rw [← DetectLoop.collapsed_eq] at h
  have he := DetectLoop.expected_upper_le self sys
  refine ⟨h.1, h.2.1, le_trans h.2.1 ?_⟩
  exact max_le he (by omega)

/-- One `DetectLoop` step at a time not before the last one keeps the raw-table
invariant and leaves a non-decreasing loop-point table whose collapsed prefix
is strictly increasing. -/
theorem SnsfOpt.DetectLoop_inv (s : SnsfOpt) (sys : SNESSystem) (out : Output) (T : Int)
    (hinv : LoopInv s T) (hT : T ≤ out.get_timer) :
    LoopInv (s.DetectLoop sys out) out.get_timer ∧
    (∀ i, 1 ≤ i → i < 255 →
      (s.DetectLoop sys out).loop_point i ≤ (s.DetectLoop sys out).loop_point (i + 1)) ∧
    (∀ j, 1 ≤ j → j < (DetectLoop.collapsed s sys out).1 →
      (s.DetectLoop sys out).loop_point j < (s.DetectLoop sys out).loop_point (j + 1)) := by
  obtain ⟨hle, hsorted, hup⟩ := hinv
  have he := DetectLoop.expected_upper_le s sys
  -- the stamped raw table
  have hst : ∀ c, (DetectLoop.stamped s sys out).1 c =
      (if (1 ≤ c ∧ c ≤ DetectLoop.expected_upper s sys) ∧ s.loop_point_updated c = true
        then out.get_timer else s.loop_point_raw c) :=
    fun c => (DetectLoop.stamped_apply s sys out c).1
  have hst2 : ∀ c, (DetectLoop.stamped s sys out).2 c =
      (if 1 ≤ c ∧ c ≤ DetectLoop.expected_upper s sys then false
        else s.loop_point_updated c) :=
    fun c => (DetectLoop.stamped_apply s sys out c).2
  have ha : ∀ c, 1 ≤ c → c ≤ 255 → (DetectLoop.stamped s sys out).1 c ≤ out.get_timer := by
    intro c h1 h2
    rw [hst]
    split_ifs
    · exact le_refl _
    · exact le_trans (hle c h1 h2) hT
  have hb : ∀ c, 1 ≤ c → c < DetectLoop.expected_upper s sys →
      (DetectLoop.stamped s sys out).1 c ≤ (DetectLoop.stamped s sys out).1 (c + 1) := by
    intro c h1 h2
    rw [hst, hst]
    by_cases hu : s.loop_point_updated c = true
    · have hu' := hup c (c + 1) h1 (by omega) (by omega) hu
      rw [if_pos ⟨⟨h1, by omega⟩, hu⟩, if_pos ⟨⟨by omega, by omega⟩, hu'⟩]
    · rw [if_neg (fun h => hu h.2)]
      split_ifs
      · exact le_trans (hle c h1 (by omega)) hT
      · exact hsorted c h1 (by omega)
  -- the collapsed table
  have hcol := DetectLoop.unique_inv (DetectLoop.stamped s sys out).1 s.loop_point
    (max (DetectLoop.expected_upper s sys) 1) (le_max_right _ _)
  rw [← DetectLoop.collapsed_eq] at hcol
  obtain ⟨k1, k2, k3, _, _, k6⟩ := hcol
  have hm255 : max (DetectLoop.expected_upper s sys) 1 ≤ 255 := max_le he (by omega)
  have hstrict := k6 (fun i h1 h2 => hb i h1 (by
    rcases le_total (DetectLoop.expected_upper s sys) 1 with h | h
    · rw [max_eq_right h] at h2; omega
    · rw [max_eq_left h] at h2; exact h2))
  have hklast : (DetectLoop.collapsed s sys out).2 (DetectLoop.collapsed s sys out).1
      ≤ out.get_timer := by
    rw [k3]; exact ha _ (le_max_right _ _) hm255
  have hlp := SnsfOpt.DetectLoop_loop_point s sys out
  refine ⟨⟨?_, ?_, ?_⟩, ?_, ?_⟩
  · intro c h1 h2
    rw [(SnsfOpt.DetectLoop_raw s sys out c).1]
    split_ifs
    · exact le_refl _
    · exact ha c h1 h2
  · intro c h1 h2
    rw [(SnsfOpt.DetectLoop_raw s sys out c).1, (SnsfOpt.DetectLoop_raw s sys out (c + 1)).1]
    by_cases hc : DetectLoop.expected_upper s sys + 1 ≤ c
    · rw [if_pos ⟨hc, by omega⟩, if_pos ⟨by omega, by omega⟩]
    · rw [if_neg (fun h => hc h.1)]
      split_ifs
      · exact ha c h1 (by omega)
      · exact hb c h1 (by omega)
  · intro c c' h1 h2 h3
    rw [(SnsfOpt.DetectLoop_raw s sys out c).2, (SnsfOpt.DetectLoop_raw s sys out c').2]
    by_cases hc : DetectLoop.expected_upper s sys + 1 ≤ c
    · intro _
      rw [if_pos ⟨by omega, by omega⟩]
    · rw [if_neg (fun h => hc h.1), hst2, if_pos ⟨h1, by omega⟩]
      intro h
      exact absurd h Bool.false_ne_true
  · intro i h1 h2
    rw [hlp i, hlp (i + 1)]
    by_cases hi : (DetectLoop.collapsed s sys out).1 + 1 ≤ i
    · rw [if_pos (show (DetectLoop.collapsed s sys out).1 + 1 ≤ i ∧ i < 256 from ⟨hi, by omega⟩),
        if_pos (show (DetectLoop.collapsed s sys out).1 + 1 ≤ i + 1 ∧ i + 1 < 256
          from ⟨by omega, by omega⟩)]
    · rw [if_neg (show ¬ ((DetectLoop.collapsed s sys out).1 + 1 ≤ i ∧ i < 256)
        from fun h => hi h.1)]
      by_cases hik : i = (DetectLoop.collapsed s sys out).1
      · rw [if_pos (show (DetectLoop.collapsed s sys out).1 + 1 ≤ i + 1 ∧ i + 1 < 256
          from ⟨by omega, by omega⟩), hik]
        split_ifs
        · exact le_refl _
        · exact hklast
      · rw [if_neg (show ¬ ((DetectLoop.collapsed s sys out).1 + 1 ≤ i + 1 ∧ i + 1 < 256)
          from by omega)]
        exact le_of_lt (hstrict i h1 (by omega))
  · intro j h1 h2
    rw [hlp j, hlp (j + 1),
      if_neg (show ¬ ((DetectLoop.collapsed s sys out).1 + 1 ≤ j ∧ j < 256) from by omega),
      if_neg (show ¬ ((DetectLoop.collapsed s sys out).1 + 1 ≤ j + 1 ∧ j + 1 < 256)
        from by omega)]
    exact hstrict j h1 h2

theorem SnsfOpt.Optimize_Start_inv (self : SnsfOpt) (sys : SNESSystem) (out : Output) :
    LoopInv (self.Optimize_Start sys out) 0 := by
  refine ⟨fun c h1 h2 => ?_, fun c h1 h2 => ?_, fun c c' h1 h2 h3 h => ?_⟩
  · simp only [SnsfOpt.Optimize_Start]
    rw [if_pos (by omega)]
  · simp only [SnsfOpt.Optimize_Start]
    rw [if_pos (by omega), if_pos (by omega)]
  · simp only [SnsfOpt.Optimize_Start] at h
    rw [if_pos (by omega)] at h
    exact absurd h Bool.false_ne_true

theorem SnsfOpt.detectLoops_inv (steps : List (SNESSystem × Output)) (s : SnsfOpt) (T : Int)
    (last : SNESSystem × Output) (hinv : LoopInv s T)
    (hch : List.Chain (fun a b => a ≤ b) T
      ((steps ++ [last]).map (fun io => io.2.get_timer))) :
    ∃ T', LoopInv (s.detectLoops steps) T' ∧ T' ≤ last.2.get_timer := by
  induction steps generalizing s T with
  | nil =>
    simp only [List.nil_append, List.map_cons, List.map_nil, List.chain_cons] at hch
    exact ⟨T, hinv, hch.1⟩
  | cons a rest ih =>
    simp only [List.cons_append, List.map_cons, List.chain_cons] at hch
    have h1 := (SnsfOpt.DetectLoop_inv s a.1 a.2 T hinv hch.1).1
    have := ih (s.DetectLoop a.1 a.2) a.2.get_timer h1 hch.2
    simpa [SnsfOpt.detectLoops] using this

/-! ## Claims on loop detection -/

/-- C5: starting from `Optimize_Start`, after any number of `DetectLoop` steps
whose times are non-negative and non-decreasing, `loop_point[i] ≤
loop_point[i+1]` for all `1 ≤ i < 255`, and the collapsed prefix
`loop_point[1..k]` of the last step is strictly increasing. -/
theorem DetectLoop_loop_points_monotone (self : SnsfOpt) (sys0 : SNESSystem) (out0 : Output)
    (steps : List (SNESSystem × Output)) (last : SNESSystem × Output)
    (htimes : List.Chain (fun a b => a ≤ b) 0
      ((steps ++ [last]).map (fun io => io.2.get_timer))) :
    (∀ i, 1 ≤ i → i < 255 →
      (((self.Optimize_Start sys0 out0).detectLoops steps).DetectLoop last.1 last.2).loop_point i
        ≤ (((self.Optimize_Start sys0 out0).detectLoops steps).DetectLoop last.1
            last.2).loop_point (i + 1)) ∧
    (∀ j, 1 ≤ j →
      j < (DetectLoop.collapsed ((self.Optimize_Start sys0 out0).detectLoops steps)
            last.1 last.2).1 →
      (((self.Optimize_Start sys0 out0).detectLoops steps).DetectLoop last.1 last.2).loop_point j
        < (((self.Optimize_Start sys0 out0).detectLoops steps).DetectLoop last.1
            last.2).loop_point (j + 1)) := by
  obtain ⟨T', hinv, hT'⟩ := SnsfOpt.detectLoops_inv steps (self.Optimize_Start sys0 out0) 0 last
    (SnsfOpt.Optimize_Start_inv self sys0 out0) htimes
  exact (SnsfOpt.DetectLoop_inv _ last.1 last.2 T' hinv hT').2

/-- C5 on a run of three steps at times 10, 30 and 55. -/
theorem DetectLoop_loop_points_monotone_witness :
    List.Chain (fun a b => a ≤ b) (0 : Int) [10, 30, 55] ∧
    (∀ i, 1 ≤ i → i < 255 →
      (((SnsfOpt.initial.Optimize_Start (SNESSystem.ofHistograms [] []) (Output.atTime 0 0 0)).detectLoops
          [(SNESSystem.ofHistograms [5, 3] [], Output.atTime 10 0 0),
           (SNESSystem.ofHistograms [5, 3, 1] [], Output.atTime 30 0 0)]).DetectLoop
          (SNESSystem.ofHistograms [5, 3, 1, 1] []) (Output.atTime 55 0 0)).loop_point i
        ≤ (((SnsfOpt.initial.Optimize_Start (SNESSystem.ofHistograms [] []) (Output.atTime 0 0 0)).detectLoops
          [(SNESSystem.ofHistograms [5, 3] [], Output.atTime 10 0 0),
           (SNESSystem.ofHistograms [5, 3, 1] [], Output.atTime 30 0 0)]).DetectLoop
          (SNESSystem.ofHistograms [5, 3, 1, 1] []) (Output.atTime 55 0 0)).loop_point (i + 1)) :=
  have h : List.Chain (fun a b => a ≤ b) (0 : Int) [10, 30, 55] := by
    simp [List.chain_cons]
  ⟨h, (DetectLoop_loop_points_monotone SnsfOpt.initial (SNESSystem.ofHistograms [] [])
    (Output.atTime 0 0 0)
    [(SNESSystem.ofHistograms [5, 3] [], Output.atTime 10 0 0),
     (SNESSystem.ofHistograms [5, 3, 1] [], Output.atTime 30 0 0)]
    (SNESSystem.ofHistograms [5, 3, 1, 1] [], Output.atTime 55 0 0) h).1⟩

/-- C6: after a `DetectLoop` step whose `expected_upper` `e` is at least 1,
with `k` the collapsed count, `loop_point[1..k]` is the list obtained from
`loop_point_raw[1..e]` by keeping the first entry and every later entry that
differs from the previous kept entry; `1 ≤ k ≤ e`, and neighbouring entries of
`loop_point[1..k]` differ. -/
theorem DetectLoop_collapse (self : SnsfOpt) (sys : SNESSystem) (out : Output)
    (he : 1 ≤ DetectLoop.expected_upper self sys) :
    List.map (self.DetectLoop sys out).loop_point
        (forUp 1 ((DetectLoop.collapsed self sys out).1 + 1))
      = dedupKept (List.map (self.DetectLoop sys out).loop_point_raw
          (forUp 1 (DetectLoop.expected_upper self sys + 1))) ∧
    1 ≤ (DetectLoop.collapsed self sys out).1 ∧
    (DetectLoop.collapsed self sys out).1 ≤ DetectLoop.expected_upper self sys ∧
    (∀ j, 1 ≤ j → j < (DetectLoop.collapsed self sys out).1 →
      (self.DetectLoop sys out).loop_point j ≠ (self.DetectLoop sys out).loop_point (j + 1)) := by
  have hcol := DetectLoop.unique_inv (DetectLoop.stamped self sys out).1 self.loop_point
    (max (DetectLoop.expected_upper self sys) 1) (le_max_right _ _)
  rw [← DetectLoop.collapsed_eq, max_eq_left he] at hcol
  obtain ⟨k1, k2, _, k4, k5, _⟩ := hcol
  have hlp : ∀ c, c ≤ (DetectLoop.collapsed self sys out).1 →
      (self.DetectLoop sys out).loop_point c = (DetectLoop.collapsed self sys out).2 c := by
    intro c hc
    rw [SnsfOpt.DetectLoop_loop_point,
      if_neg (show ¬ ((DetectLoop.collapsed self sys out).1 + 1 ≤ c ∧ c < 256) from by omega)]
  have hraw : ∀ c, c ≤ DetectLoop.expected_upper self sys →
      (self.DetectLoop sys out).loop_point_raw c = (DetectLoop.stamped self sys out).1 c := by
    intro c hc
    rw [(SnsfOpt.DetectLoop_raw self sys out c).1,
      if_neg (show ¬ (DetectLoop.expected_upper self sys + 1 ≤ c ∧ c < 256) from by omega)]
  refine ⟨?_, k1, k2, fun j h1 h2 => ?_⟩
  · have e1 : List.map (self.DetectLoop sys out).loop_point
        (forUp 1 ((DetectLoop.collapsed self sys out).1 + 1))
        = List.map (DetectLoop.collapsed self sys out).2
          (forUp 1 ((DetectLoop.collapsed self sys out).1 + 1)) := by
      apply List.map_congr_left
      intro a ha
      rw [mem_forUp] at ha
      exact hlp a (by omega)
    have e2 : List.map (self.DetectLoop sys out).loop_point_raw
        (forUp 1 (DetectLoop.expected_upper self sys + 1))
        = List.map (DetectLoop.stamped self sys out).1
          (forUp 1 (DetectLoop.expected_upper self sys + 1)) := by
      apply List.map_congr_left
      intro a ha
      rw [mem_forUp] at ha
      exact hraw a (by omega)
    rw [e1, e2, k5]
  · rw [hlp j (by omega), hlp (j + 1) (by omega)]
    exact k4 j h1 h2

/-- C7: after a `DetectLoop` step at time `t` with collapsed count `k`,
`loop_count` is at most `k`; when it is at least 1 the entry `loop_point[loop_count]`
qualifies (`t - loop_point[c] ≥ loop_verify_length`, the difference being the
one of `double`s that line 962 forms), and no index above `loop_count` up to
`k` qualifies; so it is the largest qualifying index of `1..k`, and 0 when none
qualifies. -/
theorem DetectLoop_verified_largest (self : SnsfOpt) (sys : SNESSystem) (out : Output) :
    (self.DetectLoop sys out).loop_count ≤ (DetectLoop.collapsed self sys out).1 ∧
    (1 ≤ (self.DetectLoop sys out).loop_count →
      subDouble out.get_timer
          ((self.DetectLoop sys out).loop_point (self.DetectLoop sys out).loop_count)
        ≥ self.loop_verify_length) ∧
    (∀ j, (self.DetectLoop sys out).loop_count < j → j ≤ (DetectLoop.collapsed self sys out).1 →
      ¬ (subDouble out.get_timer ((self.DetectLoop sys out).loop_point j)
          ≥ self.loop_verify_length)) ∧
    ((self.DetectLoop sys out).loop_count = 0 ↔
      ∀ j, 1 ≤ j → j ≤ (DetectLoop.collapsed self sys out).1 →
        ¬ (subDouble out.get_timer ((self.DetectLoop sys out).loop_point j)
            ≥ self.loop_verify_length)) := by
  have hv := DetectLoop.verify_spec out.get_timer self.loop_verify_length
    (DetectLoop.collapsed self sys out).2 (DetectLoop.collapsed self sys out).1
  have hlp : ∀ c, c ≤ (DetectLoop.collapsed self sys out).1 →
      (self.DetectLoop sys out).loop_point c = (DetectLoop.collapsed self sys out).2 c := by
    intro c hc
    rw [SnsfOpt.DetectLoop_loop_point,
      if_neg (show ¬ ((DetectLoop.collapsed self sys out).1 + 1 ≤ c ∧ c < 256) from by omega)]
  rw [SnsfOpt.DetectLoop_loop_count]
  change DetectLoop.verify out.get_timer self.loop_verify_length
    (DetectLoop.collapsed self sys out).2 (DetectLoop.collapsed self sys out).1 ≤ _ ∧ _
  obtain ⟨v1, v2, v3⟩ := hv
  have hc : DetectLoop.verified self sys out = DetectLoop.verify out.get_timer
      self.loop_verify_length (DetectLoop.collapsed self sys out).2
      (DetectLoop.collapsed self sys out).1 := rfl
  rw [hc]
  refine ⟨v1, fun h => ?_, fun j h1 h2 => ?_, ⟨fun h0 j h1 h2 => ?_, fun hall => ?_⟩⟩
  · rw [hlp _ v1]; exact v2 h
  · rw [hlp j h2]; exact v3 j h1 h2
  · rw [hlp j h2]; exact v3 j (by omega) h2
  · by_contra hne
    have h1 : 1 ≤ DetectLoop.verify out.get_timer self.loop_verify_length
      (DetectLoop.collapsed self sys out).2 (DetectLoop.collapsed self sys out).1 := by omega
    have := hall _ h1 v1
    rw [hlp _ v1] at this
    exact this (v2 h1)

/-- C6 on the third step of a run in which buckets 2 and 3 of the histogram
settle in the same step, at time 55, after bucket 1 settled at 30: the raw
stamps of buckets 1..3 are 30, 55, 55, `e = 3`, the collapse keeps 30 and 55,
`k = 2`, and the two kept entries differ. -/
theorem DetectLoop_collapse_witness :
    DetectLoop.expected_upper collapse_session (SNESSystem.ofHistograms [5, 3, 1, 1, 1] []) = 3 ∧
    (DetectLoop.collapsed collapse_session (SNESSystem.ofHistograms [5, 3, 1, 1, 1] [])
      (Output.atTime 55 0 0)).1 = 2 ∧
    List.map (collapse_session.DetectLoop (SNESSystem.ofHistograms [5, 3, 1, 1, 1] [])
      (Output.atTime 55 0 0)).loop_point_raw (forUp 1 4) = [30, 55, 55] ∧
    List.map (collapse_session.DetectLoop (SNESSystem.ofHistograms [5, 3, 1, 1, 1] [])
      (Output.atTime 55 0 0)).loop_point (forUp 1 3) = [30, 55] ∧
    dedupKept [30, 55, 55] = [30, 55] ∧
    (List.map (collapse_session.DetectLoop (SNESSystem.ofHistograms [5, 3, 1, 1, 1] [])
          (Output.atTime 55 0 0)).loop_point
        (forUp 1 ((DetectLoop.collapsed collapse_session
          (SNESSystem.ofHistograms [5, 3, 1, 1, 1] []) (Output.atTime 55 0 0)).1 + 1))
      = dedupKept (List.map (collapse_session.DetectLoop
            (SNESSystem.ofHistograms [5, 3, 1, 1, 1] []) (Output.atTime 55 0 0)).loop_point_raw
          (forUp 1 (DetectLoop.expected_upper collapse_session
            (SNESSystem.ofHistograms [5, 3, 1, 1, 1] []) + 1))) ∧
    1 ≤ (DetectLoop.collapsed collapse_session (SNESSystem.ofHistograms [5, 3, 1, 1, 1] [])
      (Output.atTime 55 0 0)).1 ∧
    (DetectLoop.collapsed collapse_session (SNESSystem.ofHistograms [5, 3, 1, 1, 1] [])
      (Output.atTime 55 0 0)).1
      ≤ DetectLoop.expected_upper collapse_session (SNESSystem.ofHistograms [5, 3, 1, 1, 1] []) ∧
    (∀ j, 1 ≤ j → j < (DetectLoop.collapsed collapse_session
        (SNESSystem.ofHistograms [5, 3, 1, 1, 1] []) (Output.atTime 55 0 0)).1 →
      (collapse_session.DetectLoop (SNESSystem.ofHistograms [5, 3, 1, 1, 1] [])
        (Output.atTime 55 0 0)).loop_point j
      ≠ (collapse_session.DetectLoop (SNESSystem.ofHistograms [5, 3, 1, 1, 1] [])
        (Output.atTime 55 0 0)).loop_point (j + 1))) :=
  have he : DetectLoop.expected_upper collapse_session
      (SNESSystem.ofHistograms [5, 3, 1, 1, 1] []) = 3 := by decide!
  have hk : (DetectLoop.collapsed collapse_session (SNESSystem.ofHistograms [5, 3, 1, 1, 1] [])
      (Output.atTime 55 0 0)).1 = 2 := by decide!
  have hraw : List.map (collapse_session.DetectLoop (SNESSystem.ofHistograms [5, 3, 1, 1, 1] [])
      (Output.atTime 55 0 0)).loop_point_raw (forUp 1 4) = [30, 55, 55] := by decide!
  have hlp : List.map (collapse_session.DetectLoop (SNESSystem.ofHistograms [5, 3, 1, 1, 1] [])
      (Output.atTime 55 0 0)).loop_point (forUp 1 3) = [30, 55] := by decide!
  ⟨he, hk, hraw, hlp, by decide,
    DetectLoop_collapse collapse_session (SNESSystem.ofHistograms [5, 3, 1, 1, 1] [])
      (Output.atTime 55 0 0) (by rw [he]; decide)⟩

/-- C8: `ExpectPossibleLoopCount` returns a value `c ≤ 255` such that buckets
`1..c` of the two histograms are equal and bucket `c + 1` differs when
`c < 255`; so `c` is the largest value of `0..255` with buckets `1..c` equal,
bucket 0 playing no part, and `c = 255` when no bucket of `1..255` differs.
`DetectLoop` takes the ROM value in coverage mode and the minimum of the ROM
and APU-RAM values in timing mode. -/
theorem ExpectPossibleLoopCount_largest (histogram new_histogram : Mem) (self : SnsfOpt)
    (sys : SNESSystem) :
    ExpectPossibleLoopCount histogram new_histogram ≤ 255 ∧
    (∀ j, 1 ≤ j → j ≤ ExpectPossibleLoopCount histogram new_histogram →
      histogram j = new_histogram j) ∧
    (ExpectPossibleLoopCount histogram new_histogram < 255 →
      histogram (ExpectPossibleLoopCount histogram new_histogram + 1)
        ≠ new_histogram (ExpectPossibleLoopCount histogram new_histogram + 1)) ∧
    (∀ c, c ≤ 255 → (∀ j, 1 ≤ j → j ≤ c → histogram j = new_histogram j) →
      c ≤ ExpectPossibleLoopCount histogram new_histogram) ∧
    DetectLoop.expected_upper self sys =
      (if self.time_loop_based = true then
        min (ExpectPossibleLoopCount self.rom_refs_histogram sys.GetROMCoverageHistogram)
          (ExpectPossibleLoopCount self.apuram_refs_histogram sys.GetAPURAMCoverageHistogram)
      else ExpectPossibleLoopCount self.rom_refs_histogram sys.GetROMCoverageHistogram) := by
  obtain ⟨_, h2, h3, h4⟩ := ExpectPossibleLoopCount.scan_spec histogram new_histogram 255 1
    (le_refl 1) rfl
  refine ⟨h2, h3, h4, fun c hc hall => ?_, DetectLoop.expected_upper_eq self sys⟩
  by_contra hlt
  have hlt' : ExpectPossibleLoopCount histogram new_histogram < c := by omega
  exact h4 (by unfold ExpectPossibleLoopCount at hlt'; omega)
    (hall _ (by omega) (by unfold ExpectPossibleLoopCount at hlt'; omega))

/-- C9: after a `DetectLoop` step at time `t` with collapsed count `k`, every
entry `loop_point[j]` with `k < j ≤ 255` equals `loop_point[k]` when
`expected_upper = 255` and the verified `loop_count` equals `k`, and equals
`t` otherwise. -/
theorem DetectLoop_remaining_entries (self : SnsfOpt) (sys : SNESSystem) (out : Output) (j : Nat) :
    (DetectLoop.collapsed self sys out).1 < j → j ≤ 255 →
      (self.DetectLoop sys out).loop_point j =
        (if DetectLoop.expected_upper self sys = 255 ∧
            (self.DetectLoop sys out).loop_count = (DetectLoop.collapsed self sys out).1
          then (self.DetectLoop sys out).loop_point (DetectLoop.collapsed self sys out).1
          else out.get_timer) := by
  intro h1 h2
  rw [SnsfOpt.DetectLoop_loop_point self sys out j,
    SnsfOpt.DetectLoop_loop_point self sys out (DetectLoop.collapsed self sys out).1,
    if_pos (show (DetectLoop.collapsed self sys out).1 + 1 ≤ j ∧ j < 256 from ⟨by omega, by omega⟩),
    if_neg (show ¬ ((DetectLoop.collapsed self sys out).1 + 1 ≤ (DetectLoop.collapsed self sys out).1
      ∧ (DetectLoop.collapsed self sys out).1 < 256) from by omega)]
  rfl

/-- C9 on the first step of a fresh session: entry 5 lies above the collapsed
count 1. -/
theorem DetectLoop_remaining_entries_witness :
    (DetectLoop.collapsed SnsfOpt.initial (SNESSystem.ofHistograms [5, 3] [])
        (Output.atTime 10 0 0)).1 < 5 ∧
    (SnsfOpt.initial.DetectLoop (SNESSystem.ofHistograms [5, 3] [])
        (Output.atTime 10 0 0)).loop_point 5 = 10 :=
  have hk : (DetectLoop.collapsed SnsfOpt.initial (SNESSystem.ofHistograms [5, 3] [])
        (Output.atTime 10 0 0)).1 < 5 := by decide
  have he : ¬ (DetectLoop.expected_upper SnsfOpt.initial (SNESSystem.ofHistograms [5, 3] []) = 255 ∧
      (SnsfOpt.initial.DetectLoop (SNESSystem.ofHistograms [5, 3] [])
        (Output.atTime 10 0 0)).loop_count
        = (DetectLoop.collapsed SnsfOpt.initial (SNESSystem.ofHistograms [5, 3] [])
            (Output.atTime 10 0 0)).1) := by
    intro h
    exact absurd h.1 (by decide)
  ⟨hk, (DetectLoop_remaining_entries SnsfOpt.initial (SNESSystem.ofHistograms [5, 3] [])
      (Output.atTime 10 0 0) 5 hk (by decide)).trans (if_neg he)⟩

/-! ## Claims on the end points -/

theorem SnsfOpt.DetectOneShot_loop_point (s : SnsfOpt) (out : Output) :
    (s.DetectOneShot out).loop_point = s.loop_point ∧
    (s.DetectOneShot out).time_loop_based = s.time_loop_based ∧
    (s.DetectOneShot out).target_loop_count = s.target_loop_count ∧
    (s.DetectOneShot out).loop_verify_length = s.loop_verify_length ∧
    (s.DetectOneShot out).oneshot_verify_length = s.oneshot_verify_length ∧
    (s.DetectOneShot out).time_last_new_data = s.time_last_new_data ∧
    (s.DetectOneShot out).optimize_timeout = s.optimize_timeout := by
  unfold SnsfOpt.DetectOneShot
  split_ifs <;> exact ⟨rfl, rfl, rfl, rfl, rfl, rfl, rfl⟩

/-- What `AdjustOptimizationEndPoint` leaves, by mode and classification. -/
theorem SnsfOpt.AdjustOptimizationEndPoint_spec (s : SnsfOpt) (out : Output) :
    (s.AdjustOptimizationEndPoint out).oneshot = s.oneshot ∧
    (s.AdjustOptimizationEndPoint out).oneshot_endpoint = s.oneshot_endpoint ∧
    (s.AdjustOptimizationEndPoint out).loop_point = s.loop_point ∧
    (s.AdjustOptimizationEndPoint out).target_loop_count = s.target_loop_count ∧
    (s.AdjustOptimizationEndPoint out).loop_verify_length = s.loop_verify_length ∧
    (s.AdjustOptimizationEndPoint out).oneshot_verify_length = s.oneshot_verify_length ∧
    (s.AdjustOptimizationEndPoint out).time_last_new_data = s.time_last_new_data ∧
    (s.AdjustOptimizationEndPoint out).optimize_timeout = s.optimize_timeout ∧
    (s.AdjustOptimizationEndPoint out).time_loop_based = s.time_loop_based ∧
    (s.time_loop_based = true → s.oneshot = true →
      (s.AdjustOptimizationEndPoint out).song_endpoint = s.oneshot_endpoint ∧
      (s.AdjustOptimizationEndPoint out).optimize_endpoint = out.get_timer) ∧
    (s.time_loop_based = true → s.oneshot = false →
      (s.AdjustOptimizationEndPoint out).song_endpoint = s.loop_point s.target_loop_count ∧
      (s.AdjustOptimizationEndPoint out).optimize_endpoint =
        addDouble (s.loop_point s.target_loop_count)
          (max s.loop_verify_length s.oneshot_verify_length)) ∧
    (s.time_loop_based = false →
      (s.AdjustOptimizationEndPoint out).song_endpoint = s.time_last_new_data ∧
      (s.AdjustOptimizationEndPoint out).optimize_endpoint
        = addDouble s.time_last_new_data s.optimize_timeout) := by
  unfold SnsfOpt.AdjustOptimizationEndPoint
  by_cases ht : s.time_loop_based = true
  · by_cases ho : s.oneshot = true
    · simp [ht, ho]
    · have ho' : s.oneshot = false := by simpa using ho
      simp [ht, ho']
  · have ht' : s.time_loop_based = false := by simpa using ht
    simp [ht']

theorem SnsfOpt.Optimize_Finished_iff (s : SnsfOpt) (out : Output) :
    s.Optimize_Finished out = true ↔ out.get_timer ≥ s.optimize_endpoint := by
  unfold SnsfOpt.Optimize_Finished
  split_ifs with h <;> simp [h]

/-- C10: in timing mode, after a sampled step (`Optimize_AfterLoop`) at time
`t`: if the step is classified one-shot, `song_endpoint = oneshot_endpoint`,
`optimize_endpoint = t` and `Optimize_Finished` holds; otherwise
`song_endpoint = loop_point[target_loop_count]`, `optimize_endpoint` is that
plus `max loop_verify_length oneshot_verify_length` (the sum of `double`s that
line 1020 forms), and `Optimize_Finished` holds exactly when `t` has reached
that sum. -/
theorem AdjustOptimizationEndPoint_timing (self : SnsfOpt) (sys : SNESSystem) (out : Output)
    (ht : self.time_loop_based = true) :
    ((self.Optimize_AfterLoop sys out).oneshot = true →
      (self.Optimize_AfterLoop sys out).song_endpoint
        = (self.Optimize_AfterLoop sys out).oneshot_endpoint ∧
      (self.Optimize_AfterLoop sys out).optimize_endpoint = out.get_timer ∧
      (self.Optimize_AfterLoop sys out).Optimize_Finished out = true) ∧
    ((self.Optimize_AfterLoop sys out).oneshot = false →
      (self.Optimize_AfterLoop sys out).song_endpoint
        = (self.Optimize_AfterLoop sys out).loop_point
            (self.Optimize_AfterLoop sys out).target_loop_count ∧
      (self.Optimize_AfterLoop sys out).optimize_endpoint
        = addDouble ((self.Optimize_AfterLoop sys out).loop_point
            (self.Optimize_AfterLoop sys out).target_loop_count)
          (max (self.Optimize_AfterLoop sys out).loop_verify_length
              (self.Optimize_AfterLoop sys out).oneshot_verify_length) ∧
      ((self.Optimize_AfterLoop sys out).Optimize_Finished out = true ↔
        out.get_timer ≥ addDouble ((self.Optimize_AfterLoop sys out).loop_point
            (self.Optimize_AfterLoop sys out).target_loop_count)
          (max (self.Optimize_AfterLoop sys out).loop_verify_length
              (self.Optimize_AfterLoop sys out).oneshot_verify_length))) := by
  unfold SnsfOpt.Optimize_AfterLoop
  simp only []
  generalize hs1 : (if sys.GetROMCoverageSize ≠ self.rom_bytes_used_old then
      ({ self with initial_silence_length := out.get_initial_silence_length,
                   time_last_new_data := out.get_timer } : SnsfOpt)
    else { self with initial_silence_length := out.get_initial_silence_length }) = s1
  have ht1 : s1.time_loop_based = true := by
    rw [← hs1]; split_ifs <;> exact ht
  generalize hs2 : (s1.DetectLoop sys out).DetectOneShot out = s2
  have ht2 : s2.time_loop_based = true := by
    rw [← hs2, (SnsfOpt.DetectOneShot_loop_point _ out).2.1]; exact ht1
  obtain ⟨a1, a2, a3, a4, a5, a6, _, _, _, a10, a11, _⟩ :=
    SnsfOpt.AdjustOptimizationEndPoint_spec s2 out
  rw [a1, a2, a3, a4, a5, a6]
  refine ⟨fun ho => ?_, fun ho => ?_⟩
  · obtain ⟨b1, b2⟩ := a10 ht2 ho
    refine ⟨b1, b2, ?_⟩
    rw [SnsfOpt.Optimize_Finished_iff, b2]
  · obtain ⟨b1, b2⟩ := a11 ht2 ho
    refine ⟨b1, b2, ?_⟩
    rw [SnsfOpt.Optimize_Finished_iff, b2]

/-- C10 on Scenario C (target 2, verify length 20, silence verify length 15,
loop points 30 and 55): the song end point is 55, the end point of the run is
75, and the run stops at the sample taken at 75 and not at the one taken at 74.
And on a step at time 2^53 with both verify lengths 1: the song end point is
2^53 and so is the end point of the run, the sum 2^53 + 1 being rounded, so the
run stops at that very sample. -/
theorem AdjustOptimizationEndPoint_timing_witness :
    scenarioC_opt.time_loop_based = true ∧
    (scenarioC_run 75).song_endpoint = 55 ∧
    ((scenarioC_run 75).optimize_endpoint = 75 ∧
      (scenarioC_run 75).Optimize_Finished (Output.atTime 75 0 0) = true ∧
      (scenarioC_run 74).song_endpoint = 55 ∧
      (scenarioC_run 74).Optimize_Finished (Output.atTime 74 0 0) = false) ∧
    (roundingC_opt.Optimize_AfterLoop (SNESSystem.ofHistograms [5, 3] [])
      (Output.atTime 9007199254740992 0 0)).song_endpoint = 9007199254740992 ∧
    (roundingC_opt.Optimize_AfterLoop (SNESSystem.ofHistograms [5, 3] [])
      (Output.atTime 9007199254740992 0 0)).optimize_endpoint = 9007199254740992 ∧
    (roundingC_opt.Optimize_AfterLoop (SNESSystem.ofHistograms [5, 3] [])
      (Output.atTime 9007199254740992 0 0)).Optimize_Finished
        (Output.atTime 9007199254740992 0 0) = true :=
  have ho : (scenarioC_run 75).oneshot = false := by decide!
  have hlp : (scenarioC_run 75).loop_point (scenarioC_run 75).target_loop_count = 55 := by
    decide!
  have h := (AdjustOptimizationEndPoint_timing
    ((((scenarioC_opt.Optimize_Start (SNESSystem.ofHistograms [] []) (Output.atTime 0 0 0)).Optimize_AfterLoop
      (SNESSystem.ofHistograms [5, 3] []) (Output.atTime 10 0 0)).Optimize_AfterLoop
      (SNESSystem.ofHistograms [5, 3, 1] []) (Output.atTime 30 0 0)).Optimize_AfterLoop
      (SNESSystem.ofHistograms [5, 3, 1, 1] []) (Output.atTime 55 0 0))
    (SNESSystem.ofHistograms [5, 3, 1, 1] []) (Output.atTime 75 0 0) rfl).2 ho
  have ho2 : (roundingC_opt.Optimize_AfterLoop (SNESSystem.ofHistograms [5, 3] [])
      (Output.atTime 9007199254740992 0 0)).oneshot = false := by decide!
  have h2 := (AdjustOptimizationEndPoint_timing roundingC_opt (SNESSystem.ofHistograms [5, 3] [])
    (Output.atTime 9007199254740992 0 0) rfl).2 ho2
  ⟨rfl, h.1.trans hlp, by decide!, h2.1.trans (by decide!), h2.2.1.trans (by decide!),
    h2.2.2.2 (by decide!)⟩

theorem SnsfOpt.DetectLoop_config (s : SnsfOpt) (sys : SNESSystem) (out : Output) :
    (s.DetectLoop sys out).time_loop_based = s.time_loop_based ∧
    (s.DetectLoop sys out).optimize_timeout = s.optimize_timeout ∧
    (s.DetectLoop sys out).time_last_new_data = s.time_last_new_data :=
  ⟨rfl, rfl, rfl⟩

/-- What one driver pass does to the coverage-mode end points. -/
theorem SnsfOpt.Optimize_iteration_spec (self : SnsfOpt) (it : SNESSystem × SNESSystem × Output) :
    (self.Optimize_iteration it).time_loop_based = self.time_loop_based ∧
    (self.Optimize_iteration it).optimize_timeout = self.optimize_timeout ∧
    (self.Optimize_iteration it).time_last_new_data =
      (if coverageChanged it = true then it.2.2.get_timer else self.time_last_new_data) ∧
    (self.time_loop_based = false →
      (self.Optimize_iteration it).song_endpoint = (self.Optimize_iteration it).time_last_new_data ∧
      (self.Optimize_iteration it).optimize_endpoint
        = addDouble (self.Optimize_iteration it).time_last_new_data self.optimize_timeout) := by
  unfold SnsfOpt.Optimize_iteration SnsfOpt.Optimize_AfterLoop SnsfOpt.Optimize_BeforeLoop
  simp only []
  generalize hs1 : (if it.2.1.GetROMCoverageSize ≠ it.1.GetROMCoverageSize then
      ({ self with rom_bytes_used_old := it.1.GetROMCoverageSize,
                   initial_silence_length := it.2.2.get_initial_silence_length,
                   time_last_new_data := it.2.2.get_timer } : SnsfOpt)
    else { self with rom_bytes_used_old := it.1.GetROMCoverageSize,
                     initial_silence_length := it.2.2.get_initial_silence_length }) = s1
  have h1 : s1.time_loop_based = self.time_loop_based ∧
      s1.optimize_timeout = self.optimize_timeout ∧
      s1.time_last_new_data =
        (if coverageChanged it = true then it.2.2.get_timer else self.time_last_new_data) := by
    rw [← hs1]
    unfold coverageChanged
    by_cases hc : it.2.1.GetROMCoverageSize ≠ it.1.GetROMCoverageSize
    · simp [hc]
    · simp [hc]
  obtain ⟨c1, c2, c3⟩ := h1
  obtain ⟨_, d2, _, _, _, d6, d7⟩ :=
    SnsfOpt.DetectOneShot_loop_point (s1.DetectLoop it.2.1 it.2.2) it.2.2
  obtain ⟨_, _, _, _, _, _, a7, a8, a9, _, _, a12⟩ :=
    SnsfOpt.AdjustOptimizationEndPoint_spec ((s1.DetectLoop it.2.1 it.2.2).DetectOneShot it.2.2)
      it.2.2
  obtain ⟨e1, e2, e3⟩ := SnsfOpt.DetectLoop_config s1 it.2.1 it.2.2
  refine ⟨by rw [a9, d2, e1, c1], by rw [a8, d7, e2, c2], by rw [a7, d6, e3, c3], fun hm => ?_⟩
  obtain ⟨b1, b2⟩ := a12 (by rw [d2, e1, c1]; exact hm)
  rw [a7, b1, b2, d6, d7, e2, e3, c2]
  exact ⟨rfl, rfl⟩

theorem lastNewData_concat (start : Int) (iters : List (SNESSystem × SNESSystem × Output))
    (it : SNESSystem × SNESSystem × Output) :
    lastNewData start (iters ++ [it]) =
      (if coverageChanged it = true then it.2.2.get_timer else lastNewData start iters) := by
  unfold lastNewData
  rw [List.reverse_append, List.reverse_singleton, List.singleton_append, List.find?_cons]
  by_cases h : coverageChanged it = true
  · simp [h]
  · have h' : coverageChanged it = false := by simpa using h
    simp [h']

theorem SnsfOpt.optimizeRun_spec (iters : List (SNESSystem × SNESSystem × Output)) (s : SnsfOpt) :
    (s.optimizeRun iters).time_loop_based = s.time_loop_based ∧
    (s.optimizeRun iters).optimize_timeout = s.optimize_timeout ∧
    (s.optimizeRun iters).time_last_new_data = lastNewData s.time_last_new_data iters := by
  induction iters using List.reverseRecOn with
  | nil => exact ⟨rfl, rfl, rfl⟩
  | append_singleton l a ih =>
    have e : s.optimizeRun (l ++ [a]) = (s.optimizeRun l).Optimize_iteration a := by
      simp [SnsfOpt.optimizeRun, List.foldl_append]
    obtain ⟨i1, i2, i3⟩ := ih
    obtain ⟨j1, j2, j3, _⟩ := SnsfOpt.Optimize_iteration_spec (s.optimizeRun l) a
    rw [e, lastNewData_concat]
    exact ⟨j1.trans i1, j2.trans i2, by rw [j3, i3]⟩

/-- C11: in coverage mode, after every driver pass of a run started by
`Optimize_Start`, `song_endpoint` is the time of the most recent pass during
which the live ROM coverage size changed (the start time when there is none),
`optimize_endpoint = song_endpoint + optimize_timeout` (the sum of `double`s
that line 1026 forms), and `Optimize_Finished` holds exactly when the current
time has reached `optimize_endpoint`, whatever the histograms and the silence
readings are. -/
theorem Optimize_coverage_endpoint (self : SnsfOpt) (sys0 : SNESSystem) (out0 : Output)
    (iters : List (SNESSystem × SNESSystem × Output)) (last : SNESSystem × SNESSystem × Output)
    (hmode : self.time_loop_based = false) :
    ((self.Optimize_Start sys0 out0).optimizeRun (iters ++ [last])).song_endpoint
      = lastNewData out0.get_timer (iters ++ [last]) ∧
    ((self.Optimize_Start sys0 out0).optimizeRun (iters ++ [last])).optimize_endpoint
      = addDouble
          ((self.Optimize_Start sys0 out0).optimizeRun (iters ++ [last])).song_endpoint
          self.optimize_timeout ∧
    (((self.Optimize_Start sys0 out0).optimizeRun (iters ++ [last])).Optimize_Finished last.2.2
        = true ↔
      last.2.2.get_timer
        ≥ ((self.Optimize_Start sys0 out0).optimizeRun (iters ++ [last])).optimize_endpoint) := by
  have e : (self.Optimize_Start sys0 out0).optimizeRun (iters ++ [last])
      = ((self.Optimize_Start sys0 out0).optimizeRun iters).Optimize_iteration last := by
    simp [SnsfOpt.optimizeRun, List.foldl_append]
  obtain ⟨i1, i2, i3⟩ := SnsfOpt.optimizeRun_spec iters (self.Optimize_Start sys0 out0)
  obtain ⟨_, _, j3, j4⟩ :=
    SnsfOpt.Optimize_iteration_spec ((self.Optimize_Start sys0 out0).optimizeRun iters) last
  have hm : ((self.Optimize_Start sys0 out0).optimizeRun iters).time_loop_based = false := by
    rw [i1]; exact hmode
  obtain ⟨k1, k2⟩ := j4 hm
  have hstart : (self.Optimize_Start sys0 out0).time_last_new_data = out0.get_timer := rfl
  have hto : (self.Optimize_Start sys0 out0).optimize_timeout = self.optimize_timeout := rfl
  rw [e, SnsfOpt.Optimize_Finished_iff]
  refine ⟨?_, ?_, Iff.rfl⟩
  · rw [k1, j3, i3, hstart, lastNewData_concat]
  · rw [k2, k1, i2, hto]

/-- C11 on Scenario B (timeout 5, last new coverage at 10): the song end point
is 10, the end point of the run is 15, and the run stops at the sample taken at
15 and not at the one taken at 14. And on a run with timeout 1 whose coverage
last grew at 2^53: the end point of the run is 2^53, the sum 2^53 + 1 being
rounded, so the run stops at that very sample. -/
theorem Optimize_coverage_endpoint_witness :
    scenarioB_opt.time_loop_based = false ∧
    ((scenarioB_opt.Optimize_Start (SNESSystem.ofCoverageSize 0) (Output.atTime 0 0 0)).optimizeRun
      (scenarioB_run 15)).song_endpoint = 10 ∧
    ((scenarioB_opt.Optimize_Start (SNESSystem.ofCoverageSize 0) (Output.atTime 0 0 0)).optimizeRun
      (scenarioB_run 15)).optimize_endpoint = 15 ∧
    ((scenarioB_opt.Optimize_Start (SNESSystem.ofCoverageSize 0) (Output.atTime 0 0 0)).optimizeRun
      (scenarioB_run 15)).Optimize_Finished (Output.atTime 15 0 0) = true ∧
    ((scenarioB_opt.Optimize_Start (SNESSystem.ofCoverageSize 0) (Output.atTime 0 0 0)).optimizeRun
      (scenarioB_run 14)).Optimize_Finished (Output.atTime 14 0 0) = false ∧
    ((roundingB_opt.Optimize_Start (SNESSystem.ofCoverageSize 0) (Output.atTime 0 0 0)).optimizeRun
      ([] ++ [(SNESSystem.ofCoverageSize 0, SNESSystem.ofCoverageSize 7,
        Output.atTime 9007199254740992 0 0)])).song_endpoint = 9007199254740992 ∧
    ((roundingB_opt.Optimize_Start (SNESSystem.ofCoverageSize 0) (Output.atTime 0 0 0)).optimizeRun
      ([] ++ [(SNESSystem.ofCoverageSize 0, SNESSystem.ofCoverageSize 7,
        Output.atTime 9007199254740992 0 0)])).optimize_endpoint = 9007199254740992 ∧
    ((roundingB_opt.Optimize_Start (SNESSystem.ofCoverageSize 0) (Output.atTime 0 0 0)).optimizeRun
      ([] ++ [(SNESSystem.ofCoverageSize 0, SNESSystem.ofCoverageSize 7,
        Output.atTime 9007199254740992 0 0)])).Optimize_Finished
        (Output.atTime 9007199254740992 0 0) = true :=
  have h := Optimize_coverage_endpoint scenarioB_opt (SNESSystem.ofCoverageSize 0)
    (Output.atTime 0 0 0)
    [(SNESSystem.ofCoverageSize 0, SNESSystem.ofCoverageSize 7, Output.atTime 4 0 0),
     (SNESSystem.ofCoverageSize 7, SNESSystem.ofCoverageSize 9, Output.atTime 10 0 0),
     (SNESSystem.ofCoverageSize 9, SNESSystem.ofCoverageSize 9, Output.atTime 12 0 0)]
    (SNESSystem.ofCoverageSize 9, SNESSystem.ofCoverageSize 9, Output.atTime 15 0 0) rfl
  have h2 := Optimize_coverage_endpoint roundingB_opt (SNESSystem.ofCoverageSize 0)
    (Output.atTime 0 0 0) []
    (SNESSystem.ofCoverageSize 0, SNESSystem.ofCoverageSize 7, Output.atTime 9007199254740992 0 0)
    rfl
  ⟨rfl, h.1.trans (by decide), h.2.1.trans (by decide!), by decide!, by decide!,
    h2.1.trans (by decide), h2.2.1.trans (by decide!), h2.2.2.2 (by decide!)⟩

/-- C12: after `DetectOneShot`, `oneshot` is true exactly when the trailing
silence length is at least `oneshot_verify_length` and `loop_count` is not 0;
then `oneshot_endpoint` is the silence start time, and otherwise it keeps its
value; with `loop_count = 0` the step is never classified one-shot. -/
theorem DetectOneShot_spec (self : SnsfOpt) (out : Output) :
    ((self.DetectOneShot out).oneshot = true ↔
      (out.get_silence_length ≥ self.oneshot_verify_length ∧ self.loop_count ≠ 0)) ∧
    ((self.DetectOneShot out).oneshot = true →
      (self.DetectOneShot out).oneshot_endpoint = out.get_silence_start) ∧
    ((self.DetectOneShot out).oneshot = false →
      (self.DetectOneShot out).oneshot_endpoint = self.oneshot_endpoint) ∧
    (self.loop_count = 0 → (self.DetectOneShot out).oneshot = false) ∧
    (self.DetectOneShot out).loop_count = self.loop_count := by
  unfold SnsfOpt.DetectOneShot
  by_cases h : out.get_silence_length ≥ self.oneshot_verify_length ∧ self.loop_count ≠ 0
  · rw [if_pos h]
    refine ⟨⟨fun _ => h, fun _ => rfl⟩, fun _ => rfl, fun hf => ?_, fun h0 => absurd h0 h.2, rfl⟩
    exact absurd hf (by simp)
  · rw [if_neg h]
    refine ⟨⟨fun ht => ?_, fun hh => absurd hh h⟩, fun ht => ?_, fun _ => rfl, fun _ => rfl, rfl⟩
    · exact absurd ht (by simp)
    · exact absurd ht (by simp)

/-! ### Lemmas on ReadSNSFFile -/

theorem countLibsFrom_le (tags : List (TagKey × String)) (n : Nat) :
    countLibsFrom tags n ≤ tags.length :=
  List.countP_le_length _

theorem countLibsFrom_lt_of_lookup (tags : List (TagKey × String)) (n : Nat) (v : String)
    (h : tags.lookup (TagKey.libN n) = some v) :
    countLibsFrom tags (n + 1) < countLibsFrom tags n := by
  have mono : ∀ l : List (TagKey × String), countLibsFrom l (n + 1) ≤ countLibsFrom l n := by
    intro l
    induction l with
    | nil => simp [countLibsFrom]
    | cons kv rest ih =>
      unfold countLibsFrom at ih ⊢
      rw [List.countP_cons, List.countP_cons]
      have : (if (match kv.1 with
                  | TagKey.libN m => decide (n + 1 ≤ m)
                  | _ => false) = true then 1 else 0)
            ≤ (if (match kv.1 with
                  | TagKey.libN m => decide (n ≤ m)
                  | _ => false) = true then 1 else 0) := by
        cases hk : kv.1 with
        | lib => simp
        | other s => simp
        | libN m =>
          simp only [decide_eq_true_eq]
          split_ifs <;> omega
      omega
  induction tags with
  | nil => simp [List.lookup] at h
  | cons kv rest ih =>
    obtain ⟨k, w⟩ := kv
    unfold countLibsFrom
    rw [List.countP_cons, List.countP_cons]
    by_cases hk : k = TagKey.libN n
    · subst hk
      have := mono rest
      unfold countLibsFrom at this
      simp only [decide_eq_true_eq, le_refl, if_true]
      rw [if_neg (by omega)]
      omega
    · have hne : (TagKey.libN n == k) = false := by
        simp only [beq_eq_false_iff_ne, ne_eq]
        exact fun e => hk e.symm
      rw [List.lookup_cons, hne] at h
      have := ih h
      unfold countLibsFrom at this
      have hm : (if (match (k, w).1 with
                  | TagKey.libN m => decide (n + 1 ≤ m)
                  | _ => false) = true then 1 else 0)
            ≤ (if (match (k, w).1 with
                  | TagKey.libN m => decide (n ≤ m)
                  | _ => false) = true then 1 else 0) := by
        cases k with
        | lib => simp
        | other s => simp
        | libN m =>
          simp only [decide_eq_true_eq]
          split_ifs <;> omega
      omega

/-- The loop over `_lib<n>` ends within the bound when every nested call
returns. -/
theorem ReadSNSFFile.libs_total (resolve : String → ReadState → Option (Bool × ReadState))
    (hres : ∀ name s, ∃ r, resolve name s = some r)
    (tags : List (TagKey × String)) (fuel libN : Nat) (st : ReadState)
    (hf : countLibsFrom tags libN < fuel) :
    ∃ r, ReadSNSFFile.libs resolve tags fuel libN st = some r := by
  induction fuel generalizing libN st with
  | zero => omega
  | succ f ih =>
    unfold ReadSNSFFile.libs
    cases hl : tags.lookup (TagKey.libN libN) with
    | none => exact ⟨_, rfl⟩
    | some name =>
      obtain ⟨r, hr⟩ := hres name st
      obtain ⟨b, st1⟩ := r
      simp only [hr]
      cases b with
      | false => exact ⟨_, rfl⟩
      | true =>
        have := countLibsFrom_lt_of_lookup tags libN name hl
        exact ih (libN + 1) st1 (by omega)

theorem ReadSNSFFile.ownAndLibs_total (resolve : String → ReadState → Option (Bool × ReadState))
    (hres : ∀ name s, ∃ r, resolve name s = some r)
    (filename savedcwd : String) (p : Pointers) (snsf : PSFFile) (st : ReadState) :
    ∃ r, ReadSNSFFile.ownAndLibs resolve filename savedcwd p snsf st = some r := by
  unfold ReadSNSFFile.ownAndLibs
  rcases ReadSNSFFile.payload filename savedcwd p snsf st with ⟨b4, st4⟩
  cases b4 with
  | false => exact ⟨_, rfl⟩
  | true =>
    simp only []
    rcases ReadSNSFFile.reservedSection filename savedcwd p snsf st4 with ⟨b5, st5⟩
    cases b5 with
    | false => exact ⟨_, rfl⟩
    | true =>
      simp only []
      obtain ⟨r, hr⟩ := ReadSNSFFile.libs_total resolve hres snsf.tags (snsf.tags.length + 1) 2
        st5 (Nat.lt_succ_of_le (countLibsFrom_le _ _))
      rw [hr]
      obtain ⟨b6, st6⟩ := r
      cases b6 <;> exact ⟨_, rfl⟩

theorem ReadSNSFFile.container_total (resolve : String → ReadState → Option (Bool × ReadState))
    (hres : ∀ name s, ∃ r, resolve name s = some r)
    (filename savedcwd : String) (nesting_level : Nat) (p : Pointers) (snsf : PSFFile)
    (st : ReadState) :
    ∃ r, ReadSNSFFile.container resolve filename savedcwd nesting_level p snsf st = some r := by
  unfold ReadSNSFFile.container
  split_ifs
  · exact ⟨_, rfl⟩
  · simp only []
    cases hl : snsf.tags.lookup TagKey.lib with
    | none =>
      simp only []
      exact ReadSNSFFile.ownAndLibs_total resolve hres _ _ _ _ _
    | some name =>
      simp only []
      obtain ⟨r, hr⟩ := hres name (ReadSNSFFile.topInit nesting_level p st)
      rw [hr]
      obtain ⟨b, st3⟩ := r
      cases b with
      | false => exact ⟨_, rfl⟩
      | true => exact ReadSNSFFile.ownAndLibs_total resolve hres _ _ _ _ _

theorem ReadSNSFFile.refused_of_level (filename : String) (nesting_level : Nat) (p : Pointers)
    (st : ReadState) (h : 10 < nesting_level) :
    ∃ r, ReadSNSFFile.refused filename nesting_level p st = some r := by
  unfold ReadSNSFFile.refused
  split_ifs
  · exact ⟨_, rfl⟩
  · exact ⟨_, rfl⟩

/-- `ReadSNSFFile.go` returns whenever the bound covers the levels up to 10. -/
theorem ReadSNSFFile.go_total (fs : FileSystem) (fuel : Nat) (filename : String)
    (nesting_level : Nat) (p : Pointers) (st : ReadState) (hf : 11 - nesting_level ≤ fuel) :
    ∃ r, ReadSNSFFile.go fs fuel filename nesting_level p st = some r := by
  induction fuel generalizing filename nesting_level st with
  | zero =>
    unfold ReadSNSFFile.go
    exact ReadSNSFFile.refused_of_level _ _ _ _ (by omega)
  | succ f ih =>
    unfold ReadSNSFFile.go
    cases hr : ReadSNSFFile.refused filename nesting_level p st with
    | some r => exact ⟨_, rfl⟩
    | none =>
      simp only []
      cases hl : fs.load (ReadSNSFFile.enter fs filename st).cwd filename with
      | none => exact ⟨_, rfl⟩
      | some snsf =>
        simp only []
        have hlev : nesting_level ≤ 10 := by
          by_contra hc
          obtain ⟨r, hr'⟩ := ReadSNSFFile.refused_of_level filename nesting_level p st (by omega)
          rw [hr] at hr'
          exact absurd hr' (by simp)
        exact ReadSNSFFile.container_total _
          (fun name s => ih name (nesting_level + 1) s (by omega)) _ _ _ _ _ _

theorem ReadSNSFFile.enter_cwd (fs : FileSystem) (filename : String) (st : ReadState) :
    (ReadSNSFFile.enter fs filename st).cwd = enterDir fs st.cwd filename := by
  simp only [ReadSNSFFile.enter, enterDir]
  split_ifs <;> rfl

theorem ReadSNSFFile.refused_none (filename : String) (nesting_level : Nat) (p : Pointers)
    (st : ReadState) (hp : p.base_offset = true) (hl : nesting_level ≤ 10) :
    ReadSNSFFile.refused filename nesting_level p st = none := by
  unfold ReadSNSFFile.refused
  rw [if_neg (by simp [hp]), if_neg (by omega)]

/-- The recursion equation of `ReadSNSFFile` below the nesting limit: the
nested calls are calls of `ReadSNSFFile` one level deeper. -/
theorem ReadSNSFFile_unfold (fs : FileSystem) (filename : String) (nesting_level : Nat)
    (p : Pointers) (st : ReadState) (hp : p.base_offset = true) (hl : nesting_level ≤ 10) :
    ReadSNSFFile fs filename nesting_level p st =
      match fs.load (enterDir fs st.cwd filename) filename with
      | none => some (ReadSNSFFile.fail filename st.cwd "PSF load error"
          (ReadSNSFFile.enter fs filename st))
      | some snsf =>
        ReadSNSFFile.container (fun name s => ReadSNSFFile fs name (nesting_level + 1) p s)
          filename st.cwd nesting_level p snsf (ReadSNSFFile.enter fs filename st) := by
  unfold ReadSNSFFile
  have e : 11 - nesting_level = (10 - nesting_level) + 1 := by omega
  have e' : 11 - (nesting_level + 1) = 10 - nesting_level := by omega
  rw [e]
  simp only [ReadSNSFFile.go, ReadSNSFFile.refused_none _ _ _ _ hp hl, ReadSNSFFile.enter_cwd, e']

/-- A call above the nesting limit is refused with the nesting error and does
nothing else. -/
theorem ReadSNSFFile_refused (fs : FileSystem) (filename : String) (nesting_level : Nat)
    (p : Pointers) (st : ReadState) (hp : p.base_offset = true) (hl : 10 < nesting_level) :
    ReadSNSFFile fs filename nesting_level p st =
      some (false, { st with
        m_message := filename ++ " - " ++ "Too many snsflibs"
        events := st.events ++ [ReadEvent.failed filename "Too many snsflibs"] }) := by
  unfold ReadSNSFFile
  have e : 11 - nesting_level = 0 := by omega
  rw [e]
  simp only [ReadSNSFFile.go, ReadSNSFFile.refused]
  rw [if_neg (by simp [hp]), if_pos hl]

theorem ReadSNSFFile_total (fs : FileSystem) (filename : String) (nesting_level : Nat)
    (p : Pointers) (st : ReadState) :
    ∃ r, ReadSNSFFile fs filename nesting_level p st = some r :=
  ReadSNSFFile.go_total fs _ filename nesting_level p st (le_refl _)

theorem ReadSNSFFile.topInit_cwd (nesting_level : Nat) (p : Pointers) (st : ReadState) :
    (ReadSNSFFile.topInit nesting_level p st).cwd = st.cwd := by
  unfold ReadSNSFFile.topInit
  split_ifs <;> rfl

/-- A chain of primary `_lib` references that never ends (every container on
it loads with the right version and names a primary library) is refused at
level 11. -/
theorem ReadSNSFFile_endless_chain (fs : FileSystem) (p : Pointers) (hp : p.base_offset = true)
    (I : String → String → Prop)
    (hI : ∀ cwd name, I cwd name → ∃ snsf lib,
      fs.load (enterDir fs cwd name) name = some snsf ∧ snsf.version = SNSF_PSF_VERSION ∧
      snsf.tags.lookup TagKey.lib = some lib ∧ I (enterDir fs cwd name) lib)
    (d : Nat) :
    ∀ (nesting_level : Nat) (filename : String) (st : ReadState),
      nesting_level + d = 11 → I st.cwd filename →
      ∃ st' name, ReadSNSFFile fs filename nesting_level p st = some (false, st') ∧
        st'.m_message = name ++ " - " ++ "Too many snsflibs" := by
  induction d with
  | zero =>
    intro nesting_level filename st hl _
    exact ⟨_, filename, ReadSNSFFile_refused fs filename nesting_level p st hp (by omega), rfl⟩
  | succ d ih =>
    intro nesting_level filename st hl h0
    obtain ⟨snsf, lib, h1, h2, h3, h4⟩ := hI st.cwd filename h0
    rw [ReadSNSFFile_unfold fs filename nesting_level p st hp (by omega), h1]
    simp only [ReadSNSFFile.container, h2, ne_eq, not_true_eq_false, if_false, h3]
    have hc : (ReadSNSFFile.topInit nesting_level p (ReadSNSFFile.enter fs filename st)).cwd
        = enterDir fs st.cwd filename := by
      rw [ReadSNSFFile.topInit_cwd, ReadSNSFFile.enter_cwd]
    obtain ⟨st3, name, hr, hm⟩ := ih (nesting_level + 1) lib
      (ReadSNSFFile.topInit nesting_level p (ReadSNSFFile.enter fs filename st)) (by omega)
      (by rw [hc]; exact h4)
    rw [hr]
    exact ⟨_, name, rfl, hm⟩

theorem ReadSNSFFile.refused_some_inv (filename : String) (nesting_level : Nat) (p : Pointers)
    (st : ReadState) (h : ReadSNSFFile.refused filename nesting_level p st = none) :
    p.base_offset = true ∧ nesting_level ≤ 10 := by
  unfold ReadSNSFFile.refused at h
  split_ifs at h with h1 h2
  exact ⟨by simpa using h1, by omega⟩

/-- Induction over the nesting of `ReadSNSFFile`: a property of calls holds for
every call that returns if it holds for the refusals, for a failed load, and
for the body run on a loaded container whenever it holds for the nested calls. -/
theorem ReadSNSFFile.go_induct (fs : FileSystem) (p : Pointers)
    (Q : Nat → String → ReadState → Bool × ReadState → Prop)
    (h_refused : ∀ level filename st r,
      ReadSNSFFile.refused filename level p st = some r → Q level filename st r)
    (h_load : ∀ level filename st, p.base_offset = true → level ≤ 10 →
      fs.load (enterDir fs st.cwd filename) filename = none →
      Q level filename st (ReadSNSFFile.fail filename st.cwd "PSF load error"
        (ReadSNSFFile.enter fs filename st)))
    (h_container : ∀ level filename st snsf
      (resolve : String → ReadState → Option (Bool × ReadState)),
      p.base_offset = true → level ≤ 10 →
      fs.load (enterDir fs st.cwd filename) filename = some snsf →
      (∀ name s r, resolve name s = some r → Q (level + 1) name s r) →
      ∀ r, ReadSNSFFile.container resolve filename st.cwd level p snsf
          (ReadSNSFFile.enter fs filename st) = some r → Q level filename st r)
    (fuel : Nat) :
    ∀ level filename st r,
      ReadSNSFFile.go fs fuel filename level p st = some r → Q level filename st r := by
  induction fuel with
  | zero =>
    intro level filename st r h
    unfold ReadSNSFFile.go at h
    exact h_refused level filename st r h
  | succ f ih =>
    intro level filename st r h
    unfold ReadSNSFFile.go at h
    cases hr : ReadSNSFFile.refused filename level p st with
    | some r0 =>
      rw [hr] at h
      simp only [Option.some.injEq] at h
      subst h
      exact h_refused level filename st r0 hr
    | none =>
      rw [hr] at h
      simp only [ReadSNSFFile.enter_cwd] at h
      obtain ⟨hp, hl⟩ := ReadSNSFFile.refused_some_inv _ _ _ _ hr
      cases hload : fs.load (enterDir fs st.cwd filename) filename with
      | none =>
        rw [hload] at h
        simp only [Option.some.injEq] at h
        subst h
        exact h_load level filename st hp hl hload
      | some snsf =>
        rw [hload] at h
        exact h_container level filename st snsf _ hp hl hload
          (fun name s r hres => ih (level + 1) name s r hres) r h

theorem ReadSNSFFile_induct (fs : FileSystem) (p : Pointers)
    (Q : Nat → String → ReadState → Bool × ReadState → Prop)
    (h_refused : ∀ level filename st r,
      ReadSNSFFile.refused filename level p st = some r → Q level filename st r)
    (h_load : ∀ level filename st, p.base_offset = true → level ≤ 10 →
      fs.load (enterDir fs st.cwd filename) filename = none →
      Q level filename st (ReadSNSFFile.fail filename st.cwd "PSF load error"
        (ReadSNSFFile.enter fs filename st)))
    (h_container : ∀ level filename st snsf
      (resolve : String → ReadState → Option (Bool × ReadState)),
      p.base_offset = true → level ≤ 10 →
      fs.load (enterDir fs st.cwd filename) filename = some snsf →
      (∀ name s r, resolve name s = some r → Q (level + 1) name s r) →
      ∀ r, ReadSNSFFile.container resolve filename st.cwd level p snsf
          (ReadSNSFFile.enter fs filename st) = some r → Q level filename st r)
    (level : Nat) (filename : String) (st : ReadState) (r : Bool × ReadState)
    (h : ReadSNSFFile fs filename level p st = some r) : Q level filename st r :=
  ReadSNSFFile.go_induct fs p Q h_refused h_load h_container _ level filename st r h

/-- The ways `ReadSNSFFile.container` can return. -/
theorem ReadSNSFFile.container_cases (resolve : String → ReadState → Option (Bool × ReadState))
    (filename savedcwd : String) (level : Nat) (p : Pointers) (snsf : PSFFile)
    (st1 : ReadState) (r : Bool × ReadState)
    (h : ReadSNSFFile.container resolve filename savedcwd level p snsf st1 = some r) :
    (snsf.version ≠ SNSF_PSF_VERSION ∧
      r = ReadSNSFFile.fail filename savedcwd "Mismatch PSF version" st1) ∨
    (snsf.version = SNSF_PSF_VERSION ∧ ∃ name st3,
      snsf.tags.lookup TagKey.lib = some name ∧
      resolve name (ReadSNSFFile.topInit level p st1) = some (false, st3) ∧
      r = (false, { st3 with cwd := savedcwd })) ∨
    (snsf.version = SNSF_PSF_VERSION ∧ ∃ name st3,
      snsf.tags.lookup TagKey.lib = some name ∧
      resolve name (ReadSNSFFile.topInit level p st1) = some (true, st3) ∧
      ReadSNSFFile.ownAndLibs resolve filename savedcwd p snsf st3 = some r) ∨
    (snsf.version = SNSF_PSF_VERSION ∧ snsf.tags.lookup TagKey.lib = none ∧
      ReadSNSFFile.ownAndLibs resolve filename savedcwd p snsf
        (ReadSNSFFile.topInit level p st1) = some r) := by
  unfold ReadSNSFFile.container at h
  by_cases hv : snsf.version = SNSF_PSF_VERSION
  · rw [if_neg (by simp [hv])] at h
    simp only [] at h
    cases hl : snsf.tags.lookup TagKey.lib with
    | none =>
      rw [hl] at h
      exact Or.inr (Or.inr (Or.inr ⟨hv, rfl, h⟩))
    | some name =>
      rw [hl] at h
      simp only [] at h
      cases hres : resolve name (ReadSNSFFile.topInit level p st1) with
      | none => rw [hres] at h; exact absurd h (by simp)
      | some r3 =>
        obtain ⟨b, st3⟩ := r3
        rw [hres] at h
        cases b with
        | false =>
          simp only [Option.some.injEq] at h
          exact Or.inr (Or.inl ⟨hv, name, st3, rfl, hres, h.symm⟩)
        | true =>
          exact Or.inr (Or.inr (Or.inl ⟨hv, name, st3, rfl, hres, h⟩))
  · rw [if_pos hv] at h
    simp only [Option.some.injEq] at h
    exact Or.inl ⟨hv, h.symm⟩

/-- The ways `ReadSNSFFile.ownAndLibs` can return. -/
theorem ReadSNSFFile.ownAndLibs_cases (resolve : String → ReadState → Option (Bool × ReadState))
    (filename savedcwd : String) (p : Pointers) (snsf : PSFFile)
    (st3 : ReadState) (r : Bool × ReadState)
    (h : ReadSNSFFile.ownAndLibs resolve filename savedcwd p snsf st3 = some r) :
    (∃ st4, ReadSNSFFile.payload filename savedcwd p snsf st3 = (false, st4) ∧ r = (false, st4)) ∨
    (∃ st4 st5, ReadSNSFFile.payload filename savedcwd p snsf st3 = (true, st4) ∧
      ReadSNSFFile.reservedSection filename savedcwd p snsf st4 = (false, st5) ∧
      r = (false, st5)) ∨
    (∃ st4 st5 st6, ReadSNSFFile.payload filename savedcwd p snsf st3 = (true, st4) ∧
      ReadSNSFFile.reservedSection filename savedcwd p snsf st4 = (true, st5) ∧
      ReadSNSFFile.libs resolve snsf.tags (snsf.tags.length + 1) 2 st5 = some (false, st6) ∧
      r = (false, { st6 with cwd := savedcwd })) ∨
    (∃ st4 st5 st6, ReadSNSFFile.payload filename savedcwd p snsf st3 = (true, st4) ∧
      ReadSNSFFile.reservedSection filename savedcwd p snsf st4 = (true, st5) ∧
      ReadSNSFFile.libs resolve snsf.tags (snsf.tags.length + 1) 2 st5 = some (true, st6) ∧
      r = (true, { st6 with
        m_message := filename ++ " - " ++ "Loaded successfully"
        cwd := savedcwd
        events := st6.events ++ [ReadEvent.loaded filename] })) := by
  unfold ReadSNSFFile.ownAndLibs at h
  rcases hp4 : ReadSNSFFile.payload filename savedcwd p snsf st3 with ⟨b4, st4⟩
  rw [hp4] at h
  cases b4 with
  | false =>
    simp only [Option.some.injEq] at h
    exact Or.inl ⟨st4, rfl, h.symm⟩
  | true =>
    simp only [] at h
    rcases hp5 : ReadSNSFFile.reservedSection filename savedcwd p snsf st4 with ⟨b5, st5⟩
    rw [hp5] at h
    cases b5 with
    | false =>
      simp only [Option.some.injEq] at h
      exact Or.inr (Or.inl ⟨st4, st5, rfl, hp5, h.symm⟩)
    | true =>
      simp only [] at h
      cases hp6 : ReadSNSFFile.libs resolve snsf.tags (snsf.tags.length + 1) 2 st5 with
      | none => rw [hp6] at h; exact absurd h (by simp)
      | some r6 =>
        obtain ⟨b6, st6⟩ := r6
        rw [hp6] at h
        cases b6 with
        | false =>
          simp only [Option.some.injEq] at h
          exact Or.inr (Or.inr (Or.inl ⟨st4, st5, st6, rfl, hp5, hp6, h.symm⟩))
        | true =>
          simp only [Option.some.injEq] at h
          exact Or.inr (Or.inr (Or.inr ⟨st4, st5, st6, rfl, hp5, hp6, h.symm⟩))

/-- Induction over the passes of the `_lib<n>` loop. -/
theorem ReadSNSFFile.libs_induct (resolve : String → ReadState → Option (Bool × ReadState))
    (tags : List (TagKey × String)) (R : Nat → ReadState → Bool × ReadState → Prop)
    (h_end : ∀ n st, tags.lookup (TagKey.libN n) = none → R n st (true, st))
    (h_fail : ∀ n name st st1, tags.lookup (TagKey.libN n) = some name →
      resolve name st = some (false, st1) → R n st (false, st1))
    (h_next : ∀ n name st st1 r, tags.lookup (TagKey.libN n) = some name →
      resolve name st = some (true, st1) → R (n + 1) st1 r → R n st r)
    (fuel : Nat) :
    ∀ n st r, ReadSNSFFile.libs resolve tags fuel n st = some r → R n st r := by
  induction fuel with
  | zero =>
    intro n st r h
    unfold ReadSNSFFile.libs at h
    exact absurd h (by simp)
  | succ f ih =>
    intro n st r h
    unfold ReadSNSFFile.libs at h
    cases hl : tags.lookup (TagKey.libN n) with
    | none =>
      rw [hl] at h
      simp only [Option.some.injEq] at h
      subst h
      exact h_end n st hl
    | some name =>
      rw [hl] at h
      simp only [] at h
      cases hres : resolve name st with
      | none => rw [hres] at h; exact absurd h (by simp)
      | some r1 =>
        obtain ⟨b, st1⟩ := r1
        rw [hres] at h
        cases b with
        | false =>
          simp only [Option.some.injEq] at h
          subst h
          exact h_fail n name st st1 hl hres
        | true =>
          exact h_next n name st st1 r hl hres (ih (n + 1) st1 r h)

/-! ### Events of a call -/

theorem NoFail_nil : NoFail [] := by
  intro e he; simp at he

theorem NoFail_append (a b : List ReadEvent) (ha : NoFail a) (hb : NoFail b) :
    NoFail (a ++ b) := by
  intro e he
  rcases List.mem_append.1 he with h | h
  · exact ha e h
  · exact hb e h

theorem EventsOK_refl (st : ReadState) : EventsOK st (true, st) :=
  ⟨[], by simp, fun _ => NoFail_nil, fun h => absurd h (by simp)⟩

theorem EventsOK_fail (filename savedcwd msg : String) (st : ReadState) :
    EventsOK st (ReadSNSFFile.fail filename savedcwd msg st) :=
  ⟨[ReadEvent.failed filename msg], rfl, fun h => absurd h (by simp [ReadSNSFFile.fail]),
    fun _ => ⟨[], filename, msg, rfl, NoFail_nil, rfl⟩⟩

theorem EventsOK_trans (st st1 : ReadState) (r : Bool × ReadState)
    (h1 : EventsOK st (true, st1)) (h2 : EventsOK st1 r) : EventsOK st r := by
  obtain ⟨es1, e1, n1, _⟩ := h1
  obtain ⟨es2, e2, n2, f2⟩ := h2
  refine ⟨es1 ++ es2, ?_, fun hb => NoFail_append _ _ (n1 rfl) (n2 hb), fun hb => ?_⟩
  · rw [e2, e1, List.append_assoc]
  · obtain ⟨es0, name, msg, e3, n3, m3⟩ := f2 hb
    exact ⟨es1 ++ es0, name, msg, by rw [e3, List.append_assoc],
      NoFail_append _ _ (n1 rfl) n3, m3⟩

theorem EventsOK_of_eq (st : ReadState) (b : Bool) (s s' : ReadState)
    (he : s'.events = s.events) (hm : s'.m_message = s.m_message)
    (h : EventsOK st (b, s)) : EventsOK st (b, s') := by
  obtain ⟨es, e1, n1, f1⟩ := h
  refine ⟨es, by rw [he]; exact e1, n1, fun hb => ?_⟩
  obtain ⟨es0, name, msg, e3, n3, m3⟩ := f1 hb
  exact ⟨es0, name, msg, e3, n3, by rw [hm]; exact m3⟩

theorem EventsOK_pre (st st0 : ReadState) (r : Bool × ReadState) (es : List ReadEvent)
    (he : st0.events = st.events ++ es) (hn : NoFail es) (h : EventsOK st0 r) :
    EventsOK st r :=
  EventsOK_trans st st0 r ⟨es, he, fun _ => hn, fun hb => absurd hb (by simp)⟩ h

theorem ReadSNSFFile.payload_events (filename savedcwd : String) (p : Pointers) (snsf : PSFFile)
    (st : ReadState) : EventsOK st (ReadSNSFFile.payload filename savedcwd p snsf st) := by
  unfold ReadSNSFFile.payload
  split
  · simp only []
    split_ifs <;> first
      | exact EventsOK_fail _ _ _ _
      | exact ⟨[], by simp, fun _ => NoFail_nil, fun h => absurd h (by simp)⟩
  · exact EventsOK_fail _ _ _ _

theorem ReadSNSFFile.reservedSection_events (filename savedcwd : String) (p : Pointers)
    (snsf : PSFFile) (st : ReadState) :
    EventsOK st (ReadSNSFFile.reservedSection filename savedcwd p snsf st) := by
  unfold ReadSNSFFile.reservedSection
  simp only []
  split_ifs <;> first
    | exact EventsOK_fail _ _ _ _
    | exact EventsOK_refl st

theorem ReadSNSFFile.libs_events (resolve : String → ReadState → Option (Bool × ReadState))
    (hres : ∀ name s r, resolve name s = some r → EventsOK s r)
    (tags : List (TagKey × String)) (fuel n : Nat) (st : ReadState) (r : Bool × ReadState)
    (h : ReadSNSFFile.libs resolve tags fuel n st = some r) : EventsOK st r :=
  ReadSNSFFile.libs_induct resolve tags (fun _ s r => EventsOK s r)
    (fun _ s _ => EventsOK_refl s)
    (fun _ name s _ _ hr => hres name s _ hr)
    (fun _ name s s1 r _ hr ih => EventsOK_trans s s1 r (hres name s _ hr) ih)
    fuel n st r h

theorem ReadSNSFFile.topInit_events (level : Nat) (p : Pointers) (st : ReadState) :
    (ReadSNSFFile.topInit level p st).events = st.events ∧
    (ReadSNSFFile.topInit level p st).m_message = st.m_message := by
  unfold ReadSNSFFile.topInit
  split_ifs <;> exact ⟨rfl, rfl⟩

theorem ReadSNSFFile.ownAndLibs_events (resolve : String → ReadState → Option (Bool × ReadState))
    (hres : ∀ name s r, resolve name s = some r → EventsOK s r)
    (filename savedcwd : String) (p : Pointers) (snsf : PSFFile) (st3 : ReadState)
    (r : Bool × ReadState)
    (h : ReadSNSFFile.ownAndLibs resolve filename savedcwd p snsf st3 = some r) :
    EventsOK st3 r := by
  have hp := ReadSNSFFile.payload_events filename savedcwd p snsf st3
  rcases ReadSNSFFile.ownAndLibs_cases resolve filename savedcwd p snsf st3 r h with
    ⟨st4, h4, rfl⟩ | ⟨st4, st5, h4, h5, rfl⟩ | ⟨st4, st5, st6, h4, h5, h6, rfl⟩ |
    ⟨st4, st5, st6, h4, h5, h6, rfl⟩
  · rw [h4] at hp; exact hp
  · rw [h4] at hp
    have hr := ReadSNSFFile.reservedSection_events filename savedcwd p snsf st4
    rw [h5] at hr
    exact EventsOK_trans _ _ _ hp hr
  · rw [h4] at hp
    have hr := ReadSNSFFile.reservedSection_events filename savedcwd p snsf st4
    rw [h5] at hr
    have hl := ReadSNSFFile.libs_events resolve hres _ _ _ _ _ h6
    exact EventsOK_of_eq _ _ st6 _ rfl rfl (EventsOK_trans _ _ _ hp (EventsOK_trans _ _ _ hr hl))
  · rw [h4] at hp
    have hr := ReadSNSFFile.reservedSection_events filename savedcwd p snsf st4
    rw [h5] at hr
    have hl := ReadSNSFFile.libs_events resolve hres _ _ _ _ _ h6
    have h36 := EventsOK_trans _ _ _ hp (EventsOK_trans _ _ _ hr hl)
    obtain ⟨es, e1, n1, _⟩ := h36
    refine ⟨es ++ [ReadEvent.loaded filename], ?_, fun _ => ?_, fun hb => absurd hb (by simp)⟩
    · show st6.events ++ [ReadEvent.loaded filename] = _
      rw [e1, List.append_assoc]
    · apply NoFail_append _ _ (n1 rfl)
      intro e he name msg
      simp only [List.mem_singleton] at he
      rw [he]
      exact fun hc => by cases hc

theorem ReadSNSFFile.container_events (resolve : String → ReadState → Option (Bool × ReadState))
    (hres : ∀ name s r, resolve name s = some r → EventsOK s r)
    (filename savedcwd : String) (level : Nat) (p : Pointers) (snsf : PSFFile) (st1 : ReadState)
    (r : Bool × ReadState)
    (h : ReadSNSFFile.container resolve filename savedcwd level p snsf st1 = some r) :
    EventsOK st1 r := by
  have hi := ReadSNSFFile.topInit_events level p st1
  have h12 : EventsOK st1 (true, ReadSNSFFile.topInit level p st1) :=
    ⟨[], by simp [hi.1], fun _ => NoFail_nil, fun hb => absurd hb (by simp)⟩
  rcases ReadSNSFFile.container_cases resolve filename savedcwd level p snsf st1 r h with
    ⟨_, rfl⟩ | ⟨_, name, st3, _, h3, rfl⟩ | ⟨_, name, st3, _, h3, h4⟩ | ⟨_, _, h4⟩
  · exact EventsOK_fail _ _ _ _
  · exact EventsOK_of_eq _ _ st3 _ rfl rfl (EventsOK_trans _ _ _ h12 (hres name _ _ h3))
  · exact EventsOK_trans _ _ _ (EventsOK_trans _ _ _ h12 (hres name _ _ h3))
      (ReadSNSFFile.ownAndLibs_events resolve hres _ _ _ _ _ _ h4)
  · exact EventsOK_trans _ _ _ h12 (ReadSNSFFile.ownAndLibs_events resolve hres _ _ _ _ _ _ h4)

/-- Every call of `ReadSNSFFile` that fails records its error as the last
event: nothing is loaded after the failure; a successful call records none. -/
theorem ReadSNSFFile_events (fs : FileSystem) (filename : String) (level : Nat) (p : Pointers)
    (st : ReadState) (r : Bool × ReadState)
    (h : ReadSNSFFile fs filename level p st = some r) : EventsOK st r := by
  refine ReadSNSFFile_induct fs p (fun _ _ s r => EventsOK s r) ?_ ?_ ?_ level filename st r h
  · intro level filename st r hr
    unfold ReadSNSFFile.refused at hr
    split_ifs at hr
    · simp only [Option.some.injEq] at hr
      subst hr
      exact ⟨[ReadEvent.failed filename "Internal error (base offset must not be null)"], rfl,
        fun hb => absurd hb (by simp), fun _ => ⟨[], filename, _, rfl, NoFail_nil, rfl⟩⟩
    · simp only [Option.some.injEq] at hr
      subst hr
      exact ⟨[ReadEvent.failed filename "Too many snsflibs"], rfl,
        fun hb => absurd hb (by simp), fun _ => ⟨[], filename, _, rfl, NoFail_nil, rfl⟩⟩
  · intro level filename st _ _ _
    refine EventsOK_pre st (ReadSNSFFile.enter fs filename st) _
      [ReadEvent.load (enterDir fs st.cwd filename) filename] ?_ ?_ (EventsOK_fail _ _ _ _)
    · simp only [ReadSNSFFile.enter, enterDir]
      split_ifs <;> rfl
    · intro e he name msg
      simp only [List.mem_singleton] at he
      rw [he]
      exact fun hc => by cases hc
  · intro level filename st snsf resolve _ _ _ hres r hc
    refine EventsOK_pre st (ReadSNSFFile.enter fs filename st) _
      [ReadEvent.load (enterDir fs st.cwd filename) filename] ?_ ?_
      (ReadSNSFFile.container_events resolve hres _ _ _ _ _ _ _ hc)
    · simp only [ReadSNSFFile.enter, enterDir]
      split_ifs <;> rfl
    · intro e he name msg
      simp only [List.mem_singleton] at he
      rw [he]
      exact fun hc => by cases hc

/-! ### Base offset -/

theorem BaseRel_refl (st : ReadState) : BaseRel st st := ⟨fun _ => rfl, fun h => h⟩

theorem BaseInv_ne (st : ReadState) (h : BaseInv st) (hne : st.base_offset ≠ 0xffffffff) :
    st.base_offset ≤ 0xff00 := by
  rcases h with ⟨h1, _⟩ | ⟨h1, _⟩
  · exact absurd h1 hne
  · exact h1

theorem BaseRel_trans (a b c : ReadState) (h1 : BaseRel a b) (h2 : BaseRel b c) :
    BaseRel a c := by
  refine ⟨fun hne => ?_, fun hi => h2.2 (h1.2 hi)⟩
  have e1 := h1.1 hne
  rw [h2.1 (by rw [e1]; exact hne), e1]

theorem BaseRel_of_eq (a b b' : ReadState) (hb : b'.base_offset = b.base_offset)
    (hr : b'.resolved = b.resolved) (h : BaseRel a b) : BaseRel a b' := by
  refine ⟨fun hne => by rw [hb]; exact h.1 hne, fun hi => ?_⟩
  have := h.2 hi
  unfold BaseInv at this ⊢
  rw [hb, hr]
  exact this

theorem ReadSNSFFile.payload_base (filename savedcwd : String) (p : Pointers) (snsf : PSFFile)
    (st : ReadState) : BaseRel st (ReadSNSFFile.payload filename savedcwd p snsf st).2 := by
  unfold ReadSNSFFile.payload
  split
  · rename_i a sz _ _
    simp only []
    have hmask : a &&& 0x1FFFFFF ≤ 0x1FFFFFF := Nat.and_le_right
    by_cases hb : st.base_offset = 0xffffffff
    · -- first header
      by_cases ho : a &&& 0x1FFFFFF > 0xff00
      · rw [if_pos ⟨hb, ho⟩]
        exact BaseRel_refl st
      · rw [if_neg (fun h => ho h.2)]
        have key : BaseRel st
            { st with
              base_offset := a &&& 0x1FFFFFF
              resolved := st.resolved ++ [(a, a &&& 0x1FFFFFF, sz)] } := by
          refine ⟨fun hne => absurd hb hne, fun hi => ?_⟩
          rcases hi with ⟨_, h2⟩ | ⟨h1, _⟩
          · refine Or.inr ⟨by simp only []; omega, a, sz, [], ?_, rfl, fun e he => by simp at he⟩
            simp only [h2, List.nil_append]
          · rw [hb] at h1; omega
        simp only [hb, if_true]
        split_ifs <;> exact BaseRel_of_eq _ _ _ rfl rfl key
    · rw [if_neg (fun h => hb h.1)]
      have key : BaseRel st
          { st with
            resolved := st.resolved
              ++ [(a, ((a &&& 0x1FFFFFF) + st.base_offset) % 2 ^ 32, sz)] } := by
        refine ⟨fun _ => rfl, fun hi => ?_⟩
        have hle := BaseInv_ne st hi hb
        rcases hi with ⟨h1, _⟩ | ⟨h1, a0, sz0, rest, h2, h3, h4⟩
        · exact absurd h1 hb
        · refine Or.inr ⟨h1, a0, sz0, rest ++ [(a, ((a &&& 0x1FFFFFF) + st.base_offset) % 2 ^ 32, sz)],
            ?_, h3, fun e he => ?_⟩
          · simp only [h2, List.cons_append]
          · rcases List.mem_append.1 he with h | h
            · exact h4 e h
            · simp only [List.mem_singleton] at h
              rw [h]
              simp only []
              exact Nat.mod_eq_of_lt (by omega)
      simp only [hb, if_false]
      split_ifs <;> exact BaseRel_of_eq _ _ _ rfl rfl key
  · exact BaseRel_refl st

theorem ReadSNSFFile.reservedSection_base (filename savedcwd : String) (p : Pointers)
    (snsf : PSFFile) (st : ReadState) :
    BaseRel st (ReadSNSFFile.reservedSection filename savedcwd p snsf st).2 := by
  unfold ReadSNSFFile.reservedSection
  simp only []
  split_ifs <;> exact BaseRel_of_eq _ _ _ rfl rfl (BaseRel_refl st)

theorem ReadSNSFFile.libs_base (resolve : String → ReadState → Option (Bool × ReadState))
    (hres : ∀ name s r, resolve name s = some r → BaseRel s r.2)
    (tags : List (TagKey × String)) (fuel n : Nat) (st : ReadState) (r : Bool × ReadState)
    (h : ReadSNSFFile.libs resolve tags fuel n st = some r) : BaseRel st r.2 :=
  ReadSNSFFile.libs_induct resolve tags (fun _ s r => BaseRel s r.2)
    (fun _ s _ => BaseRel_refl s)
    (fun _ name s _ _ hr => hres name s _ hr)
    (fun _ name s s1 r _ hr ih => BaseRel_trans s s1 r.2 (hres name s _ hr) ih)
    fuel n st r h

theorem ReadSNSFFile.ownAndLibs_base (resolve : String → ReadState → Option (Bool × ReadState))
    (hres : ∀ name s r, resolve name s = some r → BaseRel s r.2)
    (filename savedcwd : String) (p : Pointers) (snsf : PSFFile) (st3 : ReadState)
    (r : Bool × ReadState)
    (h : ReadSNSFFile.ownAndLibs resolve filename savedcwd p snsf st3 = some r) :
    BaseRel st3 r.2 := by
  have hp := ReadSNSFFile.payload_base filename savedcwd p snsf st3
  rcases ReadSNSFFile.ownAndLibs_cases resolve filename savedcwd p snsf st3 r h with
    ⟨st4, h4, rfl⟩ | ⟨st4, st5, h4, h5, rfl⟩ | ⟨st4, st5, st6, h4, h5, h6, rfl⟩ |
    ⟨st4, st5, st6, h4, h5, h6, rfl⟩
  · rw [h4] at hp; exact hp
  · rw [h4] at hp
    have hr := ReadSNSFFile.reservedSection_base filename savedcwd p snsf st4
    rw [h5] at hr
    exact BaseRel_trans _ _ _ hp hr
  · rw [h4] at hp
    have hr := ReadSNSFFile.reservedSection_base filename savedcwd p snsf st4
    rw [h5] at hr
    have hl := ReadSNSFFile.libs_base resolve hres _ _ _ _ _ h6
    exact BaseRel_of_eq _ st6 _ rfl rfl (BaseRel_trans _ _ _ hp (BaseRel_trans _ _ _ hr hl))
  · rw [h4] at hp
    have hr := ReadSNSFFile.reservedSection_base filename savedcwd p snsf st4
    rw [h5] at hr
    have hl := ReadSNSFFile.libs_base resolve hres _ _ _ _ _ h6
    exact BaseRel_of_eq _ st6 _ rfl rfl (BaseRel_trans _ _ _ hp (BaseRel_trans _ _ _ hr hl))

theorem BaseRel_left (a a' b : ReadState) (hb : a'.base_offset = a.base_offset)
    (hr : a'.resolved = a.resolved) (h : BaseRel a b) : BaseRel a' b := by
  refine ⟨fun hne => ?_, fun hi => h.2 ?_⟩
  · rw [hb]; exact h.1 (by rw [← hb]; exact hne)
  · unfold BaseInv at hi ⊢
    rw [← hb, ← hr]
    exact hi

theorem BaseFinal_of_inv (st : ReadState) (h : BaseInv st) : BaseFinal st := by
  intro a off sz rest hres
  rcases h with ⟨_, h2⟩ | ⟨h1, a0, sz0, rest0, h2, h3, h4⟩
  · rw [h2] at hres; exact absurd hres (by simp)
  · rw [h2] at hres
    simp only [List.cons.injEq, Prod.mk.injEq] at hres
    obtain ⟨⟨e1, e2, _⟩, e4⟩ := hres
    subst e1 e4
    refine ⟨e2.symm, ?_, ?_, h4⟩
    · rw [← e2, h3]; exact h1
    · rw [← e2, h3]

theorem BaseFinal_of_nil (st : ReadState) (h : st.resolved = []) : BaseFinal st := by
  intro a off sz rest hres
  rw [h] at hres
  exact absurd hres (by simp)

theorem ReadSNSFFile.enter_base (fs : FileSystem) (filename : String) (st : ReadState) :
    (ReadSNSFFile.enter fs filename st).base_offset = st.base_offset ∧
    (ReadSNSFFile.enter fs filename st).resolved = st.resolved := by
  simp only [ReadSNSFFile.enter]
  split_ifs <;> exact ⟨rfl, rfl⟩

theorem ReadSNSFFile.container_base (resolve : String → ReadState → Option (Bool × ReadState))
    (hres : ∀ name s r, resolve name s = some r → BaseRel s r.2)
    (filename savedcwd : String) (level : Nat) (p : Pointers) (snsf : PSFFile) (st1 : ReadState)
    (r : Bool × ReadState)
    (h : ReadSNSFFile.container resolve filename savedcwd level p snsf st1 = some r) :
    (r.2.base_offset = st1.base_offset ∧ r.2.resolved = st1.resolved) ∨
    BaseRel (ReadSNSFFile.topInit level p st1) r.2 := by
  rcases ReadSNSFFile.container_cases resolve filename savedcwd level p snsf st1 r h with
    ⟨_, rfl⟩ | ⟨_, name, st3, _, h3, rfl⟩ | ⟨_, name, st3, _, h3, h4⟩ | ⟨_, _, h4⟩
  · exact Or.inl ⟨rfl, rfl⟩
  · exact Or.inr (BaseRel_of_eq _ st3 _ rfl rfl (hres name _ _ h3))
  · exact Or.inr (BaseRel_trans _ _ _ (hres name _ _ h3)
      (ReadSNSFFile.ownAndLibs_base resolve hres _ _ _ _ _ _ h4))
  · exact Or.inr (ReadSNSFFile.ownAndLibs_base resolve hres _ _ _ _ _ _ h4)

/-- The base offset over a whole call: a nested call keeps a base offset that
is set and keeps `BaseInv`; a top-level call started with no header resolved
ends in a state that satisfies `BaseFinal`. -/
theorem ReadSNSFFile_base (fs : FileSystem) (filename : String) (level : Nat) (p : Pointers)
    (st : ReadState) (r : Bool × ReadState)
    (h : ReadSNSFFile fs filename level p st = some r) :
    (1 ≤ level → BaseRel st r.2) ∧ (level = 0 → st.resolved = [] → BaseFinal r.2) := by
  refine ReadSNSFFile_induct fs p
    (fun level _ s r => (1 ≤ level → BaseRel s r.2) ∧
      (level = 0 → s.resolved = [] → BaseFinal r.2)) ?_ ?_ ?_ level filename st r h
  · intro level filename st r hr
    unfold ReadSNSFFile.refused at hr
    split_ifs at hr <;>
    · simp only [Option.some.injEq] at hr
      subst hr
      exact ⟨fun _ => BaseRel_of_eq _ st _ rfl rfl (BaseRel_refl st),
        fun _ h0 => BaseFinal_of_nil _ h0⟩
  · intro level filename st _ _ _
    have he := ReadSNSFFile.enter_base fs filename st
    exact ⟨fun _ => BaseRel_of_eq _ st _ he.1 he.2 (BaseRel_refl st),
      fun _ h0 => BaseFinal_of_nil _ (by
        show (ReadSNSFFile.enter fs filename st).resolved = []
        rw [he.2]; exact h0)⟩
  · intro level filename st snsf resolve _ _ _ hres r hc
    have he := ReadSNSFFile.enter_base fs filename st
    have hres' : ∀ name s r, resolve name s = some r → BaseRel s r.2 :=
      fun name s r hr => (hres name s r hr).1 (by omega)
    rcases ReadSNSFFile.container_base resolve hres' _ _ _ _ _ _ _ hc with ⟨e1, e2⟩ | hrel
    · exact ⟨fun _ => BaseRel_of_eq _ st _ (by rw [e1, he.1]) (by rw [e2, he.2]) (BaseRel_refl st),
        fun _ h0 => BaseFinal_of_nil _ (by rw [e2, he.2]; exact h0)⟩
    · refine ⟨fun hl => ?_, fun hl h0 => ?_⟩
      · have ht : ReadSNSFFile.topInit level p (ReadSNSFFile.enter fs filename st)
            = ReadSNSFFile.enter fs filename st := by
          unfold ReadSNSFFile.topInit
          rw [if_neg (by omega)]
        rw [ht] at hrel
        exact BaseRel_left _ st _ he.1.symm he.2.symm hrel
      · apply BaseFinal_of_inv
        apply hrel.2
        left
        subst hl
        simp only [ReadSNSFFile.topInit, if_true]
        exact ⟨trivial, by rw [he.2]; exact h0⟩

/-! ### Order of the payloads -/

theorem Applied_refl (p : Pointers) (st : ReadState) : Applied p [] st st :=
  ⟨[], ⟨by simp, by simp⟩, rfl, rfl, fun _ => rfl, rfl⟩

theorem Applied_trans (p : Pointers) (k1 k2 : List (String × String)) (a b c : ReadState)
    (h1 : Applied p k1 a b) (h2 : Applied p k2 b c) : Applied p (k1 ++ k2) a c := by
  obtain ⟨w1, a1, a2, a3, a4, a5⟩ := h1
  obtain ⟨w2, b1, b2, b3, b4, b5⟩ := h2
  refine ⟨w1 ++ w2, ?_, ?_, ?_, fun hp => ?_, by rw [b5, a5]⟩
  · exact ⟨by rw [b1.1, a1.1, List.append_assoc],
      by rw [b1.2, a1.2, List.map_append, List.append_assoc]⟩
  · rw [List.map_append, a2, b2]
  · rw [b3, a3]; simp [applyWrites, List.foldl_append]
  · rw [b4 hp, a4 hp]; simp [maxEnd, List.foldl_append]

theorem Applied_change (p : Pointers) (k : List (String × String)) (a b a' b' : ReadState)
    (h : Applied p k a b)
    (ha : (a'.written = a.written ∧ a'.resolved = a.resolved) ∧
      a'.rom_buf = a.rom_buf ∧ a'.rom_size = a.rom_size)
    (hb : (b'.written = b.written ∧ b'.resolved = b.resolved) ∧
      b'.rom_buf = b.rom_buf ∧ b'.rom_size = b.rom_size)
    (hc : b'.cwd = a'.cwd) : Applied p k a' b' := by
  obtain ⟨w, a1, a2, a3, a4, _⟩ := h
  exact ⟨w, ⟨by rw [hb.1.1, ha.1.1, a1.1], by rw [hb.1.2, ha.1.2, a1.2]⟩, a2,
    by rw [hb.2.1, ha.2.1, a3],
    fun hp => by rw [hb.2.2, ha.2.2, a4 hp], hc⟩

/-- The buffer offset that `ReadSNSFFile` gives a payload with load address
`a` when the base offset is `base`. -/
theorem ReadSNSFFile.payload_success (filename savedcwd : String) (p : Pointers) (snsf : PSFFile)
    (st st' : ReadState) (h : ReadSNSFFile.payload filename savedcwd p snsf st = (true, st')) :
    ∃ a sz off, snsf.compressed_exe.readInt 0 = some a ∧
      snsf.compressed_exe.readInt 4 = some sz ∧
      off = (if st.base_offset = 0xffffffff then a &&& 0x1FFFFFF
             else ((a &&& 0x1FFFFFF) + st.base_offset) % 2 ^ 32) ∧
      ¬ (st.base_offset = 0xffffffff ∧ a &&& 0x1FFFFFF > 0xff00) ∧
      (off + sz) % 2 ^ 32 ≤ SNES_HEADER_SIZE + MAX_SNES_ROM_SIZE ∧
      min sz (snsf.compressed_exe.size - 8) = sz ∧
      st' = { st with
        base_offset := if st.base_offset = 0xffffffff then a &&& 0x1FFFFFF else st.base_offset
        resolved := st.resolved ++ [(a, off, sz)]
        rom_size := if p.rom_size = true ∧ st.rom_size < (off + sz) % 2 ^ 32
                    then (off + sz) % 2 ^ 32 else st.rom_size
        rom_buf := (snsf.compressed_exe.read 8 sz st.rom_buf off).1
        written := st.written ++
          [{ cwd := st.cwd, filename := filename, address := a, offset := off,
             count := min sz (snsf.compressed_exe.size - 8),
             data := fun i => snsf.compressed_exe.data (8 + i) }] } := by
  unfold ReadSNSFFile.payload at h
  split at h
  · rename_i a sz h0 h4
    refine ⟨a, sz, _, h0, h4, rfl, ?_⟩
    simp only [] at h
    by_cases h1 : st.base_offset = 0xffffffff ∧ a &&& 0x1FFFFFF > 0xff00
    · rw [if_pos h1] at h
      exact absurd (congrArg Prod.fst h) (by simp [ReadSNSFFile.fail])
    · rw [if_neg h1] at h
      refine ⟨h1, ?_⟩
      generalize hoff : (if st.base_offset = 0xffffffff then a &&& 0x1FFFFFF
             else ((a &&& 0x1FFFFFF) + st.base_offset) % 2 ^ 32) = off at h ⊢
      by_cases h2 : (off + sz) % 2 ^ 32 > SNES_HEADER_SIZE + MAX_SNES_ROM_SIZE
      · rw [if_pos h2] at h
        exact absurd (congrArg Prod.fst h) (by simp [ReadSNSFFile.fail])
      · rw [if_neg h2] at h
        refine ⟨by omega, ?_⟩
        by_cases h3 : p.rom_size = true ∧ st.rom_size < (off + sz) % 2 ^ 32
        · simp only [h3, and_self, if_true] at h
          by_cases h5 : (snsf.compressed_exe.read 8 sz st.rom_buf off).2 ≠ sz
          · rw [if_pos h5] at h
            exact absurd (congrArg Prod.fst h) (by simp [ReadSNSFFile.fail])
          · rw [if_neg h5] at h
            simp only [Prod.mk.injEq, true_and] at h
            refine ⟨by simpa [ExeStream.read] using h5, ?_⟩
            rw [← h]
            simp only [h3, and_self, if_true]
            rfl
        · simp only [h3, if_false] at h
          by_cases h5 : (snsf.compressed_exe.read 8 sz st.rom_buf off).2 ≠ sz
          · rw [if_pos h5] at h
            exact absurd (congrArg Prod.fst h) (by simp [ReadSNSFFile.fail])
          · rw [if_neg h5] at h
            simp only [Prod.mk.injEq, true_and] at h
            refine ⟨by simpa [ExeStream.read] using h5, ?_⟩
            rw [← h]
            simp only [h3, if_false]
            rfl
  · exact absurd (congrArg Prod.fst h) (by simp [ReadSNSFFile.fail])

theorem ReadSNSFFile.payload_applied (filename savedcwd : String) (p : Pointers) (snsf : PSFFile)
    (st st' : ReadState) (h : ReadSNSFFile.payload filename savedcwd p snsf st = (true, st')) :
    Applied p [(st.cwd, filename)] st st' := by
  obtain ⟨a, sz, off, _, _, _, _, _, hmin, hst⟩ :=
    ReadSNSFFile.payload_success filename savedcwd p snsf st st' h
  subst hst
  refine ⟨[_], ⟨rfl, ?_⟩, rfl, ?_, fun hp => ?_, rfl⟩
  · simp only [List.map_cons, List.map_nil, Written.header, hmin]
  · rfl
  · simp only [maxEnd, List.foldl_cons, List.foldl_nil, Written.end32, hmin, hp, true_and]

theorem ReadSNSFFile.reservedSection_applied (filename savedcwd : String) (p : Pointers)
    (snsf : PSFFile) (st st' : ReadState)
    (h : ReadSNSFFile.reservedSection filename savedcwd p snsf st = (true, st')) :
    Applied p [] st st' := by
  unfold ReadSNSFFile.reservedSection at h
  simp only [ReadSNSFFile.fail] at h
  split_ifs at h <;> cases h <;>
    exact Applied_change p [] st st _ _ (Applied_refl p st) ⟨⟨rfl, rfl⟩, rfl, rfl⟩
      ⟨⟨rfl, rfl⟩, rfl, rfl⟩ rfl

theorem ReadSNSFFile.libs_applied (p : Pointers)
    (resolve : String → ReadState → Option (Bool × ReadState))
    (order : String → String → List (String × String))
    (hres : ∀ name s s', resolve name s = some (true, s') → Applied p (order s.cwd name) s s')
    (tags : List (TagKey × String)) (fuel : Nat) :
    ∀ n st st', ReadSNSFFile.libs resolve tags fuel n st = some (true, st') →
      Applied p (((libNames tags fuel n).map (order st.cwd)).flatten) st st' := by
  induction fuel with
  | zero =>
    intro n st st' h
    unfold ReadSNSFFile.libs at h
    exact absurd h (by simp)
  | succ f ih =>
    intro n st st' h
    unfold ReadSNSFFile.libs at h
    unfold libNames
    cases hl : tags.lookup (TagKey.libN n) with
    | none =>
      rw [hl] at h
      simp only [Option.some.injEq, Prod.mk.injEq, true_and] at h
      subst h
      exact Applied_refl p st
    | some name =>
      rw [hl] at h
      simp only [] at h
      cases hr : resolve name st with
      | none => rw [hr] at h; exact absurd h (by simp)
      | some r1 =>
        obtain ⟨b, st1⟩ := r1
        rw [hr] at h
        cases b with
        | false =>
          simp only [Option.some.injEq, Prod.mk.injEq] at h
          exact absurd h.1 (by simp)
        | true =>
          simp only [] at h
          have h1 := hres name st st1 hr
          have h2 := ih (n + 1) st1 st' h
          have hc : st1.cwd = st.cwd := by
            obtain ⟨_, _, _, _, _, c⟩ := h1; exact c
          rw [hc] at h2
          simp only [List.map_cons, List.flatten_cons]
          exact Applied_trans p _ _ _ _ _ h1 h2

theorem ReadSNSFFile.ownAndLibs_applied (p : Pointers)
    (resolve : String → ReadState → Option (Bool × ReadState))
    (order : String → String → List (String × String))
    (hres : ∀ name s s', resolve name s = some (true, s') → Applied p (order s.cwd name) s s')
    (filename savedcwd : String) (snsf : PSFFile) (st3 st' : ReadState)
    (h : ReadSNSFFile.ownAndLibs resolve filename savedcwd p snsf st3 = some (true, st')) :
    ∃ st6, Applied p ([(st3.cwd, filename)]
        ++ ((libNames snsf.tags (snsf.tags.length + 1) 2).map (order st3.cwd)).flatten) st3 st6 ∧
      (st'.written = st6.written ∧ st'.resolved = st6.resolved) ∧
      st'.rom_buf = st6.rom_buf ∧ st'.rom_size = st6.rom_size ∧
      st'.cwd = savedcwd := by
  rcases ReadSNSFFile.ownAndLibs_cases resolve filename savedcwd p snsf st3 _ h with
    ⟨st4, _, hr⟩ | ⟨st4, st5, _, _, hr⟩ | ⟨st4, st5, st6, _, _, _, hr⟩ |
    ⟨st4, st5, st6, h4, h5, h6, hr⟩
  · exact absurd (congrArg Prod.fst hr) (by simp)
  · exact absurd (congrArg Prod.fst hr) (by simp)
  · exact absurd (congrArg Prod.fst hr) (by simp)
  · simp only [Prod.mk.injEq, true_and] at hr
    subst hr
    have a4 := ReadSNSFFile.payload_applied filename savedcwd p snsf st3 st4 h4
    have a5 := ReadSNSFFile.reservedSection_applied filename savedcwd p snsf st4 st5 h5
    have a6 := ReadSNSFFile.libs_applied p resolve order hres snsf.tags _ 2 st5 st6 h6
    have c4 : st4.cwd = st3.cwd := by obtain ⟨_, _, _, _, _, c⟩ := a4; exact c
    have c5 : st5.cwd = st4.cwd := by obtain ⟨_, _, _, _, _, c⟩ := a5; exact c
    rw [c5, c4] at a6
    have a45 := Applied_trans p _ _ _ _ _ a4 a5
    rw [List.append_nil] at a45
    exact ⟨st6, Applied_trans p _ _ _ _ _ a45 a6, ⟨rfl, rfl⟩, rfl, rfl, rfl⟩

theorem ReadSNSFFile.container_applied (p : Pointers)
    (resolve : String → ReadState → Option (Bool × ReadState))
    (order : String → String → List (String × String))
    (hres : ∀ name s s', resolve name s = some (true, s') → Applied p (order s.cwd name) s s')
    (filename savedcwd : String) (level : Nat) (snsf : PSFFile) (st1 st' : ReadState)
    (h : ReadSNSFFile.container resolve filename savedcwd level p snsf st1 = some (true, st')) :
    ∃ st6, Applied p
        ((match snsf.tags.lookup TagKey.lib with
          | some name => order st1.cwd name
          | none => [])
          ++ [(st1.cwd, filename)]
          ++ ((libNames snsf.tags (snsf.tags.length + 1) 2).map (order st1.cwd)).flatten)
        (ReadSNSFFile.topInit level p st1) st6 ∧
      (st'.written = st6.written ∧ st'.resolved = st6.resolved) ∧
      st'.rom_buf = st6.rom_buf ∧ st'.rom_size = st6.rom_size ∧
      st'.cwd = savedcwd := by
  have hc1 := ReadSNSFFile.topInit_cwd level p st1
  rcases ReadSNSFFile.container_cases resolve filename savedcwd level p snsf st1 _ h with
    ⟨_, hr⟩ | ⟨_, name, st3, _, _, hr⟩ | ⟨_, name, st3, hl, h3, h4⟩ | ⟨_, hl, h4⟩
  · exact absurd (congrArg Prod.fst hr) (by simp [ReadSNSFFile.fail])
  · exact absurd (congrArg Prod.fst hr) (by simp)
  · have a3 := hres name _ st3 h3
    rw [hc1] at a3
    have c3 : st3.cwd = st1.cwd := by
      obtain ⟨_, _, _, _, _, c⟩ := a3; rw [c, hc1]
    obtain ⟨st6, a6, e1, e2, e3, e4⟩ :=
      ReadSNSFFile.ownAndLibs_applied p resolve order hres filename savedcwd snsf st3 st' h4
    rw [c3] at a6
    refine ⟨st6, ?_, e1, e2, e3, e4⟩
    rw [hl]
    simp only [List.append_assoc]
    exact Applied_trans p _ _ _ _ _ a3 a6
  · obtain ⟨st6, a6, e1, e2, e3, e4⟩ :=
      ReadSNSFFile.ownAndLibs_applied p resolve order hres filename savedcwd snsf _ st' h4
    rw [hc1] at a6
    refine ⟨st6, ?_, e1, e2, e3, e4⟩
    rw [hl]
    simpa using a6

theorem ReadSNSFFile.topInit_enter (fs : FileSystem) (filename : String) (level : Nat)
    (p : Pointers) (st : ReadState) :
    ((ReadSNSFFile.topInit level p st).written
        = (ReadSNSFFile.topInit level p (ReadSNSFFile.enter fs filename st)).written ∧
     (ReadSNSFFile.topInit level p st).resolved
        = (ReadSNSFFile.topInit level p (ReadSNSFFile.enter fs filename st)).resolved) ∧
    (ReadSNSFFile.topInit level p st).rom_buf
        = (ReadSNSFFile.topInit level p (ReadSNSFFile.enter fs filename st)).rom_buf ∧
    (ReadSNSFFile.topInit level p st).rom_size
        = (ReadSNSFFile.topInit level p (ReadSNSFFile.enter fs filename st)).rom_size := by
  simp only [ReadSNSFFile.topInit, ReadSNSFFile.enter]
  split_ifs <;> exact ⟨⟨rfl, rfl⟩, rfl, rfl⟩

/-- A successful call copies the payloads in the order of `payloadOrder`; the
ROM buffer, `*ptr_rom_size` and the working directory are as `Applied` says,
counted from the state after the top-level initialisation. -/
theorem ReadSNSFFile_applied (fs : FileSystem) (filename : String) (level : Nat) (p : Pointers)
    (st : ReadState) (r : Bool × ReadState)
    (h : ReadSNSFFile fs filename level p st = some r) :
    r.1 = true →
      Applied p (payloadOrder fs (11 - level) st.cwd filename)
        (ReadSNSFFile.topInit level p st) r.2 := by
  refine ReadSNSFFile_induct fs p
    (fun level filename s r => r.1 = true →
      Applied p (payloadOrder fs (11 - level) s.cwd filename)
        (ReadSNSFFile.topInit level p s) r.2) ?_ ?_ ?_ level filename st r h
  · intro level filename st r hr hb
    unfold ReadSNSFFile.refused at hr
    split_ifs at hr <;>
    · simp only [Option.some.injEq] at hr
      subst hr
      exact absurd hb (by simp)
  · intro level filename st _ _ _ hb
    exact absurd hb (by simp [ReadSNSFFile.fail])
  · intro level filename st snsf resolve _ hl hload hres r hc hb
    obtain ⟨b, st'⟩ := r
    simp only at hb
    subst hb
    have hres' : ∀ name s s', resolve name s = some (true, s') →
        Applied p (payloadOrder fs (10 - level) s.cwd name) s s' := by
      intro name s s' hr
      have := hres name s (true, s') hr rfl
      have e : 11 - (level + 1) = 10 - level := by omega
      have ht : ReadSNSFFile.topInit (level + 1) p s = s := by
        unfold ReadSNSFFile.topInit
        rw [if_neg (by omega)]
      rw [e, ht] at this
      exact this
    obtain ⟨st6, a6, e1, e2, e3, e4⟩ := ReadSNSFFile.container_applied p resolve
      (fun cwd name => payloadOrder fs (10 - level) cwd name) hres' filename st.cwd level snsf
      (ReadSNSFFile.enter fs filename st) st' hc
    have ek : payloadOrder fs (11 - level) st.cwd filename =
        (match snsf.tags.lookup TagKey.lib with
          | some name => payloadOrder fs (10 - level) (enterDir fs st.cwd filename) name
          | none => [])
          ++ [(enterDir fs st.cwd filename, filename)]
          ++ ((libNames snsf.tags (snsf.tags.length + 1) 2).map
                (payloadOrder fs (10 - level) (enterDir fs st.cwd filename))).flatten := by
      have e : 11 - level = (10 - level) + 1 := by omega
      rw [e]
      simp only [payloadOrder, hload]
    rw [ek]
    rw [ReadSNSFFile.enter_cwd] at a6
    have hte := ReadSNSFFile.topInit_enter fs filename level p st
    exact Applied_change p _ _ st6 _ st' a6 hte ⟨e1, e2, e3⟩
      (by rw [e4, ReadSNSFFile.topInit_cwd])

/-! ### Working directory -/

theorem ReadSNSFFile.payload_fail_cwd (filename savedcwd : String) (p : Pointers)
    (snsf : PSFFile) (st st' : ReadState)
    (h : ReadSNSFFile.payload filename savedcwd p snsf st = (false, st')) :
    st'.cwd = savedcwd := by
  unfold ReadSNSFFile.payload at h
  simp only [ReadSNSFFile.fail] at h
  split at h
  · split_ifs at h <;> cases h <;> rfl
  · cases h; rfl

theorem ReadSNSFFile.reservedSection_fail_cwd (filename savedcwd : String) (p : Pointers)
    (snsf : PSFFile) (st st' : ReadState)
    (h : ReadSNSFFile.reservedSection filename savedcwd p snsf st = (false, st')) :
    st'.cwd = savedcwd := by
  unfold ReadSNSFFile.reservedSection at h
  simp only [ReadSNSFFile.fail] at h
  split_ifs at h <;> cases h <;> rfl

theorem ReadSNSFFile.ownAndLibs_cwd (resolve : String → ReadState → Option (Bool × ReadState))
    (filename savedcwd : String) (p : Pointers) (snsf : PSFFile) (st3 : ReadState)
    (r : Bool × ReadState)
    (h : ReadSNSFFile.ownAndLibs resolve filename savedcwd p snsf st3 = some r) :
    r.2.cwd = savedcwd := by
  rcases ReadSNSFFile.ownAndLibs_cases resolve filename savedcwd p snsf st3 r h with
    ⟨st4, h4, rfl⟩ | ⟨st4, st5, h4, h5, rfl⟩ | ⟨st4, st5, st6, h4, h5, h6, rfl⟩ |
    ⟨st4, st5, st6, h4, h5, h6, rfl⟩
  · exact ReadSNSFFile.payload_fail_cwd _ _ _ _ _ _ h4
  · exact ReadSNSFFile.reservedSection_fail_cwd _ _ _ _ _ _ h5
  · rfl
  · rfl

/-- Every call of `ReadSNSFFile` that returns leaves the working directory as
it found it. -/
theorem ReadSNSFFile_cwd (fs : FileSystem) (filename : String) (level : Nat) (p : Pointers)
    (st : ReadState) (r : Bool × ReadState)
    (h : ReadSNSFFile fs filename level p st = some r) : r.2.cwd = st.cwd := by
  refine ReadSNSFFile_induct fs p (fun _ _ s r => r.2.cwd = s.cwd) ?_ ?_ ?_ level filename st r h
  · intro level filename st r hr
    unfold ReadSNSFFile.refused at hr
    split_ifs at hr <;> cases hr <;> rfl
  · intro level filename st _ _ _
    rfl
  · intro level filename st snsf resolve _ _ _ _ r hc
    rcases ReadSNSFFile.container_cases resolve filename st.cwd level p snsf _ r hc with
      ⟨_, rfl⟩ | ⟨_, name, st3, _, h3, rfl⟩ | ⟨_, name, st3, _, h3, h4⟩ | ⟨_, _, h4⟩
    · rfl
    · rfl
    · exact ReadSNSFFile.ownAndLibs_cwd _ _ _ _ _ _ _ h4
    · exact ReadSNSFFile.ownAndLibs_cwd _ _ _ _ _ _ _ h4

/-! ### The copied payloads are those of the store -/

theorem NewWrites_refl (fs : FileSystem) (st : ReadState) : NewWrites fs st st :=
  ⟨[], by simp, fun _ hw => absurd hw (by simp)⟩

theorem NewWrites_trans (fs : FileSystem) (a b c : ReadState) (h1 : NewWrites fs a b)
    (h2 : NewWrites fs b c) : NewWrites fs a c := by
  obtain ⟨w1, e1, f1⟩ := h1
  obtain ⟨w2, e2, f2⟩ := h2
  refine ⟨w1 ++ w2, by rw [e2, e1, List.append_assoc], fun w hw => ?_⟩
  rcases List.mem_append.1 hw with h | h
  · exact f1 w h
  · exact f2 w h

theorem NewWrites_of_eq (fs : FileSystem) (a b b1 : ReadState) (h : b1.written = b.written)
    (h1 : NewWrites fs a b) : NewWrites fs a b1 := by
  obtain ⟨w1, e1, f1⟩ := h1
  exact ⟨w1, by rw [h, e1], f1⟩

theorem NewWrites_left (fs : FileSystem) (a a1 b : ReadState) (h : a1.written = a.written)
    (h1 : NewWrites fs a b) : NewWrites fs a1 b := by
  obtain ⟨w1, e1, f1⟩ := h1
  exact ⟨w1, by rw [h, e1], f1⟩

theorem ReadSNSFFile.payload_new (fs : FileSystem) (filename savedcwd : String) (p : Pointers)
    (snsf : PSFFile) (st : ReadState) (hload : fs.load st.cwd filename = some snsf) :
    NewWrites fs st (ReadSNSFFile.payload filename savedcwd p snsf st).2 := by
  unfold ReadSNSFFile.payload
  split
  · rename_i a sz h0 h4
    have key : ∀ w : Written, w.cwd = st.cwd → w.filename = filename → w.address = a →
        w.count = min sz (snsf.compressed_exe.size - 8) →
        (w.data = fun i => snsf.compressed_exe.data (8 + i)) →
        ∀ v ∈ [w], FromStore fs v := by
      intro w e1 e2 e3 e4 e5 v hv
      simp only [List.mem_singleton] at hv
      subst hv
      exact ⟨snsf, sz, by rw [e1, e2]; exact hload, by rw [e3]; exact h0, h4, e4, e5⟩
    simp only [ReadSNSFFile.fail, ExeStream.read]
    split_ifs <;> first
      | exact NewWrites_refl fs st
      | exact NewWrites_of_eq fs st st _ rfl (NewWrites_refl fs st)
      | exact ⟨[_], rfl, key _ rfl rfl rfl rfl rfl⟩
  · exact NewWrites_refl fs st

theorem ReadSNSFFile.reservedSection_written (filename savedcwd : String) (p : Pointers)
    (snsf : PSFFile) (st : ReadState) :
    (ReadSNSFFile.reservedSection filename savedcwd p snsf st).2.written = st.written := by
  unfold ReadSNSFFile.reservedSection
  simp only [ReadSNSFFile.fail]
  split_ifs <;> rfl

theorem ReadSNSFFile.libs_new (fs : FileSystem)
    (resolve : String → ReadState → Option (Bool × ReadState))
    (hres : ∀ name s r, resolve name s = some r → NewWrites fs s r.2)
    (tags : List (TagKey × String)) (fuel n : Nat) (st : ReadState) (r : Bool × ReadState)
    (h : ReadSNSFFile.libs resolve tags fuel n st = some r) : NewWrites fs st r.2 :=
  ReadSNSFFile.libs_induct resolve tags (fun _ s r => NewWrites fs s r.2)
    (fun _ s _ => NewWrites_refl fs s)
    (fun _ name s _ _ hr => hres name s _ hr)
    (fun _ name s s1 r _ hr ih => NewWrites_trans fs s s1 r.2 (hres name s _ hr) ih)
    fuel n st r h

theorem ReadSNSFFile.ownAndLibs_new (fs : FileSystem)
    (resolve : String → ReadState → Option (Bool × ReadState))
    (hres : ∀ name s r, resolve name s = some r → NewWrites fs s r.2)
    (filename savedcwd : String) (p : Pointers) (snsf : PSFFile) (st3 : ReadState)
    (hload : fs.load st3.cwd filename = some snsf) (r : Bool × ReadState)
    (h : ReadSNSFFile.ownAndLibs resolve filename savedcwd p snsf st3 = some r) :
    NewWrites fs st3 r.2 := by
  have hp := ReadSNSFFile.payload_new fs filename savedcwd p snsf st3 hload
  rcases ReadSNSFFile.ownAndLibs_cases resolve filename savedcwd p snsf st3 r h with
    ⟨st4, h4, rfl⟩ | ⟨st4, st5, h4, h5, rfl⟩ | ⟨st4, st5, st6, h4, h5, h6, rfl⟩ |
    ⟨st4, st5, st6, h4, h5, h6, rfl⟩
  · rw [h4] at hp; exact hp
  · rw [h4] at hp
    have hr := ReadSNSFFile.reservedSection_written filename savedcwd p snsf st4
    rw [h5] at hr
    exact NewWrites_of_eq fs _ st4 _ hr hp
  · rw [h4] at hp
    have hr := ReadSNSFFile.reservedSection_written filename savedcwd p snsf st4
    rw [h5] at hr
    have hl := ReadSNSFFile.libs_new fs resolve hres _ _ _ _ _ h6
    exact NewWrites_of_eq fs _ st6 _ rfl
      (NewWrites_trans fs _ _ _ (NewWrites_of_eq fs _ st4 _ hr hp) hl)
  · rw [h4] at hp
    have hr := ReadSNSFFile.reservedSection_written filename savedcwd p snsf st4
    rw [h5] at hr
    have hl := ReadSNSFFile.libs_new fs resolve hres _ _ _ _ _ h6
    exact NewWrites_of_eq fs _ st6 _ rfl
      (NewWrites_trans fs _ _ _ (NewWrites_of_eq fs _ st4 _ hr hp) hl)

/-- Every payload a call of `ReadSNSFFile` copies is one of the store. -/
theorem ReadSNSFFile_new (fs : FileSystem) (filename : String) (level : Nat) (p : Pointers)
    (st : ReadState) (r : Bool × ReadState)
    (h : ReadSNSFFile fs filename level p st = some r) :
    r.2.cwd = st.cwd ∧ NewWrites fs st r.2 := by
  refine ReadSNSFFile_induct fs p (fun _ _ s r => r.2.cwd = s.cwd ∧ NewWrites fs s r.2)
    ?_ ?_ ?_ level filename st r h
  · intro level filename st r hr
    unfold ReadSNSFFile.refused at hr
    split_ifs at hr <;> cases hr <;> exact ⟨rfl, NewWrites_refl fs st⟩
  · intro level filename st _ _ _
    refine ⟨rfl, NewWrites_of_eq fs st st _ ?_ (NewWrites_refl fs st)⟩
    simp only [ReadSNSFFile.fail, ReadSNSFFile.enter]
    split_ifs <;> rfl
  · intro level filename st snsf resolve _ _ hload hres r hc
    have hw1 : (ReadSNSFFile.topInit level p (ReadSNSFFile.enter fs filename st)).written
        = st.written := by
      simp only [ReadSNSFFile.topInit, ReadSNSFFile.enter]
      split_ifs <;> rfl
    have hc1 : (ReadSNSFFile.topInit level p (ReadSNSFFile.enter fs filename st)).cwd
        = enterDir fs st.cwd filename := by
      rw [ReadSNSFFile.topInit_cwd, ReadSNSFFile.enter_cwd]
    have hres1 : ∀ name s r, resolve name s = some r → NewWrites fs s r.2 :=
      fun name s r hr => (hres name s r hr).2
    rcases ReadSNSFFile.container_cases resolve filename st.cwd level p snsf _ r hc with
      ⟨_, rfl⟩ | ⟨_, name, st3, _, h3, rfl⟩ | ⟨_, name, st3, _, h3, h4⟩ | ⟨_, _, h4⟩
    · refine ⟨rfl, NewWrites_of_eq fs st st _ ?_ (NewWrites_refl fs st)⟩
      simp only [ReadSNSFFile.fail, ReadSNSFFile.enter]
      split_ifs <;> rfl
    · exact ⟨rfl, NewWrites_of_eq fs _ st3 _ rfl (NewWrites_left fs _ _ _ hw1.symm (hres1 _ _ _ h3))⟩
    · have h5 := hres name _ _ h3
      have hl3 : fs.load st3.cwd filename = some snsf := by
        rw [h5.1, hc1]; exact hload
      exact ⟨ReadSNSFFile.ownAndLibs_cwd _ _ _ _ _ _ _ h4,
        NewWrites_left fs _ _ _ hw1.symm (NewWrites_trans fs _ _ _ h5.2
          (ReadSNSFFile.ownAndLibs_new fs resolve hres1 _ _ _ _ _ hl3 _ h4))⟩
    · have hl3 : fs.load (ReadSNSFFile.topInit level p (ReadSNSFFile.enter fs filename st)).cwd
          filename = some snsf := by
        rw [hc1]; exact hload
      exact ⟨ReadSNSFFile.ownAndLibs_cwd _ _ _ _ _ _ _ h4,
        NewWrites_left fs _ _ _ hw1.symm
          (ReadSNSFFile.ownAndLibs_new fs resolve hres1 _ _ _ _ _ hl3 _ h4)⟩

/-! ### Chains that refer to themselves -/

theorem ReadSNSFFile.libs_success_refs
    (resolve : String → ReadState → Option (Bool × ReadState))
    (hcwd : ∀ name s r, resolve name s = some r → r.2.cwd = s.cwd)
    (tags : List (TagKey × String)) (fuel : Nat) :
    ∀ n st st', ReadSNSFFile.libs resolve tags fuel n st = some (true, st') →
      ∀ m name, n ≤ m → (∀ k, n ≤ k → k < m → tags.lookup (TagKey.libN k) ≠ none) →
        tags.lookup (TagKey.libN m) = some name →
        ∃ s s', s.cwd = st.cwd ∧ resolve name s = some (true, s') := by
  induction fuel with
  | zero =>
    intro n st st' h
    unfold ReadSNSFFile.libs at h
    exact absurd h (by simp)
  | succ f ih =>
    intro n st st' h m name hnm hall hm
    unfold ReadSNSFFile.libs at h
    cases hl : tags.lookup (TagKey.libN n) with
    | none =>
      rcases Nat.eq_or_lt_of_le hnm with e | e
      · subst e
        rw [hl] at hm
        exact absurd hm (by simp)
      · exact absurd hl (hall n (le_refl n) e)
    | some nm =>
      rw [hl] at h
      simp only [] at h
      cases hr : resolve nm st with
      | none => rw [hr] at h; exact absurd h (by simp)
      | some r1 =>
        obtain ⟨b, st1⟩ := r1
        rw [hr] at h
        cases b with
        | false =>
          simp only [Option.some.injEq, Prod.mk.injEq] at h
          exact absurd h.1 (by simp)
        | true =>
          simp only [] at h
          rcases Nat.eq_or_lt_of_le hnm with e | e
          · subst e
            rw [hl] at hm
            simp only [Option.some.injEq] at hm
            subst hm
            exact ⟨st, st1, rfl, hr⟩
          · obtain ⟨s, s', c, hs⟩ := ih (n + 1) st1 st' h m name (by omega)
              (fun k hk1 hk2 => hall k (by omega) hk2) hm
            exact ⟨s, s', by rw [c]; exact hcwd nm st _ hr, hs⟩

/-- A container that resolves has every library it refers to resolved, one
level deeper, in the working directory the container was loaded in. -/
theorem ReadSNSFFile.container_success_refs
    (resolve : String → ReadState → Option (Bool × ReadState))
    (hcwd : ∀ name s r, resolve name s = some r → r.2.cwd = s.cwd)
    (filename savedcwd : String) (level : Nat) (p : Pointers) (snsf : PSFFile)
    (st1 st' : ReadState)
    (h : ReadSNSFFile.container resolve filename savedcwd level p snsf st1 = some (true, st'))
    (name : String) (href : Refers snsf name) :
    ∃ s s', s.cwd = st1.cwd ∧ resolve name s = some (true, s') := by
  have hc1 := ReadSNSFFile.topInit_cwd level p st1
  have key : ∀ st3, st3.cwd = st1.cwd →
      ReadSNSFFile.ownAndLibs resolve filename savedcwd p snsf st3 = some (true, st') →
      ∀ n, 2 ≤ n → (∀ k, 2 ≤ k → k < n → snsf.tags.lookup (TagKey.libN k) ≠ none) →
        snsf.tags.lookup (TagKey.libN n) = some name →
        ∃ s s', s.cwd = st1.cwd ∧ resolve name s = some (true, s') := by
    intro st3 c3 h4 n hn hall hlook
    rcases ReadSNSFFile.ownAndLibs_cases resolve filename savedcwd p snsf st3 _ h4 with
      ⟨st4, _, hr⟩ | ⟨st4, st5, _, _, hr⟩ | ⟨st4, st5, st6, _, _, _, hr⟩ |
      ⟨st4, st5, st6, k4, k5, k6, _⟩
    · exact absurd (congrArg Prod.fst hr) (by simp)
    · exact absurd (congrArg Prod.fst hr) (by simp)
    · exact absurd (congrArg Prod.fst hr) (by simp)
    · obtain ⟨_, _, _, _, _, c4⟩ := ReadSNSFFile.payload_applied filename savedcwd p snsf st3 st4 k4
      obtain ⟨_, _, _, _, _, c5⟩ :=
        ReadSNSFFile.reservedSection_applied filename savedcwd p snsf st4 st5 k5
      obtain ⟨s, s', c, hs⟩ := ReadSNSFFile.libs_success_refs resolve hcwd snsf.tags _ 2 st5 st6 k6
        n name hn hall hlook
      exact ⟨s, s', by rw [c, c5, c4, c3], hs⟩
  rcases ReadSNSFFile.container_cases resolve filename savedcwd level p snsf st1 _ h with
    ⟨_, hr⟩ | ⟨_, nm, st3, _, _, hr⟩ | ⟨_, nm, st3, hl, h3, h4⟩ | ⟨_, hl, h4⟩
  · exact absurd (congrArg Prod.fst hr) (by simp [ReadSNSFFile.fail])
  · exact absurd (congrArg Prod.fst hr) (by simp)
  · rcases href with h0 | ⟨n, hn, hall, hlook⟩
    · rw [hl] at h0
      simp only [Option.some.injEq] at h0
      subst h0
      exact ⟨_, st3, hc1, h3⟩
    · have c3 : st3.cwd = st1.cwd := by rw [hcwd nm _ _ h3, hc1]
      exact key st3 c3 h4 n hn hall hlook
  · rcases href with h0 | ⟨n, hn, hall, hlook⟩
    · rw [hl] at h0
      exact absurd h0 (by simp)
    · exact key _ hc1 h4 n hn hall hlook

/-- A chain that refers to itself does not resolve: when every container of a
set refers to a container of the set, no call of `ReadSNSFFile` on a container
of the set succeeds. -/
theorem ReadSNSFFile_cycle_fails (fs : FileSystem) (p : Pointers) (hp : p.base_offset = true)
    (I : String → String → Prop)
    (hI : ∀ cwd name, I cwd name → ∀ snsf, fs.load (enterDir fs cwd name) name = some snsf →
      ∃ lib, Refers snsf lib ∧ I (enterDir fs cwd name) lib)
    (d : Nat) :
    ∀ (level : Nat) (filename : String) (st : ReadState),
      level + d = 11 → I st.cwd filename →
      ∃ st', ReadSNSFFile fs filename level p st = some (false, st') := by
  induction d with
  | zero =>
    intro level filename st hl _
    exact ⟨_, ReadSNSFFile_refused fs filename level p st hp (by omega)⟩
  | succ d ih =>
    intro level filename st hl h0
    obtain ⟨⟨b, st'⟩, hr⟩ := ReadSNSFFile_total fs filename level p st
    cases b with
    | false => exact ⟨st', hr⟩
    | true =>
      exfalso
      have hu := ReadSNSFFile_unfold fs filename level p st hp (by omega)
      rw [hr] at hu
      cases hload : fs.load (enterDir fs st.cwd filename) filename with
      | none =>
        rw [hload] at hu
        exact absurd (congrArg (Option.map Prod.fst) hu) (by simp [ReadSNSFFile.fail])
      | some snsf =>
        rw [hload] at hu
        obtain ⟨lib, href, hlib⟩ := hI st.cwd filename h0 snsf hload
        obtain ⟨s, s', c, hs⟩ := ReadSNSFFile.container_success_refs
          (fun name s => ReadSNSFFile fs name (level + 1) p s)
          (fun name s r hr => ReadSNSFFile_cwd fs name (level + 1) p s r hr)
          filename st.cwd level p snsf _ st' hu.symm lib href
        rw [ReadSNSFFile.enter_cwd] at c
        obtain ⟨s2, h2⟩ := ih (level + 1) lib s (by omega) (by rw [c]; exact hlib)
        rw [h2] at hs
        exact absurd hs (by simp)

/-! ### C13 -/

/-- C13, as stated, fails: the container `selfLib2` refers to itself through
`_lib2`; resolved from level 0 it fails with "ROM size error", not with the
nesting error. And a call at level 11 that is given no base-offset pointer
fails with the internal error, not with the nesting error. -/
theorem ReadSNSFFile_self_lib2_size_error :
    (ReadSNSFFile (FileSystem.single "a" selfLib2) "a" 0 Pointers.all ReadState.fresh).map
      (fun r => (r.1, r.2.m_message)) = some (false, "a - ROM size error") ∧
    (ReadSNSFFile (FileSystem.single "a" selfLib2) "a" 11 ⟨true, true, false⟩
        ReadState.fresh).map
      (fun r => (r.1, r.2.m_message))
      = some (false, "a - Internal error (base offset must not be null)") := by
  decide

/-- C13, amended: `ReadSNSFFile` returns for every container store. When the
call is given a base-offset pointer: a call above level 10 fails with "Too many
snsflibs" and records that error only (no container is loaded); a chain that
refers to itself (every container of a set `I` refers to a container of `I`,
through `_lib` or a numbered library) fails at every level; and a chain of
primary `_lib` references that never ends, such as a cycle of them, fails from
level 0 with "Too many snsflibs". -/
theorem ReadSNSFFile_nesting_guard (fs : FileSystem) (p : Pointers) (hp : p.base_offset = true) :
    (∀ name level s, ∃ r, ReadSNSFFile fs name level p s = some r) ∧
    (∀ name level s, 10 < level →
      ReadSNSFFile fs name level p s = some (false, { s with
        m_message := name ++ " - " ++ "Too many snsflibs"
        events := s.events ++ [ReadEvent.failed name "Too many snsflibs"] })) ∧
    (∀ I : String → String → Prop,
      (∀ cwd name, I cwd name → ∀ snsf, fs.load (enterDir fs cwd name) name = some snsf →
        ∃ lib, Refers snsf lib ∧ I (enterDir fs cwd name) lib) →
      ∀ filename level st, level ≤ 11 → I st.cwd filename →
        ∃ st', ReadSNSFFile fs filename level p st = some (false, st')) ∧
    (∀ I : String → String → Prop,
      (∀ cwd name, I cwd name → ∃ snsf lib,
        fs.load (enterDir fs cwd name) name = some snsf ∧ snsf.version = SNSF_PSF_VERSION ∧
        snsf.tags.lookup TagKey.lib = some lib ∧ I (enterDir fs cwd name) lib) →
      ∀ filename st, I st.cwd filename →
        ∃ st' name, ReadSNSFFile fs filename 0 p st = some (false, st') ∧
          st'.m_message = name ++ " - " ++ "Too many snsflibs") :=
  ⟨fun name level s => ReadSNSFFile_total fs name level p s,
   fun name level s hl => ReadSNSFFile_refused fs name level p s hp hl,
   fun I hI filename level st hl h0 =>
     ReadSNSFFile_cycle_fails fs p hp I hI (11 - level) level filename st (by omega) h0,
   fun I hI filename st h0 => ReadSNSFFile_endless_chain fs p hp I hI 11 0 filename st rfl h0⟩

/-- C13 on two containers that name themselves: `selfLib2` (through `_lib2`)
fails, `selfLib` (through `_lib`) fails with the nesting error. -/
theorem ReadSNSFFile_nesting_guard_witness :
    (∃ st', ReadSNSFFile (FileSystem.single "a" selfLib2) "a" 0 Pointers.all ReadState.fresh
        = some (false, st')) ∧
    ∃ st' name,
      ReadSNSFFile (FileSystem.single "a" selfLib) "a" 0 Pointers.all ReadState.fresh
        = some (false, st') ∧
      st'.m_message = name ++ " - " ++ "Too many snsflibs" :=
  ⟨(ReadSNSFFile_nesting_guard (FileSystem.single "a" selfLib2) Pointers.all rfl).2.2.1
      (fun _ name => name = "a")
      (fun cwd name h snsf hl => ⟨"a", by
        subst h
        have e : snsf = selfLib2 := by
          have : some selfLib2 = some snsf := hl
          exact (Option.some.inj this).symm
        subst e
        exact Or.inr ⟨2, le_refl 2, fun k h1 h2 => absurd h1 (by omega), rfl⟩, rfl⟩)
      "a" 0 ReadState.fresh (by decide) rfl,
   (ReadSNSFFile_nesting_guard (FileSystem.single "a" selfLib) Pointers.all rfl).2.2.2
      (fun _ name => name = "a")
      (fun cwd name h => ⟨selfLib, "a", by subst h; rfl, rfl, rfl, rfl⟩)
      "a" ReadState.fresh rfl⟩

/-! ### C15 -/

/-- C15: the header of `wrapRom` announces 0xFFFFFF00 bytes at load address
0x100; the exact sum is far above 0x800800, yet the call fails with "Unable to
load ROM data", not with "ROM size error", and the payload bytes that were
there have been written into the ROM buffer. -/
theorem ReadSNSFFile_rom_size_check_wraps :
    0x100 + 0xFFFFFF00 > SNES_HEADER_SIZE + MAX_SNES_ROM_SIZE ∧
    (ReadState.fresh.rom_buf 0x100, ReadState.fresh.rom_buf 0x103) = (0, 0) ∧
    (ReadSNSFFile (FileSystem.single "a" wrapRom) "a" 0 Pointers.all ReadState.fresh).map
      (fun r => (r.1, r.2.m_message, r.2.rom_buf 0x100, r.2.rom_buf 0x103))
      = some (false, "a - Unable to load ROM data", 2, 5) := by
  decide

/-! ### C17 -/

/-- C17, as stated, fails: a reserved section of exactly the 8 header bytes
with block type 1 is skipped, and the call succeeds. -/
theorem ReadSNSFFile_reserved_8_bytes_accepted :
    reservedInt [1, 0, 0, 0, 0, 0, 0, 0] 0 ≠ 0 ∧
    (ReadSNSFFile (FileSystem.single "a" (withReserved [1, 0, 0, 0, 0, 0, 0, 0])) "a" 0
      Pointers.all ReadState.fresh).map (fun r => (r.1, r.2.m_message))
      = some (true, "a - Loaded successfully") := by
  decide

theorem ReadSNSFFile.ownAndLibs_unsupported
    (resolve : String → ReadState → Option (Bool × ReadState))
    (filename savedcwd : String) (p : Pointers) (snsf : PSFFile) (st3 : ReadState)
    (hlen : 8 < snsf.reserved.length) (hty : reservedInt snsf.reserved 0 ≠ 0) :
    (∃ st', ReadSNSFFile.ownAndLibs resolve filename savedcwd p snsf st3 = some (false, st')) ∧
    ∀ st4, ReadSNSFFile.payload filename savedcwd p snsf st3 = (true, st4) →
      ReadSNSFFile.ownAndLibs resolve filename savedcwd p snsf st3 =
        some (ReadSNSFFile.fail filename savedcwd "Unsupported reserve section type" st4) := by
  have hr : ∀ st4, ReadSNSFFile.reservedSection filename savedcwd p snsf st4 =
      ReadSNSFFile.fail filename savedcwd "Unsupported reserve section type" st4 := by
    intro st4
    unfold ReadSNSFFile.reservedSection
    rw [if_pos hlen]
    simp only [if_neg hty]
  unfold ReadSNSFFile.ownAndLibs
  rcases hp : ReadSNSFFile.payload filename savedcwd p snsf st3 with ⟨b, st4⟩
  cases b
  · exact ⟨⟨st4, rfl⟩, fun _ h => absurd (congrArg Prod.fst h) (by simp)⟩
  · simp only [hr, ReadSNSFFile.fail]
    refine ⟨⟨_, rfl⟩, ?_⟩
    intro st4' h
    cases h
    rfl

/-- C17, amended: when the reserved section of a container is longer than 8
bytes and its block type (little-endian bytes 0-3) is not 0, `ReadSNSFFile`
fails; once the primary library and the container's own payload have been
loaded, the failure is "Unsupported reserve section type". A reserved section
of 8 bytes or fewer is ignored: the step on the reserved section succeeds and
changes nothing, whatever the bytes are. -/
theorem ReadSNSFFile_unsupported_reserve (fs : FileSystem) (filename : String) (level : Nat)
    (p : Pointers) (st : ReadState) (snsf : PSFFile)
    (hload : fs.load (enterDir fs st.cwd filename) filename = some snsf)
    (hlen : 8 < snsf.reserved.length) (hty : reservedInt snsf.reserved 0 ≠ 0) :
    (∃ st', ReadSNSFFile fs filename level p st = some (false, st')) ∧
    (∀ (resolve : String → ReadState → Option (Bool × ReadState)) (savedcwd : String)
      (st3 st4 : ReadState),
      ReadSNSFFile.payload filename savedcwd p snsf st3 = (true, st4) →
      ReadSNSFFile.ownAndLibs resolve filename savedcwd p snsf st3 =
        some (ReadSNSFFile.fail filename savedcwd "Unsupported reserve section type" st4)) ∧
    ∀ (c : PSFFile) (name savedcwd : String) (s : ReadState), c.reserved.length ≤ 8 →
      ReadSNSFFile.reservedSection name savedcwd p c s = (true, s) := by
  refine ⟨?_, fun resolve savedcwd st3 st4 h =>
    (ReadSNSFFile.ownAndLibs_unsupported resolve filename savedcwd p snsf st3 hlen hty).2 st4 h,
    fun c name savedcwd s hc => by
      unfold ReadSNSFFile.reservedSection
      rw [if_neg (by omega)]⟩
  obtain ⟨⟨b, st'⟩, hr⟩ := ReadSNSFFile_total fs filename level p st
  cases b
  · exact ⟨st', hr⟩
  · exfalso
    have hQ := ReadSNSFFile_induct fs p
      (fun level filename st r => ∀ snsf, fs.load (enterDir fs st.cwd filename) filename = some snsf →
        8 < snsf.reserved.length → reservedInt snsf.reserved 0 ≠ 0 → r.1 = false)
      ?_ ?_ ?_ level filename st _ hr snsf hload hlen hty
    · exact absurd hQ (by simp)
    · intro level filename st r h _ _ _ _
      unfold ReadSNSFFile.refused at h
      split_ifs at h <;> cases h <;> rfl
    · intro level filename st _ _ _ _ _ _ _
      rfl
    · intro level filename st snsf1 resolve _ _ hl1 _ r hc snsf2 hl2 hlen2 hty2
      rw [hl1] at hl2
      cases hl2
      rcases ReadSNSFFile.container_cases resolve filename st.cwd level p snsf1 _ r hc with
        ⟨_, hr⟩ | ⟨_, name, st3, _, _, hr⟩ | ⟨_, name, st3, _, _, h4⟩ | ⟨_, _, h4⟩
      · rw [hr]; rfl
      · rw [hr]
      · obtain ⟨⟨st', h5⟩, _⟩ :=
          ReadSNSFFile.ownAndLibs_unsupported resolve filename st.cwd p snsf1 st3 hlen2 hty2
        rw [h5] at h4
        cases h4
        rfl
      · obtain ⟨⟨st', h5⟩, _⟩ :=
          ReadSNSFFile.ownAndLibs_unsupported resolve filename st.cwd p snsf1 _ hlen2 hty2
        rw [h5] at h4
        cases h4
        rfl

/-- C17 on a container with a 9-byte reserved section of type 1. -/
theorem ReadSNSFFile_unsupported_reserve_witness :
    (∃ st', ReadSNSFFile (FileSystem.single "a" (withReserved [1, 0, 0, 0, 0, 0, 0, 0, 0])) "a" 0
      Pointers.all ReadState.fresh = some (false, st')) ∧
    (∀ (resolve : String → ReadState → Option (Bool × ReadState)) (savedcwd : String)
      (st3 st4 : ReadState),
      ReadSNSFFile.payload "a" savedcwd Pointers.all (withReserved [1, 0, 0, 0, 0, 0, 0, 0, 0]) st3
        = (true, st4) →
      ReadSNSFFile.ownAndLibs resolve "a" savedcwd Pointers.all
        (withReserved [1, 0, 0, 0, 0, 0, 0, 0, 0]) st3 =
        some (ReadSNSFFile.fail "a" savedcwd "Unsupported reserve section type" st4)) ∧
    ∀ (c : PSFFile) (name savedcwd : String) (s : ReadState), c.reserved.length ≤ 8 →
      ReadSNSFFile.reservedSection name savedcwd Pointers.all c s = (true, s) :=
  ReadSNSFFile_unsupported_reserve (FileSystem.single "a" (withReserved [1, 0, 0, 0, 0, 0, 0, 0, 0]))
    "a" 0 Pointers.all ReadState.fresh (withReserved [1, 0, 0, 0, 0, 0, 0, 0, 0]) rfl
    (by decide) (by decide)

/-! ### C18 -/

/-- C18: two SRAM blocks that are not well formed are applied, and the call
succeeds. The first has SRAM offset 0xFFFFFFFF and one patch byte: the exact
sum is above 0x20000, the 32-bit sum is 0, and the byte is stored at index
0xFFFFFFFF. The second announces 96 patch bytes and holds none: the 96 bytes
after the 9 bytes of the section are copied (read as 0 here). -/
theorem ReadSNSFFile_sram_block_not_checked :
    0xFFFFFFFF + (5 - 4) > MAX_SNES_SRAM_SIZE ∧
    ReadState.fresh.sram_buf 0xFFFFFFFF = 0xff ∧
    (ReadSNSFFile (FileSystem.single "a"
        (withReserved [0, 0, 0, 0, 5, 0, 0, 0, 0xff, 0xff, 0xff, 0xff, 0x42])) "a" 0
      Pointers.all ReadState.fresh).map
      (fun r => (r.1, r.2.m_message, r.2.sram_buf 0xFFFFFFFF, r.2.sram_size))
      = some (true, "a - Loaded successfully", 0x42, 0) ∧
    (ReadSNSFFile (FileSystem.single "a"
        (withReserved [0, 0, 0, 0, 100, 0, 0, 0, 0x10])) "a" 0
      Pointers.all ReadState.fresh).map
      (fun r => (r.1, r.2.m_message, r.2.sram_buf 0x10, r.2.sram_buf 0x6f, r.2.sram_size))
      = some (true, "a - Loaded successfully", 0, 0, 112) := by
  decide

/-! ### Overlapping payloads and the running maximum -/

theorem applyWrites_append (a b : List Written) (buf : Mem) :
    applyWrites (a ++ b) buf = applyWrites b (applyWrites a buf) := by
  simp [applyWrites, List.foldl_append]

theorem applyWrites_not_covered (ws : List Written) (j : Nat) :
    ∀ buf : Mem, (∀ w ∈ ws, ¬ w.covers j) → applyWrites ws buf j = buf j := by
  induction ws with
  | nil => intro buf _; rfl
  | cons w ws ih =>
    intro buf h
    have h1 : ¬ w.covers j := h w (List.mem_cons_self _ _)
    show applyWrites ws (w.apply buf) j = buf j
    rw [ih (w.apply buf) (fun w' hw' => h w' (List.mem_cons_of_mem _ hw'))]
    unfold Written.apply
    exact if_neg h1

theorem applyWrites_last (ws1 ws2 : List Written) (w : Written) (buf : Mem) (j : Nat)
    (hw : w.covers j) (h2 : ∀ w' ∈ ws2, ¬ w'.covers j) :
    applyWrites (ws1 ++ w :: ws2) buf j = w.data (j - w.offset) := by
  rw [applyWrites_append]
  show applyWrites ws2 (w.apply (applyWrites ws1 buf)) j = _
  rw [applyWrites_not_covered ws2 j _ h2]
  unfold Written.apply
  exact if_pos hw

theorem maxEnd_append (a b : List Written) (m : Nat) :
    maxEnd (a ++ b) m = maxEnd b (maxEnd a m) := by
  simp [maxEnd, List.foldl_append]

theorem maxEnd_ge_init (ws : List Written) : ∀ m, m ≤ maxEnd ws m := by
  induction ws with
  | nil => intro m; exact le_refl m
  | cons w ws ih =>
    intro m
    show m ≤ maxEnd ws (if m < w.end32 then w.end32 else m)
    refine le_trans ?_ (ih _)
    split_ifs <;> omega

theorem maxEnd_ge_mem (ws : List Written) :
    ∀ m, ∀ w ∈ ws, w.end32 ≤ maxEnd ws m := by
  induction ws with
  | nil => intro m w hw; exact absurd hw (by simp)
  | cons w0 ws ih =>
    intro m w hw
    show w.end32 ≤ maxEnd ws (if m < w0.end32 then w0.end32 else m)
    rcases List.mem_cons.1 hw with h | h
    · subst h
      refine le_trans ?_ (maxEnd_ge_init ws _)
      split_ifs <;> omega
    · exact ih _ w h

theorem maxEnd_attained (ws : List Written) :
    ∀ m, maxEnd ws m = m ∨ ∃ w ∈ ws, maxEnd ws m = w.end32 := by
  induction ws with
  | nil => intro m; exact Or.inl rfl
  | cons w0 ws ih =>
    intro m
    show maxEnd ws (if m < w0.end32 then w0.end32 else m) = m ∨
      ∃ w ∈ w0 :: ws, maxEnd ws (if m < w0.end32 then w0.end32 else m) = w.end32
    rcases ih (if m < w0.end32 then w0.end32 else m) with h | ⟨w, hw, h⟩
    · by_cases hm : m < w0.end32
      · rw [if_pos hm] at h ⊢
        exact Or.inr ⟨w0, List.mem_cons_self _ _, h⟩
      · rw [if_neg hm] at h ⊢
        exact Or.inl h
    · exact Or.inr ⟨w, List.mem_cons_of_mem _ hw, h⟩

/-! ### C14 -/

/-- C14: a call at level 0 returns. The first payload header placed in the
chain has its buffer index equal to its load address masked with 0x1FFFFFF,
that index is at most 0xFF00 and is the base offset in the end; every later
header is placed at its masked load address plus that base offset (`BaseFinal`).
On success the payloads copied are exactly the headers placed, in the order of
`payloadOrder` (innermost primary library first), and are those of the store;
so a chain whose first payload in that order has a masked load address above
0xFF00 fails. A payload met
while the base offset is unset and whose masked load address exceeds 0xFF00
fails with "Base offset out of range", and a nested call never changes a base
offset that is set. -/
theorem ReadSNSFFile_base_offset (fs : FileSystem) (filename : String) (p : Pointers)
    (st : ReadState) (hres : st.resolved = []) :
    ∃ r, ReadSNSFFile fs filename 0 p st = some r ∧
      BaseFinal r.2 ∧
      (r.1 = true → ∃ ws, r.2.written = st.written ++ ws ∧
        r.2.resolved = ws.map Written.header ∧
        ws.map (fun w => (w.cwd, w.filename)) = payloadOrder fs 11 st.cwd filename ∧
        (∀ w ∈ ws, FromStore fs w) ∧
        ∀ w rest, ws = w :: rest →
          w.offset = w.address &&& 0x1FFFFFF ∧ w.offset ≤ 0xff00 ∧ r.2.base_offset = w.offset ∧
          ∀ v ∈ rest, v.offset = (v.address &&& 0x1FFFFFF) + r.2.base_offset) ∧
      (∀ (cwd name : String) (rest : List (String × String)) (snsf : PSFFile) (a : Nat),
        payloadOrder fs 11 st.cwd filename = (cwd, name) :: rest →
        fs.load cwd name = some snsf → snsf.compressed_exe.readInt 0 = some a →
        a &&& 0x1FFFFFF > 0xff00 → r.1 = false) ∧
      (∀ (name savedcwd : String) (snsf : PSFFile) (s : ReadState) (a n : Nat),
        s.base_offset = 0xffffffff → snsf.compressed_exe.readInt 0 = some a →
        snsf.compressed_exe.readInt 4 = some n → a &&& 0x1FFFFFF > 0xff00 →
        ReadSNSFFile.payload name savedcwd p snsf s =
          ReadSNSFFile.fail name savedcwd "Base offset out of range" s) ∧
      (∀ (name : String) (level : Nat) (s : ReadState) (r1 : Bool × ReadState), 1 ≤ level →
        ReadSNSFFile fs name level p s = some r1 → s.base_offset ≠ 0xffffffff →
        r1.2.base_offset = s.base_offset) := by
  obtain ⟨r, hr⟩ := ReadSNSFFile_total fs filename 0 p st
  have hfin : BaseFinal r.2 := (ReadSNSFFile_base fs filename 0 p st r hr).2 rfl hres
  have hsucc : r.1 = true → ∃ ws, r.2.written = st.written ++ ws ∧
      r.2.resolved = ws.map Written.header ∧
      ws.map (fun w => (w.cwd, w.filename)) = payloadOrder fs 11 st.cwd filename ∧
      (∀ w ∈ ws, FromStore fs w) ∧
      ∀ w rest, ws = w :: rest →
        w.offset = w.address &&& 0x1FFFFFF ∧ w.offset ≤ 0xff00 ∧ r.2.base_offset = w.offset ∧
        ∀ v ∈ rest, v.offset = (v.address &&& 0x1FFFFFF) + r.2.base_offset := by
    intro hb
    obtain ⟨ws, ⟨h1, h2⟩, hk, _⟩ := ReadSNSFFile_applied fs filename 0 p st r hr hb
    have e1 : (ReadSNSFFile.topInit 0 p st).written = st.written := by
      simp [ReadSNSFFile.topInit]
    have e2 : (ReadSNSFFile.topInit 0 p st).resolved = [] := by
      simp [ReadSNSFFile.topInit, hres]
    rw [e1] at h1
    rw [e2, List.nil_append] at h2
    have hfs : ∀ w ∈ ws, FromStore fs w := by
      obtain ⟨ws1, k1, k2⟩ := (ReadSNSFFile_new fs filename 0 p st r hr).2
      rw [h1] at k1
      rw [List.append_cancel_left k1]
      exact k2
    refine ⟨ws, h1, h2, hk, hfs, ?_⟩
    intro w rest hw
    rw [hw, List.map_cons] at h2
    obtain ⟨k1, k2, k3, k4⟩ := hfin w.address w.offset w.count (rest.map Written.header) h2
    refine ⟨k1, k2, k3, ?_⟩
    intro v hv
    exact k4 v.header (List.mem_map_of_mem _ hv)
  refine ⟨r, hr, hfin, hsucc, ?_, ?_, ?_⟩
  · intro cwd name rest snsf a hord hload h0 ha
    cases hb : r.1 with
    | false => rfl
    | true =>
      exfalso
      obtain ⟨ws, _, _, hk, hfs, hpl⟩ := hsucc hb
      rw [hord] at hk
      cases ws with
      | nil => exact absurd hk (by simp)
      | cons w rest1 =>
        simp only [List.map_cons, List.cons.injEq, Prod.mk.injEq] at hk
        obtain ⟨⟨c1, c2⟩, _⟩ := hk
        obtain ⟨snsf1, _, l1, l2, _⟩ := hfs w (List.mem_cons_self _ _)
        rw [c1, c2, hload] at l1
        simp only [Option.some.injEq] at l1
        subst l1
        rw [h0] at l2
        simp only [Option.some.injEq] at l2
        obtain ⟨k1, k2, _⟩ := hpl w rest1 rfl
        rw [← l2] at k1
        omega
  · intro name savedcwd snsf s a n hs h0 h4 ha
    unfold ReadSNSFFile.payload
    rw [h0, h4]
    simp only []
    rw [if_pos ⟨hs, ha⟩]
  · intro name level s r1 hl h1 hne
    exact ((ReadSNSFFile_base fs name level p s r1 h1).1 hl).1 hne

/-- C14 on the chain of container `a` with primary library `b` and numbered
library `c`. -/
theorem ReadSNSFFile_base_offset_witness :
    ∃ r, ReadSNSFFile FileSystem.chain "a" 0 Pointers.all ReadState.fresh = some r ∧
      BaseFinal r.2 ∧
      (r.1 = true → ∃ ws, r.2.written = ReadState.fresh.written ++ ws ∧
        r.2.resolved = ws.map Written.header ∧
        ws.map (fun w => (w.cwd, w.filename))
          = payloadOrder FileSystem.chain 11 ReadState.fresh.cwd "a" ∧
        (∀ w ∈ ws, FromStore FileSystem.chain w) ∧
        ∀ w rest, ws = w :: rest →
          w.offset = w.address &&& 0x1FFFFFF ∧ w.offset ≤ 0xff00 ∧ r.2.base_offset = w.offset ∧
          ∀ v ∈ rest, v.offset = (v.address &&& 0x1FFFFFF) + r.2.base_offset) ∧
      (∀ (cwd name : String) (rest : List (String × String)) (snsf : PSFFile) (a : Nat),
        payloadOrder FileSystem.chain 11 ReadState.fresh.cwd "a" = (cwd, name) :: rest →
        FileSystem.chain.load cwd name = some snsf → snsf.compressed_exe.readInt 0 = some a →
        a &&& 0x1FFFFFF > 0xff00 → r.1 = false) ∧
      (∀ (name savedcwd : String) (snsf : PSFFile) (s : ReadState) (a n : Nat),
        s.base_offset = 0xffffffff → snsf.compressed_exe.readInt 0 = some a →
        snsf.compressed_exe.readInt 4 = some n → a &&& 0x1FFFFFF > 0xff00 →
        ReadSNSFFile.payload name savedcwd Pointers.all snsf s =
          ReadSNSFFile.fail name savedcwd "Base offset out of range" s) ∧
      (∀ (name : String) (level : Nat) (s : ReadState) (r1 : Bool × ReadState), 1 ≤ level →
        ReadSNSFFile FileSystem.chain name level Pointers.all s = some r1 →
        s.base_offset ≠ 0xffffffff → r1.2.base_offset = s.base_offset) :=
  ReadSNSFFile_base_offset FileSystem.chain "a" Pointers.all ReadState.fresh rfl

/-! ### Order of the payloads and the size of the ROM -/

/-- Order of the payloads: a call at level 0 returns, and when it succeeds the
payloads were copied in the order of `payloadOrder` (primary library chain, own
payload, `_lib2`, `_lib3`, ...) and are those of the store: the ROM buffer is
the old one with them copied in that order, so an index covered by several
payloads holds the byte of the last of them and an index covered by none is
unchanged; `*ptr_rom_size` is the running maximum, from 0, of the payload ends
as the code forms them, in 32 bits. -/
theorem ReadSNSFFile_payload_order (fs : FileSystem) (filename : String) (p : Pointers)
    (st : ReadState) (hp : p.rom_size = true) :
    ∃ r, ReadSNSFFile fs filename 0 p st = some r ∧ (r.1 = true →
      ∃ ws, r.2.written = st.written ++ ws ∧
        ws.map (fun w => (w.cwd, w.filename)) = payloadOrder fs 11 st.cwd filename ∧
        (∀ w ∈ ws, FromStore fs w) ∧
        r.2.rom_buf = applyWrites ws st.rom_buf ∧
        r.2.rom_size = maxEnd ws 0 ∧
        (∀ ws1 w ws2 j, ws = ws1 ++ w :: ws2 → w.covers j → (∀ v ∈ ws2, ¬ v.covers j) →
          r.2.rom_buf j = w.data (j - w.offset)) ∧
        (∀ j, (∀ w ∈ ws, ¬ w.covers j) → r.2.rom_buf j = st.rom_buf j) ∧
        (∀ w ∈ ws, w.end32 ≤ r.2.rom_size) ∧
        (∀ ws1 ws2, ws = ws1 ++ ws2 → maxEnd ws1 0 ≤ r.2.rom_size) ∧
        (ws ≠ [] → ∃ w ∈ ws, r.2.rom_size = w.end32) ∧
        (∀ w ∈ ws, w.offset + w.count < 2 ^ 32 → w.end32 = w.offset + w.count)) := by
  obtain ⟨r, hr⟩ := ReadSNSFFile_total fs filename 0 p st
  refine ⟨r, hr, fun hb => ?_⟩
  obtain ⟨ws, ⟨h1, _⟩, h2, h3, h4, _⟩ := ReadSNSFFile_applied fs filename 0 p st r hr hb
  have e1 : (ReadSNSFFile.topInit 0 p st).written = st.written := by
    simp [ReadSNSFFile.topInit]
  have e2 : (ReadSNSFFile.topInit 0 p st).rom_buf = st.rom_buf := by
    simp [ReadSNSFFile.topInit]
  have e3 : (ReadSNSFFile.topInit 0 p st).rom_size = 0 := by
    simp [ReadSNSFFile.topInit, hp]
  rw [e1] at h1
  rw [e2] at h3
  have h5 := h4 hp
  rw [e3] at h5
  have hfs : ∀ w ∈ ws, FromStore fs w := by
    obtain ⟨ws1, k1, k2⟩ := (ReadSNSFFile_new fs filename 0 p st r hr).2
    rw [h1] at k1
    rw [List.append_cancel_left k1]
    exact k2
  refine ⟨ws, h1, h2, hfs, h3, h5, ?_, ?_, ?_, ?_, ?_, ?_⟩
  · intro ws1 w ws2 j hw hc hn
    rw [h3, hw]
    exact applyWrites_last ws1 ws2 w st.rom_buf j hc hn
  · intro j hn
    rw [h3]
    exact applyWrites_not_covered ws j st.rom_buf hn
  · intro w hw
    rw [h5]
    exact maxEnd_ge_mem ws 0 w hw
  · intro ws1 ws2 hw
    rw [h5, hw, maxEnd_append]
    exact maxEnd_ge_init ws2 _
  · intro hne
    rcases maxEnd_attained ws 0 with h | h
    · cases ws with
      | nil => exact absurd rfl hne
      | cons w rest =>
        refine ⟨w, List.mem_cons_self _ _, ?_⟩
        have := maxEnd_ge_mem (w :: rest) 0 w (List.mem_cons_self _ _)
        rw [h5, h]
        omega
    · rw [h5]; exact h
  · intro w _ hlt
    exact Nat.mod_eq_of_lt hlt

/-- The order of the payloads on the chain of container `a` with primary
library `b` and numbered library `c`, whose three payloads overlap. -/
theorem ReadSNSFFile_payload_order_witness :
    ∃ r, ReadSNSFFile FileSystem.chain "a" 0 Pointers.all ReadState.fresh = some r ∧
      (r.1 = true →
      ∃ ws, r.2.written = ReadState.fresh.written ++ ws ∧
        ws.map (fun w => (w.cwd, w.filename))
          = payloadOrder FileSystem.chain 11 ReadState.fresh.cwd "a" ∧
        (∀ w ∈ ws, FromStore FileSystem.chain w) ∧
        r.2.rom_buf = applyWrites ws ReadState.fresh.rom_buf ∧
        r.2.rom_size = maxEnd ws 0 ∧
        (∀ ws1 w ws2 j, ws = ws1 ++ w :: ws2 → w.covers j → (∀ v ∈ ws2, ¬ v.covers j) →
          r.2.rom_buf j = w.data (j - w.offset)) ∧
        (∀ j, (∀ w ∈ ws, ¬ w.covers j) → r.2.rom_buf j = ReadState.fresh.rom_buf j) ∧
        (∀ w ∈ ws, w.end32 ≤ r.2.rom_size) ∧
        (∀ ws1 ws2, ws = ws1 ++ ws2 → maxEnd ws1 0 ≤ r.2.rom_size) ∧
        (ws ≠ [] → ∃ w ∈ ws, r.2.rom_size = w.end32) ∧
        (∀ w ∈ ws, w.offset + w.count < 2 ^ 32 → w.end32 = w.offset + w.count)) :=
  ReadSNSFFile_payload_order FileSystem.chain "a" Pointers.all ReadState.fresh rfl

/-! ### C16 -/

/-- C20: every call of `ReadSNSFFile` returns, a failed call has recorded
exactly one error, as its last event (so no container is loaded after the
failure, at any level of the chain), `m_message` is that error, and the working
directory is restored. When the chain that `LoadROMFile` resolves fails,
`LoadROMFile` returns false and only `m_message` differs from the session
before the call: emulator, coverage accumulator, `rom_path`, `rom_filename`
and `snsf_base_offset` are untouched. -/
theorem LoadROMFile_failure (fs : FileSystem) (emu : Mem → Nat → Mem → Nat → SNESSystem)
    (filename : String) (s : Session) (hpsf : fs.IsPSFFile s.cwd filename = true) :
    (∀ (name : String) (level : Nat) (st : ReadState),
      ∃ r1, ReadSNSFFile fs name level ⟨true, true, true⟩ st = some r1 ∧
        EventsOK st r1 ∧ r1.2.cwd = st.cwd) ∧
    ∃ r, ReadSNSFFile fs filename 0 ⟨true, true, true⟩ (LoadROMFile.buffers s) = some r ∧
      (r.1 = false →
        SnsfOpt.LoadROMFile fs emu filename s
          = some (false, { s with m_message := r.2.m_message }) ∧
        ∃ es0 name msg, r.2.events = es0 ++ [ReadEvent.failed name msg] ∧ NoFail es0 ∧
          r.2.m_message = name ++ " - " ++ msg) := by
  have hall : ∀ (name : String) (level : Nat) (st : ReadState),
      ∃ r1, ReadSNSFFile fs name level ⟨true, true, true⟩ st = some r1 ∧
        EventsOK st r1 ∧ r1.2.cwd = st.cwd := by
    intro name level st
    obtain ⟨r1, h1⟩ := ReadSNSFFile_total fs name level ⟨true, true, true⟩ st
    exact ⟨r1, h1, ReadSNSFFile_events fs name level _ st r1 h1,
      ReadSNSFFile_cwd fs name level _ st r1 h1⟩
  refine ⟨hall, ?_⟩
  obtain ⟨⟨b, st'⟩, hr, hev, hcwd⟩ := hall filename 0 (LoadROMFile.buffers s)
  refine ⟨(b, st'), hr, fun hb => ?_⟩
  simp only at hb
  subst hb
  constructor
  · unfold SnsfOpt.LoadROMFile
    rw [if_pos hpsf, hr]
    simp only at hcwd
    simp only [hcwd]
    rfl
  · obtain ⟨es, e1, _, f1⟩ := hev
    obtain ⟨es0, name, msg, e2, n2, m2⟩ := f1 rfl
    refine ⟨es0, name, msg, ?_, n2, m2⟩
    rw [e1, e2]
    rfl

/-- C20 on a session with a ROM loaded that tries to load the container `a`
naming itself as its primary library. -/
theorem LoadROMFile_failure_witness :
    (∀ (name : String) (level : Nat) (st : ReadState),
      ∃ r1, ReadSNSFFile (FileSystem.single "a" selfLib) name level ⟨true, true, true⟩ st
          = some r1 ∧
        EventsOK st r1 ∧ r1.2.cwd = st.cwd) ∧
    ∃ r, ReadSNSFFile (FileSystem.single "a" selfLib) "a" 0 ⟨true, true, true⟩
        (LoadROMFile.buffers Session.loaded) = some r ∧
      (r.1 = false →
        SnsfOpt.LoadROMFile (FileSystem.single "a" selfLib) SNESSystem.fresh "a" Session.loaded
          = some (false, { Session.loaded with m_message := r.2.m_message }) ∧
        ∃ es0 name msg, r.2.events = es0 ++ [ReadEvent.failed name msg] ∧ NoFail es0 ∧
          r.2.m_message = name ++ " - " ++ msg) :=
  LoadROMFile_failure (FileSystem.single "a" selfLib) SNESSystem.fresh "a" Session.loaded rfl

/-! ### Save and resolve -/

theorem land_mask_of_le (b : Nat) (h : b ≤ 0xff00) : b &&& 0x1FFFFFF = b := by
  have e : (0x1FFFFFF : Nat) = 2 ^ 25 - 1 := by norm_num
  rw [e, Nat.and_pow_two_sub_one_eq_mod]
  exact Nat.mod_eq_of_lt (by omega)

/-- The payload step on the first header of a chain, when the header is
accepted and the stream holds the announced bytes. -/
theorem ReadSNSFFile.payload_first (filename savedcwd : String) (p : Pointers) (snsf : PSFFile)
    (st : ReadState) (a sz : Nat)
    (h0 : snsf.compressed_exe.readInt 0 = some a) (h4 : snsf.compressed_exe.readInt 4 = some sz)
    (hb : st.base_offset = 0xffffffff) (ha : a ≤ 0xff00)
    (hsz : a + sz ≤ SNES_HEADER_SIZE + MAX_SNES_ROM_SIZE)
    (hav : sz ≤ snsf.compressed_exe.size - 8) :
    ReadSNSFFile.payload filename savedcwd p snsf st =
      (true, { st with
        base_offset := a
        resolved := st.resolved ++ [(a, a, sz)]
        rom_size := if p.rom_size = true ∧ st.rom_size < a + sz then a + sz else st.rom_size
        rom_buf := (snsf.compressed_exe.read 8 sz st.rom_buf a).1
        written := st.written ++
          [{ cwd := st.cwd, filename := filename, address := a, offset := a, count := sz,
             data := fun i => snsf.compressed_exe.data (8 + i) }] }) := by
  have hm : a &&& 0x1FFFFFF = a := land_mask_of_le a ha
  have hmax : SNES_HEADER_SIZE + MAX_SNES_ROM_SIZE = 0x800800 := rfl
  have hmod : (a + sz) % 2 ^ 32 = a + sz := Nat.mod_eq_of_lt (by omega)
  have hmin : min sz (snsf.compressed_exe.size - 8) = sz := Nat.min_eq_left hav
  unfold ReadSNSFFile.payload
  rw [h0, h4]
  simp only [hm, hb, if_true, hmod]
  rw [if_neg (by omega), if_neg (by omega)]
  simp only [ExeStream.read, hmin, ne_eq, not_true_eq_false, if_false]
  split_ifs <;> rfl

theorem SnsfOpt.GetROM_loaded (self : SnsfOpt) (sys : SNESSystem) (rom : Mem) (size : Nat)
    (wipe : Bool) (h : sys.IsLoaded = true) : (self.GetROM sys rom size wipe).1 = true := by
  unfold SnsfOpt.GetROM
  simp [h]

theorem SnsfOpt.SaveSNSF_refused (self : SnsfOpt) (sys : SNESSystem) (alloc : Mem) (b : Nat)
    (wipe : Bool) (tags : List (TagKey × String)) (h : b > 0xff00 ∨ b ≥ sys.GetROMSize) :
    self.SaveSNSF sys alloc b wipe tags = (none, self) := by
  unfold SnsfOpt.SaveSNSF
  simp only []
  rw [if_pos h]

theorem SnsfOpt.SaveSNSF_saved (self : SnsfOpt) (sys : SNESSystem) (alloc : Mem) (b : Nat)
    (wipe : Bool) (tags : List (TagKey × String)) (hloaded : sys.IsLoaded = true)
    (hb : b ≤ 0xff00) (hbn : b < sys.GetROMSize) :
    (self.SaveSNSF sys alloc b wipe tags).1 =
      some { version := SNSF_PSF_VERSION, tags := tags, reserved := [],
             compressed_exe :=
               ((ExeStream.empty.writeInt b).writeInt (sys.GetROMSize - b)).write
                 (self.GetROM sys alloc sys.GetROMSize wipe).2.1 b (sys.GetROMSize - b) } := by
  unfold SnsfOpt.SaveSNSF
  simp only []
  rw [if_neg (by omega)]
  simp [SnsfOpt.GetROM_loaded self sys alloc sys.GetROMSize wipe hloaded]

theorem ExeStream.readInt_saved (b m : Nat) (buf : Mem) (src n : Nat) (hb : b < 2 ^ 32)
    (hm : m < 2 ^ 32) :
    (((ExeStream.empty.writeInt b).writeInt m).write buf src n).readInt 0 = some b ∧
    (((ExeStream.empty.writeInt b).writeInt m).write buf src n).readInt 4 = some m := by
  constructor
  · simp [ExeStream.readInt, ExeStream.write, ExeStream.writeInt, ExeStream.empty, le4]
    omega
  · simp [ExeStream.readInt, ExeStream.write, ExeStream.writeInt, ExeStream.empty, le4]
    omega

/-- Resolving, from level 0, a container without library tags and without a
reserved section whose stream is `[b][m][m bytes]`. -/
theorem ReadSNSFFile_saved (fs : FileSystem) (filename : String) (st : ReadState)
    (tags : List (TagKey × String)) (b m : Nat) (buf : Mem)
    (hlib : tags.lookup TagKey.lib = none) (hlib2 : tags.lookup (TagKey.libN 2) = none)
    (hb : b ≤ 0xff00) (hm : b + m ≤ 0x800800) (hpos : 0 < m)
    (hload : fs.load (enterDir fs st.cwd filename) filename =
      some { version := SNSF_PSF_VERSION, tags := tags, reserved := [],
             compressed_exe := ((ExeStream.empty.writeInt b).writeInt m).write buf b m }) :
    ∃ st', ReadSNSFFile fs filename 0 ⟨true, true, true⟩ st = some (true, st') ∧
      st'.base_offset = b ∧ st'.rom_size = b + m ∧
      (∀ j, b ≤ j → j < b + m → st'.rom_buf j = buf j) ∧
      (∀ j, ¬ (b ≤ j ∧ j < b + m) → st'.rom_buf j = st.rom_buf j) := by
  obtain ⟨r0, r4⟩ := ExeStream.readInt_saved b m buf b m (by omega) (by omega)
  have hp := ReadSNSFFile.payload_first filename st.cwd ⟨true, true, true⟩
    { version := SNSF_PSF_VERSION, tags := tags, reserved := [],
      compressed_exe := ((ExeStream.empty.writeInt b).writeInt m).write buf b m }
    (ReadSNSFFile.topInit 0 ⟨true, true, true⟩ (ReadSNSFFile.enter fs filename st)) b m r0 r4
    (by simp [ReadSNSFFile.topInit]) hb hm
    (by simp [ExeStream.write, ExeStream.writeInt, ExeStream.empty])
  rw [ReadSNSFFile_unfold fs filename 0 _ st rfl (by omega), hload]
  simp only [ReadSNSFFile.container, ne_eq, not_true_eq_false, if_false, hlib,
    ReadSNSFFile.ownAndLibs, hp, ReadSNSFFile.reservedSection, List.length_nil,
    gt_iff_lt, Nat.not_lt_zero, ReadSNSFFile.libs, hlib2]
  refine ⟨_, rfl, rfl, ?_, ?_, ?_⟩
  · simp [ReadSNSFFile.topInit, hpos]
  · intro j h1 h2
    simp [ExeStream.read, ExeStream.write, ExeStream.writeInt, ExeStream.empty,
      ReadSNSFFile.topInit, ReadSNSFFile.enter]
    have e : b + (j - b) = j := by omega
    rw [if_pos ⟨h1, h2⟩, if_pos (by omega), e]
  · intro j hj
    simp [ExeStream.read, ExeStream.write, ExeStream.writeInt, ExeStream.empty,
      ReadSNSFFile.topInit, ReadSNSFFile.enter]
    rw [if_neg hj]
    split_ifs <;> rfl

/-! ### C19 -/

/-- C19, as stated, fails: `SaveSNSF` hands the caller's tags to the container
unchanged; with a `_lib` tag that names a missing file the saved container does
not resolve. -/
theorem SaveSNSF_lib_tag_breaks_roundtrip :
    ((SnsfOpt.initial.SaveSNSF threeBytes (fun _ => 0) 0 false [(TagKey.lib, "missing")]).1.bind
      (fun c => (ReadSNSFFile (FileSystem.single "out" c) "out" 0 Pointers.all
        ReadState.fresh).map (fun r => (r.1, r.2.m_message))))
      = some (false, "missing - PSF load error") := by
  decide

/-- C19, amended: for a loaded ROM of size `n ≤ 0x800800`, a base offset `b`
with `b ≤ 0xFF00` and `b < n`, and tags that name neither `_lib` nor `_lib2`,
`SaveSNSF` hands to the codec a container of version 0x23 with the caller's
tags, no reserved section and the stream `[b][n - b][rom[b..n)]` (both integers
4 bytes, least significant first), where `rom` is the image `GetROM` delivers.
Whenever the codec returns that container on load, resolving it from level 0
succeeds with base offset `b`, `rom_size = n`, buffer indices `b..n-1` equal to
`rom` and every other index unchanged. For `b > 0xFF00` or `b ≥ n` nothing is
handed to the codec. -/
theorem SaveSNSF_roundtrip (self : SnsfOpt) (sys : SNESSystem) (alloc : Mem) (b : Nat)
    (wipe : Bool) (tags : List (TagKey × String)) (hloaded : sys.IsLoaded = true)
    (hn : sys.GetROMSize ≤ 0x800800) (hb : b ≤ 0xff00) (hbn : b < sys.GetROMSize)
    (hlib : tags.lookup TagKey.lib = none) (hlib2 : tags.lookup (TagKey.libN 2) = none) :
    (∃ c, (self.SaveSNSF sys alloc b wipe tags).1 = some c ∧
      c.version = 0x23 ∧ c.tags = tags ∧ c.reserved = [] ∧
      c.compressed_exe.size = 8 + (sys.GetROMSize - b) ∧
      (∀ i, i < 4 → c.compressed_exe.data i = (le4 b).getD i 0) ∧
      (∀ i, i < 4 → c.compressed_exe.data (4 + i) = (le4 (sys.GetROMSize - b)).getD i 0) ∧
      (∀ i, i < sys.GetROMSize - b →
        c.compressed_exe.data (8 + i) = (self.GetROM sys alloc sys.GetROMSize wipe).2.1 (b + i)) ∧
      ∀ (fs : FileSystem) (filename : String) (st : ReadState),
        fs.load (enterDir fs st.cwd filename) filename = some c →
        ∃ st', ReadSNSFFile fs filename 0 ⟨true, true, true⟩ st = some (true, st') ∧
          st'.base_offset = b ∧ st'.rom_size = sys.GetROMSize ∧
          (∀ j, b ≤ j → j < sys.GetROMSize →
            st'.rom_buf j = (self.GetROM sys alloc sys.GetROMSize wipe).2.1 j) ∧
          (∀ j, ¬ (b ≤ j ∧ j < sys.GetROMSize) → st'.rom_buf j = st.rom_buf j)) ∧
    ∀ b1, b1 > 0xff00 ∨ b1 ≥ sys.GetROMSize →
      (self.SaveSNSF sys alloc b1 wipe tags).1 = none := by
  refine ⟨⟨_, SnsfOpt.SaveSNSF_saved self sys alloc b wipe tags hloaded hb hbn, rfl, rfl, rfl,
    ?_, ?_, ?_, ?_, ?_⟩, ?_⟩
  · simp [ExeStream.write, ExeStream.writeInt, ExeStream.empty]
  · intro i hi
    simp only [ExeStream.write, ExeStream.writeInt, ExeStream.empty, Nat.zero_add, Nat.sub_zero,
      Nat.zero_le, true_and]
    rw [if_neg (by omega), if_neg (by omega), if_pos hi]
  · intro i hi
    have e : 4 + i - (0 + 4) = i := by omega
    simp only [ExeStream.write, ExeStream.writeInt, ExeStream.empty]
    rw [if_neg (by omega), if_pos (by omega), e]
  · intro i hi
    simp [ExeStream.write, ExeStream.writeInt, ExeStream.empty, hi]
  · intro fs filename st hload
    have e : b + (sys.GetROMSize - b) = sys.GetROMSize := by omega
    obtain ⟨st', h1, h2, h3, h4, h5⟩ := ReadSNSFFile_saved fs filename st tags b
      (sys.GetROMSize - b) _ hlib hlib2 hb (by omega) (by omega) hload
    rw [e] at h3 h4 h5
    exact ⟨st', h1, h2, h3, h4, h5⟩
  · intro b1 h1
    rw [SnsfOpt.SaveSNSF_refused self sys alloc b1 wipe tags h1]

/-- C19 on the three-byte ROM 11, 12, 13 saved with base offset 1 and the tag
`snsfby`. -/
theorem SaveSNSF_roundtrip_witness :
    (∃ c, (SnsfOpt.initial.SaveSNSF threeBytes (fun _ => 0) 1 false
          [(TagKey.other "snsfby", "x")]).1 = some c ∧
      c.version = 0x23 ∧ c.tags = [(TagKey.other "snsfby", "x")] ∧ c.reserved = [] ∧
      c.compressed_exe.size = 8 + (threeBytes.GetROMSize - 1) ∧
      (∀ i, i < 4 → c.compressed_exe.data i = (le4 1).getD i 0) ∧
      (∀ i, i < 4 → c.compressed_exe.data (4 + i) = (le4 (threeBytes.GetROMSize - 1)).getD i 0) ∧
      (∀ i, i < threeBytes.GetROMSize - 1 →
        c.compressed_exe.data (8 + i) =
          (SnsfOpt.initial.GetROM threeBytes (fun _ => 0) threeBytes.GetROMSize false).2.1
            (1 + i)) ∧
      ∀ (fs : FileSystem) (filename : String) (st : ReadState),
        fs.load (enterDir fs st.cwd filename) filename = some c →
        ∃ st', ReadSNSFFile fs filename 0 ⟨true, true, true⟩ st = some (true, st') ∧
          st'.base_offset = 1 ∧ st'.rom_size = threeBytes.GetROMSize ∧
          (∀ j, 1 ≤ j → j < threeBytes.GetROMSize →
            st'.rom_buf j =
              (SnsfOpt.initial.GetROM threeBytes (fun _ => 0) threeBytes.GetROMSize false).2.1 j) ∧
          (∀ j, ¬ (1 ≤ j ∧ j < threeBytes.GetROMSize) → st'.rom_buf j = st.rom_buf j)) ∧
    ∀ b1, b1 > 0xff00 ∨ b1 ≥ threeBytes.GetROMSize →
      (SnsfOpt.initial.SaveSNSF threeBytes (fun _ => 0) b1 false
        [(TagKey.other "snsfby", "x")]).1 = none :=
  SaveSNSF_roundtrip SnsfOpt.initial threeBytes (fun _ => 0) 1 false
    [(TagKey.other "snsfby", "x")] rfl (by decide) (by decide) (by decide) (by decide) (by decide)

/-! ### C21 -/

/-- C21: every call of `ReadSNSFFile`, at any nesting level and whether it
succeeds or fails, returns, and the working directory after the call is the
working directory before it. -/
theorem ReadSNSFFile_restores_cwd (fs : FileSystem) (filename : String) (nesting_level : Nat)
    (p : Pointers) (st : ReadState) :
    ∃ r, ReadSNSFFile fs filename nesting_level p st = some r ∧ r.2.cwd = st.cwd := by
  obtain ⟨r, hr⟩ := ReadSNSFFile_total fs filename nesting_level p st
  exact ⟨r, hr, ReadSNSFFile_cwd fs filename nesting_level p st r hr⟩

/-! ### C23 -/

/-- C23, as stated, fails: outside delayed mode, with no snapshot ready, the
predicate returns true once the time has reached `optimize_timeout` (10 here);
no snapshot is popped or forced. -/
theorem SPCDump_Finished_timeout_without_delay :
    SnsfOpt.initial.optimize_timeout = 10 ∧
    (SnsfOpt.initial.SPCDump_Finished false none
        { HasSPCDumpFinished := false, PopSPCDump := none, DumpSPCSnapshotImmediately := some 7 }
        (Output.atTime 10 0 0)).finished = true ∧
    (SnsfOpt.initial.SPCDump_Finished false none
        { HasSPCDumpFinished := false, PopSPCDump := none, DumpSPCSnapshotImmediately := some 7 }
        (Output.atTime 10 0 0)).spc_snapshot_dumped = none := by
  decide

/-- C23, amended: `SPCDump_Finished` returns true exactly when the run is not
in delayed mode and the emulator reports a snapshot ready, or the current time
is at least `optimize_timeout` (in either mode). In the first case the snapshot
is popped and, unless it is NULL, becomes the result; in delayed mode at the
timeout a snapshot is forced and becomes the result; outside delayed mode at the
timeout with no snapshot ready nothing is popped or forced. In delayed mode the
run never stops before the timeout. -/
theorem SPCDump_Finished_spec (self : SnsfOpt) (DelayedSPCDump : Bool)
    (spc_snapshot_dumped : Option SPCFile) (emu : SPCDumper) (out : Output) :
    ((self.SPCDump_Finished DelayedSPCDump spc_snapshot_dumped emu out).finished = true ↔
      (DelayedSPCDump = false ∧ emu.HasSPCDumpFinished = true) ∨
        out.get_timer ≥ self.optimize_timeout) ∧
    (DelayedSPCDump = false → emu.HasSPCDumpFinished = true →
      (self.SPCDump_Finished DelayedSPCDump spc_snapshot_dumped emu out).popped = true ∧
      (self.SPCDump_Finished DelayedSPCDump spc_snapshot_dumped emu out).forced = false ∧
      (self.SPCDump_Finished DelayedSPCDump spc_snapshot_dumped emu out).spc_snapshot_dumped =
        (match emu.PopSPCDump with
         | some spc_file => some spc_file
         | none => spc_snapshot_dumped)) ∧
    (DelayedSPCDump = false → emu.HasSPCDumpFinished = false →
      (self.SPCDump_Finished DelayedSPCDump spc_snapshot_dumped emu out).popped = false ∧
      (self.SPCDump_Finished DelayedSPCDump spc_snapshot_dumped emu out).forced = false ∧
      (self.SPCDump_Finished DelayedSPCDump spc_snapshot_dumped emu out).spc_snapshot_dumped
        = spc_snapshot_dumped) ∧
    (DelayedSPCDump = true →
      ((self.SPCDump_Finished DelayedSPCDump spc_snapshot_dumped emu out).finished = true ↔
        out.get_timer ≥ self.optimize_timeout) ∧
      (self.SPCDump_Finished DelayedSPCDump spc_snapshot_dumped emu out).popped = false ∧
      (out.get_timer ≥ self.optimize_timeout →
        (self.SPCDump_Finished DelayedSPCDump spc_snapshot_dumped emu out).forced = true ∧
        (self.SPCDump_Finished DelayedSPCDump spc_snapshot_dumped emu out).spc_snapshot_dumped
          = emu.DumpSPCSnapshotImmediately) ∧
      (out.get_timer < self.optimize_timeout →
        (self.SPCDump_Finished DelayedSPCDump spc_snapshot_dumped emu out).forced = false ∧
        (self.SPCDump_Finished DelayedSPCDump spc_snapshot_dumped emu out).spc_snapshot_dumped
          = spc_snapshot_dumped)) := by
  unfold SnsfOpt.SPCDump_Finished
  cases DelayedSPCDump <;> cases hh : emu.HasSPCDumpFinished <;>
    by_cases ht : out.get_timer ≥ self.optimize_timeout <;>
    simp [ht]

/-! ### C22 -/

theorem MergeRefs_mono (a b : Mem) (n : Nat) (hn : n < 2 ^ 32) (ha : ∀ i, a i ≤ 255) (i : Nat) :
    a i ≤ (MergeRefs a b n).1 i ∧ (MergeRefs a b n).1 i ≤ 255 := by
  obtain ⟨h1, h2, _⟩ := MergeRefs_inv a b n hn
  have hai := ha i
  by_cases hi : i < n
  · rw [h1 i hi]
    omega
  · rw [h2 i (by omega)]
    omega

theorem SnsfOpt.GetROM_rom_refs (self : SnsfOpt) (sys : SNESSystem) (rom : Mem) (size : Nat)
    (wipe : Bool) : (self.GetROM sys rom size wipe).2.2.rom_refs = self.rom_refs := by
  unfold SnsfOpt.GetROM
  simp only []
  split_ifs <;> rfl

theorem SnsfOpt.Optimize_AfterLoop_rom_refs (self : SnsfOpt) (sys : SNESSystem) (out : Output) :
    (self.Optimize_AfterLoop sys out).rom_refs = self.rom_refs := by
  unfold SnsfOpt.Optimize_AfterLoop SnsfOpt.AdjustOptimizationEndPoint SnsfOpt.DetectOneShot
  simp only []
  split_ifs <;> rfl

theorem SnsfOpt.Optimize_iteration_rom_refs (self : SnsfOpt)
    (it : SNESSystem × SNESSystem × Output) :
    (self.Optimize_iteration it).rom_refs = self.rom_refs := by
  unfold SnsfOpt.Optimize_iteration
  rw [SnsfOpt.Optimize_AfterLoop_rom_refs]
  rfl

theorem SnsfOpt.optimizeRun_rom_refs (iters : List (SNESSystem × SNESSystem × Output)) :
    ∀ self : SnsfOpt, (self.optimizeRun iters).rom_refs = self.rom_refs := by
  induction iters with
  | nil => intro self; rfl
  | cons it rest ih =>
    intro self
    show ((self.Optimize_iteration it).optimizeRun rest).rom_refs = self.rom_refs
    rw [ih, SnsfOpt.Optimize_iteration_rom_refs]

/-- C22: when the counters of the accumulator `rom_refs` are bytes, `LoadROM`
and `ResetGame` leave every counter at least as large as it was and at most
255; `GetROM` (with either flag, hence `SaveSNSF` too), `Optimize_Start`,
`Optimize_BeforeLoop`, `Optimize_AfterLoop`, `Optimize_End` and every run of
driver passes leave the accumulator as it was; `ResetOptimizer` sets all
0x800800 counters to 0. -/
theorem rom_refs_never_decrease (s : Session) (hbyte : ∀ i, s.opt.rom_refs i ≤ 255)
    (hsize : s.m_system.GetROMSize < 2 ^ 32) :
    (∀ (emu : Mem → Nat → Mem → Nat → SNESSystem) (rom sram : Mem) (romsize sramsize i : Nat),
      s.opt.rom_refs i ≤ (SnsfOpt.LoadROM emu s rom romsize sram sramsize).2.opt.rom_refs i ∧
      (SnsfOpt.LoadROM emu s rom romsize sram sramsize).2.opt.rom_refs i ≤ 255) ∧
    (∀ (reset : SNESSystem → SNESSystem) (i : Nat),
      s.opt.rom_refs i ≤ (SnsfOpt.ResetGame reset s).opt.rom_refs i ∧
      (SnsfOpt.ResetGame reset s).opt.rom_refs i ≤ 255) ∧
    (∀ (sys : SNESSystem) (rom : Mem) (size : Nat) (wipe : Bool),
      (s.opt.GetROM sys rom size wipe).2.2.rom_refs = s.opt.rom_refs) ∧
    (∀ (sys : SNESSystem) (alloc : Mem) (b : Nat) (wipe : Bool) (tags : List (TagKey × String)),
      (s.opt.SaveSNSF sys alloc b wipe tags).2.rom_refs = s.opt.rom_refs) ∧
    (∀ (sys : SNESSystem) (out : Output),
      (s.opt.Optimize_Start sys out).rom_refs = s.opt.rom_refs ∧
      (s.opt.Optimize_BeforeLoop sys).rom_refs = s.opt.rom_refs ∧
      (s.opt.Optimize_AfterLoop sys out).rom_refs = s.opt.rom_refs) ∧
    s.opt.Optimize_End.rom_refs = s.opt.rom_refs ∧
    (∀ iters : List (SNESSystem × SNESSystem × Output),
      (s.opt.optimizeRun iters).rom_refs = s.opt.rom_refs) ∧
    (∀ i, i < 0x800800 → s.opt.ResetOptimizer.rom_refs i = 0) := by
  refine ⟨?_, ?_, ?_, ?_, ?_, rfl, ?_, ?_⟩
  · intro emu rom sram romsize sramsize i
    unfold SnsfOpt.LoadROM
    simp only []
    split_ifs
    · exact MergeRefs_mono _ _ _ hsize hbyte i
    · exact ⟨le_refl _, hbyte i⟩
  · intro reset i
    unfold SnsfOpt.ResetGame
    split_ifs
    · exact ⟨le_refl _, hbyte i⟩
    · exact MergeRefs_mono _ _ _ hsize hbyte i
  · intro sys rom size wipe
    exact SnsfOpt.GetROM_rom_refs s.opt sys rom size wipe
  · intro sys alloc b wipe tags
    unfold SnsfOpt.SaveSNSF
    simp only []
    split_ifs
    · rfl
    · exact SnsfOpt.GetROM_rom_refs s.opt sys alloc _ wipe
    · exact SnsfOpt.GetROM_rom_refs s.opt sys alloc _ wipe
  · intro sys out
    refine ⟨rfl, rfl, ?_⟩
    exact SnsfOpt.Optimize_AfterLoop_rom_refs s.opt sys out
  · intro iters
    exact SnsfOpt.optimizeRun_rom_refs iters s.opt
  · intro i hi
    unfold SnsfOpt.ResetOptimizer
    simp only []
    exact if_pos hi

/-- C22 on the session with the three-byte ROM loaded and an empty
accumulator. -/
theorem rom_refs_never_decrease_witness :
    (∀ (emu : Mem → Nat → Mem → Nat → SNESSystem) (rom sram : Mem) (romsize sramsize i : Nat),
      Session.loaded.opt.rom_refs i
        ≤ (SnsfOpt.LoadROM emu Session.loaded rom romsize sram sramsize).2.opt.rom_refs i ∧
      (SnsfOpt.LoadROM emu Session.loaded rom romsize sram sramsize).2.opt.rom_refs i ≤ 255) ∧
    (∀ (reset : SNESSystem → SNESSystem) (i : Nat),
      Session.loaded.opt.rom_refs i ≤ (SnsfOpt.ResetGame reset Session.loaded).opt.rom_refs i ∧
      (SnsfOpt.ResetGame reset Session.loaded).opt.rom_refs i ≤ 255) ∧
    (∀ (sys : SNESSystem) (rom : Mem) (size : Nat) (wipe : Bool),
      (Session.loaded.opt.GetROM sys rom size wipe).2.2.rom_refs = Session.loaded.opt.rom_refs) ∧
    (∀ (sys : SNESSystem) (alloc : Mem) (b : Nat) (wipe : Bool) (tags : List (TagKey × String)),
      (Session.loaded.opt.SaveSNSF sys alloc b wipe tags).2.rom_refs
        = Session.loaded.opt.rom_refs) ∧
    (∀ (sys : SNESSystem) (out : Output),
      (Session.loaded.opt.Optimize_Start sys out).rom_refs = Session.loaded.opt.rom_refs ∧
      (Session.loaded.opt.Optimize_BeforeLoop sys).rom_refs = Session.loaded.opt.rom_refs ∧
      (Session.loaded.opt.Optimize_AfterLoop sys out).rom_refs = Session.loaded.opt.rom_refs) ∧
    Session.loaded.opt.Optimize_End.rom_refs = Session.loaded.opt.rom_refs ∧
    (∀ iters : List (SNESSystem × SNESSystem × Output),
      (Session.loaded.opt.optimizeRun iters).rom_refs = Session.loaded.opt.rom_refs) ∧
    (∀ i, i < 0x800800 → Session.loaded.opt.ResetOptimizer.rom_refs i = 0) :=
  rom_refs_never_decrease Session.loaded (fun _ => Nat.zero_le 255) (by decide)

/-! ### C24 -/

theorem GetROM.run_filled_leading (sys : SNESSystem) (c p : Nat) (refs rom : Mem) (g : Nat)
    (hlead : ∀ k, k < g → isUsed sys refs k = false) :
    ∀ n, n ≤ g → (GetROM.run sys c p refs rom n).paranoid_filled = 0 := by
  intro n
  induction n with
  | zero => intro _; rfl
  | succ n ih =>
    intro hn
    rw [GetROM.run_filled_succ, ih (by omega)]
    have hu : isUsed sys refs n = false := hlead n (by omega)
    have hp : ¬ 0 < postCount sys p refs n := by
      intro h
      obtain ⟨j, hj, hused, _⟩ := (postCount_gt_iff sys p refs n 0).1 h
      rw [hlead j (by omega)] at hused
      exact absurd hused (by simp)
    simp [hu, hp]

/-- C24: in the wipe block of `GetROM`, a run of `g` unused offsets at the
start of the image that the first used offset `g` ends is treated as a closed
gap: with `g ≤ paranoid_closed_area_fill_size` its bytes are those of the
image and the count of preserved bytes grows from 0 to `g` when offset `g` is
processed; with `g` larger its bytes are 0 and nothing is counted. A run of
unused offsets `t .. size-1` at the end of the image keeps the bytes of the
image at the offsets below `t + paranoid_post_fill_size` (when a used offset
precedes the run) and is 0 from there on. -/
theorem GetROM_boundary_runs (self : SnsfOpt) (sys : SNESSystem) (rom : Mem) (size : Nat) :
    (∀ g, g < size →
      (∀ k, k < g → isUsed sys (GetROM.mergedRefs self sys size) k = false) →
      isUsed sys (GetROM.mergedRefs self sys size) g = true →
      (g ≤ self.paranoid_closed_area_fill_size →
        (∀ i, i < g → (GetROM.wipe self sys rom size).rom i = sys.image i) ∧
        (GetROM.run sys self.paranoid_closed_area_fill_size self.paranoid_post_fill_size
          (GetROM.mergedRefs self sys size) rom g).paranoid_filled = 0 ∧
        (GetROM.run sys self.paranoid_closed_area_fill_size self.paranoid_post_fill_size
          (GetROM.mergedRefs self sys size) rom (g + 1)).paranoid_filled = g ∧
        g ≤ (GetROM.wipe self sys rom size).paranoid_filled) ∧
      (self.paranoid_closed_area_fill_size < g →
        (∀ i, i < g → (GetROM.wipe self sys rom size).rom i = 0) ∧
        (GetROM.run sys self.paranoid_closed_area_fill_size self.paranoid_post_fill_size
          (GetROM.mergedRefs self sys size) rom (g + 1)).paranoid_filled = 0)) ∧
    (∀ t, t ≤ size →
      (∀ k, t ≤ k → k < size → isUsed sys (GetROM.mergedRefs self sys size) k = false) →
      (t = 0 ∨ isUsed sys (GetROM.mergedRefs self sys size) (t - 1) = true) →
      ∀ i, t ≤ i → i < size →
        ((1 ≤ t ∧ i < t + self.paranoid_post_fill_size) →
          (GetROM.wipe self sys rom size).rom i = sys.image i) ∧
        (¬ (1 ≤ t ∧ i < t + self.paranoid_post_fill_size) →
          (GetROM.wipe self sys rom size).rom i = 0)) := by
  generalize hrefs : GetROM.mergedRefs self sys size = refs
  have hw : GetROM.wipe self sys rom size =
      GetROM.run sys self.paranoid_closed_area_fill_size self.paranoid_post_fill_size
        refs rom size := by
    unfold GetROM.wipe
    rw [hrefs]
  rw [hw]
  generalize self.paranoid_closed_area_fill_size = c
  generalize self.paranoid_post_fill_size = p
  have hrom := (GetROM.run_rom sys c p refs rom size).1
  constructor
  · intro g hg hlead hused
    have hrl : runLen sys refs g = g := by
      have := runLen_eq_of_run sys refs 0 g (Nat.zero_le g) (fun k _ hk => hlead k hk) (Or.inl rfl)
      omega
    have hpc : ∀ i, i < g → ¬ 0 < postCount sys p refs i := by
      intro i hi h
      obtain ⟨j, hj, hu, _⟩ := (postCount_gt_iff sys p refs i 0).1 h
      rw [hlead j (by omega)] at hu
      exact absurd hu (by simp)
    have hfill := GetROM.run_filled_leading sys c p refs rom g hlead
    have hnext := GetROM.run_filled_succ sys c p refs rom g
    rw [hfill g (le_refl g), hused, hrl] at hnext
    simp only [if_true, Nat.zero_add] at hnext
    constructor
    · intro hc
      rw [if_pos hc] at hnext
      refine ⟨fun i hi => ?_, hfill g (le_refl g), hnext, ?_⟩
      · exact ((hrom i (by omega)).1
          (Or.inr (Or.inr ⟨g, hi, hg, hused, by omega, by omega⟩)))
      · have := GetROM.run_filled_mono sys c p refs rom (g + 1) size (by omega)
        omega
    · intro hc
      rw [if_neg (by omega)] at hnext
      refine ⟨fun i hi => ?_, hnext⟩
      apply (hrom i (by omega)).2
      rintro (h | h | ⟨u, h1, h2, h3, h4, h5⟩)
      · rw [hlead i hi] at h
        exact absurd h (by simp)
      · exact hpc i hi h
      · rcases Nat.lt_trichotomy u g with hlt | heq | hgt
        · rw [hlead u hlt] at h3
          exact absurd h3 (by simp)
        · subst heq
          omega
        · have := runLen_unused sys refs u g (by omega) hgt
          rw [this] at hused
          exact absurd hused (by simp)
  · intro t ht htrail hstart i hti hi
    have hui : isUsed sys refs i = false := htrail i hti hi
    have hcl : ¬ closedBy sys c refs size i := by
      rintro ⟨u, h1, h2, h3, _, _⟩
      rw [htrail u (by omega) h2] at h3
      exact absurd h3 (by simp)
    have hpost : 0 < postCount sys p refs i ↔ (1 ≤ t ∧ i < t + p) := by
      rw [postCount_gt_iff]
      constructor
      · rintro ⟨j, hj, hu, hle⟩
        have hjt : j < t := by
          by_contra hcon
          rw [htrail j (by omega) (by omega)] at hu
          exact absurd hu (by simp)
        omega
      · rintro ⟨h1, h2⟩
        rcases hstart with h0 | h0
        · omega
        · exact ⟨t - 1, by omega, h0, by omega⟩
    constructor
    · intro h
      exact (hrom i hi).1 (Or.inr (Or.inl (hpost.2 h)))
    · intro h
      apply (hrom i hi).2
      rintro (h1 | h1 | h1)
      · rw [hui] at h1
        exact absurd h1 (by simp)
      · exact h (hpost.1 h1)
      · exact hcl h1

/-- C24 on six bytes of which only the third is covered, with `-p 2 -P 1`: the
two leading bytes are kept and counted, the byte after the used one is kept by
the post-fill rule, the last two are 0. -/
theorem GetROM_boundary_runs_witness :
    ((∀ i, i < 2 → (GetROM.wipe boundary_opt sixBytes (fun _ => 0) 6).rom i = sixBytes.image i) ∧
      (GetROM.run sixBytes boundary_opt.paranoid_closed_area_fill_size
          boundary_opt.paranoid_post_fill_size
          (GetROM.mergedRefs boundary_opt sixBytes 6) (fun _ => 0) 2).paranoid_filled = 0 ∧
      (GetROM.run sixBytes boundary_opt.paranoid_closed_area_fill_size
          boundary_opt.paranoid_post_fill_size
          (GetROM.mergedRefs boundary_opt sixBytes 6) (fun _ => 0) (2 + 1)).paranoid_filled = 2 ∧
      2 ≤ (GetROM.wipe boundary_opt sixBytes (fun _ => 0) 6).paranoid_filled) ∧
    (∀ i, 3 ≤ i → i < 6 →
      ((1 ≤ 3 ∧ i < 3 + boundary_opt.paranoid_post_fill_size) →
        (GetROM.wipe boundary_opt sixBytes (fun _ => 0) 6).rom i = sixBytes.image i) ∧
      (¬ (1 ≤ 3 ∧ i < 3 + boundary_opt.paranoid_post_fill_size) →
        (GetROM.wipe boundary_opt sixBytes (fun _ => 0) 6).rom i = 0)) :=
  ⟨((GetROM_boundary_runs boundary_opt sixBytes (fun _ => 0) 6).1 2 (by decide)
      (fun k hk => by interval_cases k <;> decide) (by decide)).1 (by decide),
   (GetROM_boundary_runs boundary_opt sixBytes (fun _ => 0) 6).2 3 (by decide)
      (fun k h1 h2 => by interval_cases k <;> decide) (Or.inr (by decide))⟩
